import Mathlib

/-!
# MiniVSFS: image builder (`mkfs_builder.c`) and file adder (`mkfs_adder.c`)

A shallow embedding of the two tools.  Every C buffer (the loaded image, a
stack record, a block buffer) is a flat byte-addressed memory `Mem`; a pointer
is an offset into it.  Multi-byte fields are stored little-endian at the
offsets of the packed structs.  Machine integers are natural numbers or
integers with the wrap-around written out where a conversion can lose bits.
-/

namespace MiniVSFS

set_option maxRecDepth 20000

/-! ## Memory model -/

/-- Flat byte-addressed memory: the byte held at each offset. -/
abbrev Mem := Nat → Nat

/-- A file on storage: its length and its bytes. -/
structure File where
  size : Nat
  data : Mem

def BS : Nat := 4096
def INODE_SIZE : Nat := 128
def ROOT_INO : Nat := 1
def DIRECT_MAX : Nat := 12
def FILE_TYPE_FILE : Nat := 1
def FILE_TYPE_DIR : Nat := 2
def MODE_FILE : Nat := 0o100000
def MODE_DIR : Nat := 0o040000
def MAGIC : Nat := 0x4D565346

/-- The C call `memset(m + p, v, n)` for a byte value `v`. -/
def memset (m : Mem) (p v n : Nat) : Mem :=
  fun a => if p ≤ a ∧ a < p + n then v else m a

/-- The C call `memcpy(dst + d, src + s, n)` between two buffers. -/
def memcpy (dst : Mem) (d : Nat) (src : Mem) (s n : Nat) : Mem :=
  fun a => if d ≤ a ∧ a < d + n then src (s + (a - d)) else dst a

/-- Assignment to a little-endian field of `w` bytes at offset `p`; the value is
truncated to the width of the field. -/
def store (m : Mem) (p w v : Nat) : Mem :=
  fun a => if p ≤ a ∧ a < p + w then v / 256 ^ (a - p) % 256 else m a

/-- Read of a little-endian field of `w` bytes at offset `p`. -/
def load (m : Mem) (p : Nat) : Nat → Nat
  | 0 => 0
  | w + 1 => m p + 256 * load m (p + 1) w

/-- Conversion of an unsigned value to the 32-bit `int` of the target. -/
def toInt32 (x : Nat) : Int :=
  if x % 2 ^ 32 < 2 ^ 31 then ((x % 2 ^ 32 : Nat) : Int) else ((x % 2 ^ 32 : Nat) : Int) - 2 ^ 32

/-! ## CRC32 -/

/-- One pass of the inner loop of `crc32_init`:
`c = (c & 1) ? (0xEDB88320u ^ (c >> 1)) : (c >> 1)`. -/
def crc32_shift (c : Nat) : Nat :=
  if c &&& 1 ≠ 0 then 0xEDB88320 ^^^ (c >>> 1) else c >>> 1

/-- The value `crc32_init` stores in `CRC32_TAB[i]`: eight passes starting from `i`. -/
def crc32_entry (i : Nat) : Nat :=
  crc32_shift (crc32_shift (crc32_shift (crc32_shift
    (crc32_shift (crc32_shift (crc32_shift (crc32_shift i)))))))

/-- The table `CRC32_TAB` after `crc32_init`: 256 entries. -/
def crc32_init : List Nat := (List.range 256).map crc32_entry

/-- The body of the loop of `crc32`: `c = CRC32_TAB[(c ^ p[i]) & 0xFF] ^ (c >> 8)`. -/
def crc32_step (tab : List Nat) (c b : Nat) : Nat :=
  tab.getD ((c ^^^ b) &&& 0xFF) 0 ^^^ (c >>> 8)

/-- The loop of `crc32`: the value of `c` after `i` bytes of `data`. -/
def crc32_loop (tab : List Nat) (m : Mem) (data : Nat) : Nat → Nat
  | 0 => 0xFFFFFFFF
  | i + 1 => crc32_step tab (crc32_loop tab m data i) (m (data + i))

/-- The function `crc32(data, n)` over the `n` bytes at offset `data` of `m`. -/
def crc32 (m : Mem) (data n : Nat) : Nat :=
  crc32_loop crc32_init m data n ^^^ 0xFFFFFFFF

/-- The bytes of a list laid out from offset 0. -/
def memOfList (bytes : List Nat) : Mem := fun a => bytes.getD a 0

/-- The reflected CRC-32 as the specification words it, one bit at a time:
XOR the byte into the low 8 bits, then eight shift-right steps that XOR in
0xEDB88320 when the low bit is 1. -/
def crc32_bitwise_byte (c b : Nat) : Nat :=
  Nat.iterate (fun x => if x % 2 = 1 then (x / 2) ^^^ 0xEDB88320 else x / 2) 8 (c ^^^ b)

/-- The specification's CRC-32 of a byte sequence: start 0xFFFFFFFF, final XOR 0xFFFFFFFF. -/
def crc32_bitwise (bytes : List Nat) : Nat :=
  bytes.foldl crc32_bitwise_byte 0xFFFFFFFF ^^^ 0xFFFFFFFF

/-! ## Checksum finalizers -/

/-- The function `superblock_crc_finalize(sb)`: zero the checksum field (offset 112),
CRC the `BS - 4` bytes that start at `sb`, store the result in the field. -/
def superblock_crc_finalize (m : Mem) (sb : Nat) : Mem :=
  let m1 := store m (sb + 112) 4 0
  let s := crc32 m1 sb (BS - 4)
  store m1 (sb + 112) 4 s

/-- The function `inode_crc_finalize(ino)`: copy the record to `tmp`, zero `tmp[120..128)`,
CRC `tmp[0..120)`, store it as the 64-bit `inode_crc`. -/
def inode_crc_finalize (m : Mem) (ino : Nat) : Mem :=
  let tmp := memcpy (fun _ => 0) 0 m ino INODE_SIZE
  let tmp := memset tmp 120 0 8
  let c := crc32 tmp 0 120
  store m (ino + 120) 8 c

/-- The loop of `dirent_checksum_finalize`: the 8-bit `x` after `i` bytes. -/
def dirent_xor (m : Mem) (de : Nat) : Nat → Nat
  | 0 => 0
  | i + 1 => (dirent_xor m de i ^^^ m (de + i)) % 256

/-- The function `dirent_checksum_finalize(de)`. -/
def dirent_checksum_finalize (m : Mem) (de : Nat) : Mem :=
  store m (de + 63) 1 (dirent_xor m de 63)

/-! ## Bitmap allocator -/

/-- The inner loop of `find_free_bit` over the bits of one byte, from `bit_idx` on, with
`k` passes left: `some r` when the loop returns `r`, `none` when it runs to its end. -/
def find_free_bit_bits (m : Mem) (bitmap max_bits byte_idx : Nat) : Nat → Nat → Option Int
  | 0, _ => none
  | k + 1, bit_idx =>
    let bit_pos := (byte_idx * 8 + bit_idx) % 2 ^ 64
    if bit_pos ≥ max_bits then some (-1)
    else if m (bitmap + byte_idx) &&& (1 <<< bit_idx) = 0 then some (toInt32 bit_pos)
    else find_free_bit_bits m bitmap max_bits byte_idx k (bit_idx + 1)

/-- The outer loop of `find_free_bit` from `byte_idx` on, with `k` bytes left. -/
def find_free_bit_bytes (m : Mem) (bitmap max_bits : Nat) : Nat → Nat → Int
  | 0, _ => -1
  | k + 1, byte_idx =>
    if m (bitmap + byte_idx) ≠ 0xFF then
      match find_free_bit_bits m bitmap max_bits byte_idx 8 0 with
      | some r => r
      | none => find_free_bit_bytes m bitmap max_bits k (byte_idx + 1)
    else find_free_bit_bytes m bitmap max_bits k (byte_idx + 1)

/-- The function `find_free_bit(bitmap, max_bits)`; `bitmap` is the offset of the bitmap
in `m`. -/
def find_free_bit (m : Mem) (bitmap max_bits : Nat) : Int :=
  find_free_bit_bytes m bitmap max_bits ((max_bits + 7) % 2 ^ 64 / 8) 0

/-- The function `set_bit(bitmap, bit_pos)`. -/
def set_bit (m : Mem) (bitmap : Nat) (bit_pos : Int) : Mem :=
  let byte_idx := Int.tdiv bit_pos 8
  let bit_idx := Int.tmod bit_pos 8
  let p := ((bitmap : Int) + byte_idx).toNat
  fun a => if a = p then (m p ||| (1 <<< bit_idx.toNat)) % 256 else m a

/-- Bit `k` of the bitmap at offset `bitmap` is clear (byte `k / 8`, bit `k % 8`). -/
def bitClear (m : Mem) (bitmap k : Nat) : Prop :=
  m (bitmap + k / 8) &&& (1 <<< (k % 8)) = 0

instance (m : Mem) (bitmap k : Nat) : Decidable (bitClear m bitmap k) := by
  unfold bitClear; infer_instance

/-! ## C strings -/

/-- The C call `strlen(s)`: the number of characters before the first NUL. -/
def strlen : List Nat → Nat
  | [] => 0
  | c :: cs => if c = 0 then 0 else strlen cs + 1

/-- The C call `strcpy(m + dst, s)`: the characters of `s`, each one byte, and the closing
NUL. -/
def strcpy (m : Mem) (dst : Nat) (s : List Nat) : Mem :=
  fun a => if dst ≤ a ∧ a < dst + strlen s then s.getD (a - dst) 0 % 256
    else if a = dst + strlen s then 0 else m a

/-- The C call `fwrite(buf + p, 1, n, f)` on a stream opened for writing: `n` bytes of the
buffer are appended to the file. -/
def fwrite (f : File) (buf : Mem) (p n : Nat) : File :=
  { size := f.size + n
    data := fun a => if f.size ≤ a ∧ a < f.size + n then buf (p + (a - f.size)) else f.data a }

/-! ## Field accessors of the superblock (offsets of the packed struct) -/

def sb_magic (sb : Mem) : Nat := load sb 0 4
def sb_total_blocks (sb : Mem) : Nat := load sb 12 8
def sb_inode_count (sb : Mem) : Nat := load sb 20 8
def sb_inode_bitmap_start (sb : Mem) : Nat := load sb 28 8
def sb_inode_bitmap_blocks (sb : Mem) : Nat := load sb 36 8
def sb_data_bitmap_start (sb : Mem) : Nat := load sb 44 8
def sb_data_bitmap_blocks (sb : Mem) : Nat := load sb 52 8
def sb_inode_table_start (sb : Mem) : Nat := load sb 60 8
def sb_inode_table_blocks (sb : Mem) : Nat := load sb 68 8
def sb_data_region_start (sb : Mem) : Nat := load sb 76 8
def sb_data_region_blocks (sb : Mem) : Nat := load sb 84 8
def sb_mtime_epoch (sb : Mem) : Nat := load sb 100 8
def sb_checksum (sb : Mem) : Nat := load sb 112 4

/-! ## The image builder (`mkfs_builder.c`) -/

/-- The range checks at the end of the builder's `parse_args`. -/
def parse_args_ok (size_kib inodes : Nat) : Bool :=
  !(size_kib < 180 || size_kib > 4096) && !(size_kib % 4 != 0)
    && !(inodes < 128 || inodes > 512)

/-- The messages the builder writes to `stderr` before it exits with status 1 on a run
whose file operations succeed (the usage line `main` adds after a failure of `parse_args`
is left out). -/
inductive BuilderDiag where
  /-- The message "Error: --size-kib must be between 180 and 4096". -/
  | size_kib_out_of_range
  /-- The message "Error: --size-kib must be a multiple of 4". -/
  | size_kib_not_multiple_of_4
  /-- The message "Error: --inodes must be between 128 and 512". -/
  | inodes_out_of_range
  /-- The message "Error: Not enough space for data region". -/
  | not_enough_space_for_data_region
  deriving DecidableEq

/-- The range checks at the end of the builder's `parse_args`, in their order: the message
of the first check that fails. -/
def parse_args_diag (size_kib inodes : Nat) : Option BuilderDiag :=
  if size_kib < 180 ∨ size_kib > 4096 then some BuilderDiag.size_kib_out_of_range
  else if size_kib % 4 ≠ 0 then some BuilderDiag.size_kib_not_multiple_of_4
  else if inodes < 128 ∨ inodes > 512 then some BuilderDiag.inodes_out_of_range
  else none

/-- The 64-bit value `(size_kib * 1024) / BS`. -/
def layout_total_blocks (size_kib : Nat) : Nat := (size_kib * 1024) % 2 ^ 64 / BS

/-- The 64-bit value `(inode_count * INODE_SIZE + BS - 1) / BS`. -/
def layout_inode_table_blocks (inode_count : Nat) : Nat :=
  (inode_count * INODE_SIZE + BS - 1) % 2 ^ 64 / BS

/-- The 64-bit value `3 + inode_table_blocks`. -/
def layout_data_region_start (inode_count : Nat) : Nat :=
  (3 + layout_inode_table_blocks inode_count) % 2 ^ 64

/-- The 64-bit value `total_blocks - data_region_start`, which wraps when negative. -/
def layout_data_region_blocks (size_kib inode_count : Nat) : Nat :=
  (layout_total_blocks size_kib + 2 ^ 64 - layout_data_region_start inode_count) % 2 ^ 64

/-- The function `create_superblock(sb, size_kib, inode_count)`; `now` is what `time(NULL)`
returns and `flags` what `rand()` returns. -/
def create_superblock (m : Mem) (sb size_kib inode_count now flags : Nat) : Mem :=
  let m := memset m sb 0 116
  let m := store m (sb + 0) 4 MAGIC
  let m := store m (sb + 4) 4 1
  let m := store m (sb + 8) 4 BS
  let m := store m (sb + 12) 8 (layout_total_blocks size_kib)
  let m := store m (sb + 20) 8 inode_count
  let m := store m (sb + 28) 8 1
  let m := store m (sb + 36) 8 1
  let m := store m (sb + 44) 8 2
  let m := store m (sb + 52) 8 1
  let m := store m (sb + 60) 8 3
  let m := store m (sb + 68) 8 (layout_inode_table_blocks inode_count)
  let m := store m (sb + 76) 8 (layout_data_region_start inode_count)
  let m := store m (sb + 84) 8 (layout_data_region_blocks size_kib inode_count)
  let m := store m (sb + 92) 8 ROOT_INO
  let m := store m (sb + 100) 8 now
  store m (sb + 108) 4 flags

/-- The loop `direct[i] = 0` for `i` from `start` on, after `k` passes (the root inode's loop
starts at 1, the new inode's at `blocks_found`). -/
def clear_direct (m : Mem) (ino start : Nat) : Nat → Mem
  | 0 => m
  | k + 1 => store (clear_direct m ino start k) (ino + 44 + 4 * (start + k)) 4 0

/-- The function `create_root_inode(root_ino, data_block)`. -/
def create_root_inode (m : Mem) (root_ino data_block now : Nat) : Mem :=
  let m := memset m root_ino 0 128
  let m := store m (root_ino + 0) 2 MODE_DIR
  let m := store m (root_ino + 2) 2 2
  let m := store m (root_ino + 4) 4 0
  let m := store m (root_ino + 8) 4 0
  let m := store m (root_ino + 12) 8 (2 * 64)
  let m := store m (root_ino + 20) 8 now
  let m := store m (root_ino + 28) 8 now
  let m := store m (root_ino + 36) 8 now
  let m := store m (root_ino + 44) 4 data_block
  let m := clear_direct m root_ino 1 11
  let m := store m (root_ino + 92) 4 0
  let m := store m (root_ino + 96) 4 0
  let m := store m (root_ino + 100) 4 0
  let m := store m (root_ino + 104) 4 1
  let m := store m (root_ino + 108) 4 0
  store m (root_ino + 112) 8 0

/-- The function `create_root_directory_entries(entries)`: "." and "..". -/
def create_root_directory_entries (m : Mem) (entries : Nat) : Mem :=
  let m := memset m entries 0 64
  let m := store m (entries + 0) 4 ROOT_INO
  let m := store m (entries + 4) 1 FILE_TYPE_DIR
  let m := strcpy m (entries + 5) [46]
  let m := memset m (entries + 64) 0 64
  let m := store m (entries + 64 + 0) 4 ROOT_INO
  let m := store m (entries + 64 + 4) 1 FILE_TYPE_DIR
  let m := strcpy m (entries + 64 + 5) [46, 46]
  let m := dirent_checksum_finalize m entries
  dirent_checksum_finalize m (entries + 64)

/-- The body shared by the two block-writing loops of the builder's `main`: clear the block
buffer, copy `n` bytes of `first` into it on pass 0, append it to the image.  One call is
`k` passes starting at pass `i`. -/
def write_region (first : Mem) (n : Nat) : Nat → Nat → File × Mem → File × Mem
  | 0, _, st => st
  | k + 1, i, (img, block_buffer) =>
    let block_buffer := memset block_buffer 0 0 BS
    let block_buffer := if i = 0 then memcpy block_buffer 0 first 0 n else block_buffer
    write_region first n k (i + 1) (fwrite img block_buffer 0 BS, block_buffer)

/-- The image file the builder's `main` writes once its checks have passed.  `stack` is the
memory that holds the local `superblock` at offset 0 and whatever follows it; the other
locals are written in full before they are read. -/
def builder_image (stack : Mem) (size_kib inode_count t_sb t_root flags : Nat) : File :=
  let inode_table_blocks := layout_inode_table_blocks inode_count
  let data_region_start := layout_data_region_start inode_count
  let data_region_blocks := layout_data_region_blocks size_kib inode_count
  let superblock := create_superblock stack 0 size_kib inode_count t_sb flags
  let superblock := superblock_crc_finalize superblock 0
  let root_inode := create_root_inode (fun _ => 0) 0 data_region_start t_root
  let root_inode := inode_crc_finalize root_inode 0
  let root_entries := create_root_directory_entries (fun _ => 0) 0
  let block_buffer := memset (fun _ => 0) 0 0 BS
  let block_buffer := memcpy block_buffer 0 superblock 0 116
  let img := fwrite ⟨0, fun _ => 0⟩ block_buffer 0 BS
  let block_buffer := memset block_buffer 0 0 BS
  let block_buffer := store block_buffer 0 1 0x01
  let img := fwrite img block_buffer 0 BS
  let block_buffer := memset block_buffer 0 0 BS
  let block_buffer := store block_buffer 0 1 0x01
  let img := fwrite img block_buffer 0 BS
  let st := write_region root_inode 128 inode_table_blocks 0 (img, block_buffer)
  let st := write_region root_entries (2 * 64) data_region_blocks 0 st
  st.1

/-- The builder's `main` on runs whose file operations succeed: the exit status and the
image written. -/
def builder_main (stack : Mem) (size_kib inode_count t_sb t_root flags : Nat) :
    Nat × Option File :=
  if parse_args_ok size_kib inode_count = false then (1, none)
  else if layout_data_region_blocks size_kib inode_count < 1 then (1, none)
  else (0, some (builder_image stack size_kib inode_count t_sb t_root flags))

/-- What the runs of `builder_main` write to `stderr`: the message of `parse_args` when it
fails, the message of the data-region check (line 303) when that fires, nothing when the
image is written. -/
def builder_main_diag (size_kib inode_count : Nat) : Option BuilderDiag :=
  if parse_args_ok size_kib inode_count = false then parse_args_diag size_kib inode_count
  else if layout_data_region_blocks size_kib inode_count < 1 then
    some BuilderDiag.not_enough_space_for_data_region
  else none

/-! ## The file adder (`mkfs_adder.c`) -/

/-- The function `blocks_needed_for_file(file_size)`. -/
def blocks_needed_for_file (file_size : Nat) : Nat :=
  if file_size ≤ 0 then 0 else (file_size + BS - 1) / BS

/-- The data-block scan of `main`, from block index `i` with `k` indices left; `acc` is
`free_blocks[0 .. blocks_found)`. -/
def scan_free_blocks (m : Mem) (data_bitmap drs needed : Nat) : Nat → Nat → List Nat → List Nat
  | 0, _, acc => acc
  | k + 1, i, acc =>
    if acc.length < needed then
      if m (data_bitmap + i / 8) &&& (1 <<< (i % 8)) = 0 then
        scan_free_blocks m data_bitmap drs needed k (i + 1) (acc ++ [(drs + i) % 2 ^ 32])
      else scan_free_blocks m data_bitmap drs needed k (i + 1) acc
    else acc

/-- The loop `new_inode->direct[i] = free_blocks[i]` after `i` passes. -/
def set_direct (m : Mem) (ino : Nat) (free_blocks : List Nat) : Nat → Mem
  | 0 => m
  | i + 1 => store (set_direct m ino free_blocks i) (ino + 44 + 4 * i) 4 (free_blocks.getD i 0)

/-- The construction of the new inode in `main`. -/
def build_inode (m : Mem) (new_inode file_size now : Nat) (free_blocks : List Nat) : Mem :=
  let m := memset m new_inode 0 128
  let m := store m (new_inode + 0) 2 MODE_FILE
  let m := store m (new_inode + 2) 2 1
  let m := store m (new_inode + 4) 4 0
  let m := store m (new_inode + 8) 4 0
  let m := store m (new_inode + 12) 8 file_size
  let m := store m (new_inode + 20) 8 now
  let m := store m (new_inode + 28) 8 now
  let m := store m (new_inode + 36) 8 now
  let m := set_direct m new_inode free_blocks free_blocks.length
  let m := clear_direct m new_inode free_blocks.length (DIRECT_MAX - free_blocks.length)
  let m := store m (new_inode + 92) 4 0
  let m := store m (new_inode + 96) 4 0
  let m := store m (new_inode + 100) 4 0
  let m := store m (new_inode + 104) 4 0
  let m := store m (new_inode + 108) 4 0
  store m (new_inode + 112) 8 0

/-- The 64-bit value `free_blocks[i] - superblock.data_region_start`. -/
def block_index (free_block drs : Nat) : Nat := (free_block + 2 ^ 64 - drs % 2 ^ 64) % 2 ^ 64

/-- The loop of `main` that reads the file into the blocks, after `i` passes.  The stream
is at offset `i * BS` when pass `i` starts. -/
def write_blocks (m : Mem) (data_region drs : Nat) (free_blocks : List Nat) (file : File) :
    Nat → Mem
  | 0 => m
  | i + 1 =>
    let m := write_blocks m data_region drs free_blocks file i
    let block_offset := block_index (free_blocks.getD i 0) drs * BS % 2 ^ 64
    let block_ptr := data_region + block_offset
    let bytes_to_read := if i + 1 = free_blocks.length then file.size - i * BS else BS
    let m := memcpy m block_ptr file.data (i * BS) bytes_to_read
    if bytes_to_read < BS then memset m (block_ptr + bytes_to_read) 0 (BS - bytes_to_read)
    else m

/-- The loop of `main` that marks the data blocks, after `i` passes. -/
def mark_blocks (m : Mem) (data_bitmap drs : Nat) (free_blocks : List Nat) : Nat → Mem
  | 0 => m
  | i + 1 =>
    set_bit (mark_blocks m data_bitmap drs free_blocks i) data_bitmap
      (toInt32 (block_index (free_blocks.getD i 0) drs))

/-- The scan of the root directory block for an entry with `inode_no == 0`, from entry `i`
with `k` entries left; -1 when there is none. -/
def find_free_entry (m : Mem) (root_entries : Nat) : Nat → Nat → Int
  | 0, _ => -1
  | k + 1, i =>
    if load m (root_entries + i * 64) 4 = 0 then (i : Int)
    else find_free_entry m root_entries k (i + 1)

/-- Lines 344-405 of `main`: build the new inode in its slot, read the file into the
blocks found, set the inode bit and the block bits. -/
def alloc_stage (sb image_data : Mem) (file : File) (now : Nat) (free_inode : Int)
    (free_blocks : List Nat) : Mem :=
  let inode_bitmap := sb_inode_bitmap_start sb * BS
  let data_bitmap := sb_data_bitmap_start sb * BS
  let inode_table := sb_inode_table_start sb * BS
  let data_region := sb_data_region_start sb * BS
  let new_inode := inode_table + free_inode.toNat * INODE_SIZE
  let image_data := build_inode image_data new_inode file.size now free_blocks
  let image_data := write_blocks image_data data_region (sb_data_region_start sb)
    free_blocks file free_blocks.length
  let image_data := set_bit image_data inode_bitmap free_inode
  mark_blocks image_data data_bitmap (sb_data_region_start sb) free_blocks free_blocks.length

/-- Lines 430-433 of `main`: clear the free directory entry, set its inode number and
type. -/
def entry_stage (sb image_data : Mem) (free_inode free_entry : Int) : Mem :=
  let new_entry := sb_data_region_start sb * BS + free_entry.toNat * 64
  let image_data := memset image_data new_entry 0 64
  let image_data := store image_data (new_entry + 0) 4 (free_inode + 1).toNat
  store image_data (new_entry + 4) 1 FILE_TYPE_FILE

/-- Lines 442-454 of `main`, the local superblock copy left aside: copy the name, update
the root inode, finalize the two inodes, the entry and the superblock of the image. -/
def link_stage (sb image_data : Mem) (free_inode free_entry : Int) (filename : List Nat)
    (now : Nat) : Mem :=
  let root_inode := sb_inode_table_start sb * BS
  let new_inode := root_inode + free_inode.toNat * INODE_SIZE
  let new_entry := sb_data_region_start sb * BS + free_entry.toNat * 64
  let image_data := strcpy image_data (new_entry + 5) filename
  let image_data := store image_data (root_inode + 12) 8 (load image_data (root_inode + 12) 8 + 64)
  let image_data := store image_data (root_inode + 2) 2 (load image_data (root_inode + 2) 2 + 1)
  let image_data := store image_data (root_inode + 28) 8 now
  let image_data := store image_data (root_inode + 36) 8 now
  let image_data := inode_crc_finalize image_data new_inode
  let image_data := inode_crc_finalize image_data root_inode
  let image_data := dirent_checksum_finalize image_data new_entry
  superblock_crc_finalize image_data 0

/-- The messages the adder writes to `stderr` before it exits with status 1 on a run whose
file operations succeed. -/
inductive AdderDiag where
  /-- The message "Error: File too large (needs %lu blocks, max %d)". -/
  | file_too_large
  /-- The message "Error reading superblock". -/
  | error_reading_superblock
  /-- The message "Error: Invalid file system magic number". -/
  | invalid_magic_number
  /-- The message "Error: No free inodes available". -/
  | no_free_inodes
  /-- The message "Error: Not enough free data blocks (need %lu, found %d)". -/
  | not_enough_free_data_blocks
  /-- The message "Error: Root directory is full". -/
  | root_directory_full
  /-- The message "Error: Filename too long (max 57 characters)". -/
  | filename_too_long
  deriving DecidableEq

/-- What the adder's `main` leaves behind: the exit status, the local `superblock` copy and
the in-memory image at the moment of exit, the output file when one is written, and the
message written to `stderr` when the run fails. -/
structure AdderResult where
  exit_code : Nat
  superblock : Mem
  image_data : Mem
  output : Option File
  message : Option AdderDiag

/-- The local `superblock` of `main` after the first `fread`: the first 116 bytes of the
input image. -/
def main_superblock (input : File) : Mem := memcpy (fun _ => 0) 0 input.data 0 116

/-- The local `free_inode` of `main`. -/
def main_free_inode (input : File) : Int :=
  find_free_bit input.data (sb_inode_bitmap_start (main_superblock input) * BS)
    (sb_inode_count (main_superblock input))

/-- The local `free_blocks[0 .. blocks_found)` of `main` after the scan. -/
def main_free_blocks (input file : File) : List Nat :=
  scan_free_blocks input.data (sb_data_bitmap_start (main_superblock input) * BS)
    (sb_data_region_start (main_superblock input)) (blocks_needed_for_file file.size)
    (sb_data_region_blocks (main_superblock input)) 0 []

/-- The buffer `image_data` of `main` when the root directory scan starts (line 407). -/
def main_alloc (input file : File) (now : Nat) : Mem :=
  alloc_stage (main_superblock input) input.data file now (main_free_inode input)
    (main_free_blocks input file)

/-- The local `free_entry` of `main`. -/
def main_free_entry (input file : File) (now : Nat) : Int :=
  find_free_entry (main_alloc input file now)
    (sb_data_region_start (main_superblock input) * BS) (BS / 64) 0

/-- The buffer `image_data` of `main` when the name length is checked (line 436). -/
def main_entry (input file : File) (now : Nat) : Mem :=
  entry_stage (main_superblock input) (main_alloc input file now) (main_free_inode input)
    (main_free_entry input file now)

/-- The buffer `image_data` of `main` when the output file is opened (line 456). -/
def main_link (input file : File) (filename : List Nat) (now : Nat) : Mem :=
  link_stage (main_superblock input) (main_entry input file now) (main_free_inode input)
    (main_free_entry input file now) filename now

/-- The adder's `main` on runs whose file operations succeed.  `input` is the image read,
`file` the file to add, `filename` what `basename` returns for its path, `now` what
`time(NULL)` returns.  Each exit returns the state of the locals at that point. -/
def adder_main (input file : File) (filename : List Nat) (now : Nat) : AdderResult :=
  if blocks_needed_for_file file.size > DIRECT_MAX then
    ⟨1, fun _ => 0, fun _ => 0, none, some AdderDiag.file_too_large⟩
  else if input.size < 116 then
    ⟨1, fun _ => 0, fun _ => 0, none, some AdderDiag.error_reading_superblock⟩
  else if sb_magic (main_superblock input) ≠ MAGIC then
    ⟨1, main_superblock input, fun _ => 0, none, some AdderDiag.invalid_magic_number⟩
  else if main_free_inode input < 0 then
    ⟨1, main_superblock input, input.data, none, some AdderDiag.no_free_inodes⟩
  else if (main_free_blocks input file).length < blocks_needed_for_file file.size then
    ⟨1, main_superblock input, input.data, none, some AdderDiag.not_enough_free_data_blocks⟩
  else if main_free_entry input file now < 0 then
    ⟨1, main_superblock input, main_alloc input file now, none,
      some AdderDiag.root_directory_full⟩
  else if strlen filename ≥ 58 then
    ⟨1, main_superblock input, main_entry input file now, none,
      some AdderDiag.filename_too_long⟩
  else
    ⟨0, store (main_superblock input) 100 8 now, main_link input file filename now,
      some ⟨input.size, main_link input file filename now⟩, none⟩

/-- A run of insertions, each on the output of the one before; `none` as soon as one of
them writes no output. -/
def insert_all (img : File) : List (File × List Nat × Nat) → Option File
  | [] => some img
  | (file, filename, now) :: rest =>
    match (adder_main img file filename now).output with
    | none => none
    | some out => insert_all out rest

/-! ## Notions the statements use -/

/-- The indices of the `n` lowest clear bits below `limit`, in ascending order. -/
def lowest_clear (m : Mem) (bitmap limit n : Nat) : List Nat :=
  ((List.range limit).filter (fun k => decide (bitClear m bitmap k))).take n

/-- The number of set bits in the one-block bitmap at offset `bitmap`. -/
def popcount (m : Mem) (bitmap : Nat) : Nat :=
  (List.range (8 * BS)).countP (fun k => decide (¬ bitClear m bitmap k))

/-- The layout the format prescribes, read from the stored superblock: bitmaps of one block
(at most `8 * BS` inodes and data blocks), the regions in the order superblock, inode
bitmap, data bitmap, inode table, data region without overlap, all inside the file, and
block numbers that fit 32 bits. -/
def LayoutOk (img : File) : Prop :=
  sb_inode_count img.data ≤ 8 * BS
  ∧ sb_data_region_blocks img.data ≤ 8 * BS
  ∧ 1 ≤ sb_inode_bitmap_start img.data
  ∧ sb_inode_bitmap_start img.data < sb_data_bitmap_start img.data
  ∧ sb_data_bitmap_start img.data < sb_inode_table_start img.data
  ∧ sb_inode_table_start img.data * BS + sb_inode_count img.data * INODE_SIZE
      ≤ sb_data_region_start img.data * BS
  ∧ (sb_data_region_start img.data + sb_data_region_blocks img.data) * BS ≤ img.size
  ∧ sb_data_region_start img.data + sb_data_region_blocks img.data < 2 ^ 32

instance (img : File) : Decidable (LayoutOk img) := by
  unfold LayoutOk; infer_instance

/-- The root directory is allocated: inode bit 0 and data bit 0 are set. -/
def RootAllocated (img : File) : Prop :=
  ¬ bitClear img.data (sb_inode_bitmap_start img.data * BS) 0
  ∧ ¬ bitClear img.data (sb_data_bitmap_start img.data * BS) 0

instance (img : File) : Decidable (RootAllocated img) := by
  unfold RootAllocated; infer_instance

/-- The allocator used repeatedly, as the specification words it: `n` rounds of
`k := find_free_bit(bitmap, limit); set_bit(bitmap, k)`, stopped by the first round whose
`find_free_bit` returns -1.  The result is the indices found, in the order of the rounds,
and whether a round returned not-found. -/
def alloc_rounds (m : Mem) (bitmap limit : Nat) : Nat → List Nat × Bool
  | 0 => ([], false)
  | n + 1 =>
    if find_free_bit m bitmap limit < 0 then ([], true)
    else
      ((find_free_bit m bitmap limit).toNat
          :: (alloc_rounds (set_bit m bitmap (find_free_bit m bitmap limit)) bitmap limit n).1,
        (alloc_rounds (set_bit m bitmap (find_free_bit m bitmap limit)) bitmap limit n).2)

/-- The number of the 64 entries of the directory block at offset `root` whose `inode_no`
is not 0. -/
def occupied_slots (m : Mem) (root : Nat) : Nat :=
  (List.range 64).countP (fun i => decide (load m (root + i * 64) 4 ≠ 0))

/-- The image of Scenario A: 180 KiB, 128 inodes, created at time 1000 with flags 7 on a
zeroed stack. -/
def scenario_image : File := builder_image (fun _ => 0) 180 128 1000 1000 7

/-- The file of Scenario B: 10,000 bytes. -/
def scenario_file : File := ⟨10000, fun a => if a < 10000 then a % 251 + 1 else 0⟩

/-- A file of exactly `12 * 4096` bytes, none of them zero. -/
def boundary_file : File := ⟨49152, fun a => if a < 49152 then a % 251 + 1 else 0⟩

/-- Scenario A's image with every entry of the root directory block in use: `inode_no` 1
in each of the 64 slots of block 7. -/
def full_directory_image : File :=
  ⟨scenario_image.size,
    fun a => if 7 * 4096 ≤ a ∧ a < 8 * 4096 ∧ a % 64 = 0 then 1 else scenario_image.data a⟩

/-- Scenario B's output: the fresh image of Scenario A with the 10,000-byte file "hi"
inserted at time 2000. -/
def scenario_image_with_file : File :=
  ⟨scenario_image.size, main_link scenario_image scenario_file [104, 105] 2000⟩

/-- The XOR of the `n` bytes that start at offset `p`. -/
def xor_bytes (m : Mem) (p : Nat) : Nat → Nat
  | 0 => 0
  | i + 1 => xor_bytes m p i ^^^ m (p + i)

/-- Direct pointer `i` of inode-table slot `s` is zero, or it is the number of a block of
the data region whose data-bitmap bit is set. -/
def PointerOk (img : File) (s i : Nat) : Prop :=
  load img.data (sb_inode_table_start img.data * BS + s * INODE_SIZE + 44 + 4 * i) 4 ≠ 0 →
    sb_data_region_start img.data
        ≤ load img.data (sb_inode_table_start img.data * BS + s * INODE_SIZE + 44 + 4 * i) 4
    ∧ load img.data (sb_inode_table_start img.data * BS + s * INODE_SIZE + 44 + 4 * i) 4
        < sb_data_region_start img.data + sb_data_region_blocks img.data
    ∧ ¬ bitClear img.data (sb_data_bitmap_start img.data * BS)
        (load img.data (sb_inode_table_start img.data * BS + s * INODE_SIZE + 44 + 4 * i) 4
          - sb_data_region_start img.data)

instance (img : File) (s i : Nat) : Decidable (PointerOk img s i) := by
  unfold PointerOk; infer_instance

/-- Bitmap/reference consistency of an image: every inode-table slot below `inode_count`
whose inode-bitmap bit is set references, through each non-zero direct pointer, a block of
the data region whose data-bitmap bit is set; and the root directory block (block 0 of the
data region) has its data-bitmap bit set. -/
def Consistent (img : File) : Prop :=
  (∀ s, s < sb_inode_count img.data →
    ¬ bitClear img.data (sb_inode_bitmap_start img.data * BS) s →
    ∀ i, i < 12 → PointerOk img s i)
  ∧ ¬ bitClear img.data (sb_data_bitmap_start img.data * BS) 0

instance (img : File) : Decidable (Consistent img) := by
  unfold Consistent; infer_instance

/-! ## Theorems -/

/-! ### Memory: reads after writes -/

theorem store_out (m : Mem) (p w v a : Nat) (h : a < p ∨ p + w ≤ a) :
    store m p w v a = m a := by
  unfold store
  rw [if_neg (by omega)]

theorem store_in (m : Mem) (p w v a : Nat) (h1 : p ≤ a) (h2 : a < p + w) :
    store m p w v a = v / 256 ^ (a - p) % 256 := by
  unfold store
  rw [if_pos ⟨h1, h2⟩]

theorem memset_out (m : Mem) (p v n a : Nat) (h : a < p ∨ p + n ≤ a) :
    memset m p v n a = m a := by
  unfold memset
  rw [if_neg (by omega)]

theorem memset_in (m : Mem) (p v n a : Nat) (h1 : p ≤ a) (h2 : a < p + n) :
    memset m p v n a = v := by
  unfold memset
  rw [if_pos ⟨h1, h2⟩]

theorem memcpy_out (dst : Mem) (d : Nat) (src : Mem) (s n a : Nat) (h : a < d ∨ d + n ≤ a) :
    memcpy dst d src s n a = dst a := by
  unfold memcpy
  rw [if_neg (by omega)]

theorem memcpy_in (dst : Mem) (d : Nat) (src : Mem) (s n a : Nat) (h1 : d ≤ a) (h2 : a < d + n) :
    memcpy dst d src s n a = src (s + (a - d)) := by
  unfold memcpy
  rw [if_pos ⟨h1, h2⟩]

theorem strcpy_out (m : Mem) (dst : Nat) (s : List Nat) (a : Nat)
    (h : a < dst ∨ dst + strlen s < a) : strcpy m dst s a = m a := by
  unfold strcpy
  rw [if_neg (by omega), if_neg (by omega)]

theorem load_congr (m m' : Mem) (p p' : Nat) :
    ∀ w, (∀ i, i < w → m (p + i) = m' (p' + i)) → load m p w = load m' p' w := by
  intro w
  induction w generalizing p p' with
  | zero => intro _; rfl
  | succ w ih =>
    intro h
    simp only [load]
    have h0 := h 0 (Nat.succ_pos w)
    simp only [Nat.add_zero] at h0
    rw [h0, ih (p + 1) (p' + 1)]
    intro i hi
    have := h (i + 1) (by omega)
    rw [show p + 1 + i = p + (i + 1) by omega, show p' + 1 + i = p' + (i + 1) by omega]
    exact this

theorem load_eq_of_agree (m m' : Mem) (p w : Nat)
    (h : ∀ a, p ≤ a → a < p + w → m a = m' a) : load m p w = load m' p w :=
  load_congr m m' p p w (fun i hi => h (p + i) (by omega) (by omega))

theorem load_store_sub (m : Mem) (p w v : Nat) :
    ∀ w' k, k + w' ≤ w → load (store m p w v) (p + k) w' = v / 256 ^ k % 256 ^ w' := by
  intro w'
  induction w' with
  | zero => intro k _; simp [load, Nat.mod_one]
  | succ w' ih =>
    intro k hk
    simp only [load]
    rw [show p + k + 1 = p + (k + 1) by omega, ih (k + 1) (by omega),
      store_in m p w v (p + k) (by omega) (by omega), show p + k - p = k by omega]
    have e : v / 256 ^ (k + 1) = v / 256 ^ k / 256 := by
      rw [pow_succ, Nat.div_div_eq_div_mul]
    rw [e, pow_succ, Nat.mul_comm (256 ^ w') 256, Nat.mod_mul, Nat.add_comm]

theorem load_store_same (m : Mem) (p w v : Nat) :
    load (store m p w v) p w = v % 256 ^ w := by
  have := load_store_sub m p w v w 0 (by omega)
  simpa using this

theorem load_store_other (m : Mem) (q w' v p w : Nat) (h : p + w ≤ q ∨ q + w' ≤ p) :
    load (store m q w' v) p w = load m p w :=
  load_eq_of_agree _ _ _ _ (fun a h1 h2 => store_out m q w' v a (by omega))

theorem load_memset_zero (m : Mem) (q n p w : Nat) (h1 : q ≤ p) (h2 : p + w ≤ q + n) :
    load (memset m q 0 n) p w = 0 := by
  induction w generalizing p with
  | zero => rfl
  | succ w ih =>
    simp only [load]
    rw [memset_in m q 0 n p (by omega) (by omega), ih (p + 1) (by omega) (by omega)]

theorem load_lt (m : Mem) (p : Nat) :
    ∀ w, (∀ i, i < w → m (p + i) < 256) → load m p w < 256 ^ w := by
  intro w
  induction w generalizing p with
  | zero => intro _; simp [load]
  | succ w ih =>
    intro h
    simp only [load]
    have h0 := h 0 (Nat.succ_pos w)
    simp only [Nat.add_zero] at h0
    have ih' := ih (p + 1) (fun i hi => by
      have := h (i + 1) (by omega)
      rw [show p + 1 + i = p + (i + 1) by omega]; exact this)
    rw [pow_succ]
    omega

theorem store_byte_lt (m : Mem) (p w v a : Nat) (h : m a < 256) : store m p w v a < 256 := by
  unfold store
  split
  · exact Nat.mod_lt _ (by decide)
  · exact h

theorem crc32_loop_congr (tab : List Nat) (m m' : Mem) (d d' : Nat) :
    ∀ n, (∀ i, i < n → m (d + i) = m' (d' + i)) →
      crc32_loop tab m d n = crc32_loop tab m' d' n := by
  intro n
  induction n with
  | zero => intro _; rfl
  | succ n ih =>
    intro h
    simp only [crc32_loop]
    rw [ih (fun i hi => h i (by omega)), h n (by omega)]

theorem crc32_congr (m m' : Mem) (d d' n : Nat) (h : ∀ i, i < n → m (d + i) = m' (d' + i)) :
    crc32 m d n = crc32 m' d' n := by
  unfold crc32
  rw [crc32_loop_congr crc32_init m m' d d' n h]

theorem dirent_xor_congr (m m' : Mem) (d d' : Nat) :
    ∀ n, (∀ i, i < n → m (d + i) = m' (d' + i)) → dirent_xor m d n = dirent_xor m' d' n := by
  intro n
  induction n with
  | zero => intro _; rfl
  | succ n ih =>
    intro h
    simp only [dirent_xor]
    rw [ih (fun i hi => h i (by omega)), h n (by omega)]

/-! ### CRC32: the table equals the bit-by-bit definition -/

theorem crc32_shift_eq (x : Nat) :
    crc32_shift x = if x % 2 = 1 then (x / 2) ^^^ 0xEDB88320 else x / 2 := by
  unfold crc32_shift
  rw [Nat.and_one_is_mod, Nat.shiftRight_eq_div_pow, pow_one]
  rcases Nat.mod_two_eq_zero_or_one x with h | h
  · simp [h]
  · simp [h, Nat.xor_comm]

theorem xor_right_swap (a b p : Nat) : (a ^^^ b) ^^^ p = (a ^^^ p) ^^^ b := by
  apply Nat.eq_of_testBit_eq
  intro i
  simp only [Nat.testBit_xor]
  cases a.testBit i <;> cases b.testBit i <;> cases p.testBit i <;> rfl

theorem xor_twice_cancel (a b p : Nat) : (a ^^^ p) ^^^ (b ^^^ p) = a ^^^ b := by
  apply Nat.eq_of_testBit_eq
  intro i
  simp only [Nat.testBit_xor]
  cases a.testBit i <;> cases b.testBit i <;> cases p.testBit i <;> rfl

theorem crc32_shift_xor (x y : Nat) :
    crc32_shift (x ^^^ y) = crc32_shift x ^^^ crc32_shift y := by
  rw [crc32_shift_eq, crc32_shift_eq x, crc32_shift_eq y, Nat.xor_div_two]
  have hxy : (x ^^^ y) % 2 = (x + y) % 2 := Nat.xor_mod_two_eq
  have h01 : ¬ (0 : Nat) = 1 := by decide
  rcases Nat.mod_two_eq_zero_or_one x with hx | hx <;>
    rcases Nat.mod_two_eq_zero_or_one y with hy | hy
  · have h : (x ^^^ y) % 2 = 0 := by omega
    simp only [hx, hy, h, h01, if_false]
  · have h : (x ^^^ y) % 2 = 1 := by omega
    simp only [hx, hy, h, h01, if_false, if_true, eq_self_iff_true, Nat.xor_assoc]
  · have h : (x ^^^ y) % 2 = 1 := by omega
    simp only [hx, hy, h, h01, if_false, if_true, eq_self_iff_true]
    exact xor_right_swap _ _ _
  · have h : (x ^^^ y) % 2 = 0 := by omega
    simp only [hx, hy, h, h01, if_false, if_true, eq_self_iff_true]
    exact (xor_twice_cancel _ _ _).symm

theorem crc32_shift_double (z : Nat) : crc32_shift (2 * z) = z := by
  rw [crc32_shift_eq]
  have h : (2 * z) % 2 = 0 := by omega
  simp [h]

theorem crc32_entry_xor (x y : Nat) :
    crc32_entry (x ^^^ y) = crc32_entry x ^^^ crc32_entry y := by
  simp only [crc32_entry, crc32_shift_xor]

theorem crc32_entry_shift (z : Nat) : crc32_entry (256 * z) = z := by
  have e : 256 * z = 2 * (2 * (2 * (2 * (2 * (2 * (2 * (2 * z))))))) := by omega
  rw [e]
  simp only [crc32_entry, crc32_shift_double]

theorem crc32_init_getD (i : Nat) (h : i < 256) : crc32_init.getD i 0 = crc32_entry i := by
  unfold crc32_init
  rw [List.getD_eq_getElem?_getD, List.getElem?_map, List.getElem?_range h]
  rfl

theorem and_255_eq_mod (x : Nat) : x &&& 0xFF = x % 256 :=
  Nat.and_pow_two_sub_one_eq_mod x 8

theorem xor_split_low (x : Nat) : x = (x % 256) ^^^ (256 * (x / 256)) := by
  apply Nat.eq_of_testBit_eq
  intro i
  rw [Nat.testBit_xor]
  have h1 : (x % 256).testBit i = (decide (i < 8) && x.testBit i) :=
    Nat.testBit_mod_two_pow x 8 i
  have h2 : (256 * (x / 256)).testBit i = (decide (i ≥ 8) && x.testBit i) := by
    have e : 256 * (x / 256) = 2 ^ 8 * (x >>> 8) := by
      rw [Nat.shiftRight_eq_div_pow]; rfl
    rw [e, Nat.testBit_mul_pow_two, Nat.testBit_shiftRight]
    by_cases h : 8 ≤ i
    · have : 8 + (i - 8) = i := by omega
      simp [h, this]
    · simp [h]
  rw [h1, h2]
  by_cases h : i < 8
  · have h' : ¬ i ≥ 8 := by omega
    simp [h, h']
  · have h' : i ≥ 8 := by omega
    simp [h, h']

/-- One table-driven step equals eight bit steps. -/
theorem crc32_table_step (c b : Nat) (hb : b < 256) :
    crc32_step crc32_init c b = crc32_entry (c ^^^ b) := by
  unfold crc32_step
  have hidx : (c ^^^ b) &&& 0xFF < 256 := by
    rw [and_255_eq_mod]; exact Nat.mod_lt _ (by decide)
  rw [crc32_init_getD _ hidx, and_255_eq_mod]
  have hsh : c >>> 8 = (c ^^^ b) / 256 := by
    rw [Nat.shiftRight_eq_div_pow]
    apply Nat.eq_of_testBit_eq
    intro i
    have e1 : (c / 2 ^ 8).testBit i = c.testBit (8 + i) := by
      rw [← Nat.shiftRight_eq_div_pow, Nat.testBit_shiftRight]
    have e2 : ((c ^^^ b) / 256).testBit i = (c ^^^ b).testBit (8 + i) := by
      have : (c ^^^ b) / 256 = (c ^^^ b) >>> 8 := by rw [Nat.shiftRight_eq_div_pow]
      rw [this, Nat.testBit_shiftRight]
    have e3 : b.testBit (8 + i) = false :=
      Nat.testBit_lt_two_pow (lt_of_lt_of_le hb
        (Nat.pow_le_pow_right (by decide : 2 > 0) (by omega : 8 ≤ 8 + i)))
    rw [e1, e2, Nat.testBit_xor, e3]; simp
  rw [hsh]
  conv_rhs => rw [xor_split_low (c ^^^ b), crc32_entry_xor, crc32_entry_shift]

theorem crc32_entry_eq_iterate (x : Nat) :
    crc32_entry x
      = Nat.iterate (fun x => if x % 2 = 1 then (x / 2) ^^^ 0xEDB88320 else x / 2) 8 x := by
  simp only [crc32_entry, crc32_shift_eq, Nat.iterate]

/-- The loop of `crc32` over any byte range is the bit-by-bit fold over the bytes read. -/
theorem crc32_loop_eq_foldl (m : Mem) (data : Nat) :
    ∀ n, (∀ i, i < n → m (data + i) < 256) →
      crc32_loop crc32_init m data n
        = ((List.range n).map (fun i => m (data + i))).foldl crc32_bitwise_byte 0xFFFFFFFF := by
  intro n
  induction n with
  | zero => intro _; rfl
  | succ n ih =>
    intro h
    have ih' := ih (fun i hi => h i (Nat.lt_succ_of_lt hi))
    rw [List.range_succ, List.map_append, List.foldl_append, ← ih']
    simp only [List.map_cons, List.map_nil, List.foldl_cons, List.foldl_nil, crc32_loop]
    rw [crc32_table_step _ _ (h n (Nat.lt_succ_self n)), crc32_entry_eq_iterate]
    rfl

theorem range_map_getD (bytes : List Nat) :
    (List.range bytes.length).map (fun i => memOfList bytes (0 + i)) = bytes := by
  apply List.ext_getElem
  · simp
  · intro i h1 h2
    simp [memOfList, List.getD_eq_getElem?_getD, List.getElem?_eq_getElem h2]

/-- C5: for every byte sequence the table-driven `crc32` (table built by `crc32_init`)
equals the reflected CRC-32 defined bit by bit (start 0xFFFFFFFF, XOR each byte into the
low 8 bits, eight shift-right steps XORing 0xEDB88320 on a low 1 bit, final XOR
0xFFFFFFFF). -/
theorem crc32_refines_bitwise (bytes : List Nat) (hb : ∀ b ∈ bytes, b < 256) :
    crc32 (memOfList bytes) 0 bytes.length = crc32_bitwise bytes := by
  unfold crc32 crc32_bitwise
  rw [crc32_loop_eq_foldl, range_map_getD]
  intro i hi
  have : memOfList bytes (0 + i) = bytes[i] := by
    simp [memOfList, List.getD_eq_getElem?_getD, List.getElem?_eq_getElem hi]
  rw [this]
  exact hb _ (List.getElem_mem hi)

/-- C5 at the check inputs: the ASCII digits "123456789" give 0xCBF43926 through the table
and through the bit-by-bit definition, and the empty sequence gives 0. -/
theorem crc32_refines_bitwise_witness :
    (∀ b ∈ [49, 50, 51, 52, 53, 54, 55, 56, 57], b < 256)
    ∧ crc32 (memOfList [49, 50, 51, 52, 53, 54, 55, 56, 57]) 0
        [49, 50, 51, 52, 53, 54, 55, 56, 57].length
        = crc32_bitwise [49, 50, 51, 52, 53, 54, 55, 56, 57]
    ∧ crc32_bitwise [49, 50, 51, 52, 53, 54, 55, 56, 57] = 0xCBF43926
    ∧ crc32 (memOfList []) 0 0 = 0 ∧ crc32_bitwise [] = 0 :=
  ⟨by decide, crc32_refines_bitwise _ (by decide), by decide, by decide, by decide⟩

/-! ### The bitmap allocator -/

theorem toInt32_of_lt (x : Nat) (h : x < 2 ^ 31) : toInt32 x = (x : Int) := by
  unfold toInt32
  have h1 : x % 2 ^ 32 = x := Nat.mod_eq_of_lt (by omega)
  rw [h1, if_pos h]

theorem bitClear_byte (m : Mem) (bitmap B i : Nat) (hi : i < 8) :
    bitClear m bitmap (B * 8 + i) ↔ m (bitmap + B) &&& (1 <<< i) = 0 := by
  unfold bitClear
  have h1 : (B * 8 + i) / 8 = B := by omega
  have h2 : (B * 8 + i) % 8 = i := by omega
  rw [h1, h2]

theorem full_byte_bits (i : Nat) (hi : i < 8) : 0xFF &&& (1 <<< i) ≠ 0 := by
  interval_cases i <;> decide

/-- The inner loop: what it returns, or that the rest of the byte is set. -/
theorem find_free_bit_bits_spec (m : Mem) (bitmap max_bits B : Nat) (hB : B * 8 + 8 < 2 ^ 32) :
    ∀ k b, k + b = 8 →
      match find_free_bit_bits m bitmap max_bits B k b with
      | none => ∀ i, b ≤ i → i < 8 → B * 8 + i < max_bits ∧ ¬ bitClear m bitmap (B * 8 + i)
      | some r => ∃ i, b ≤ i ∧ i < 8
          ∧ (∀ j, b ≤ j → j < i → B * 8 + j < max_bits ∧ ¬ bitClear m bitmap (B * 8 + j))
          ∧ ((max_bits ≤ B * 8 + i ∧ r = -1)
            ∨ (B * 8 + i < max_bits ∧ bitClear m bitmap (B * 8 + i)
                ∧ r = toInt32 (B * 8 + i))) := by
  intro k
  induction k with
  | zero =>
    intro b hb
    simp only [find_free_bit_bits]
    intro i h1 h2; omega
  | succ k ih =>
    intro b hb
    have hbl : b < 8 := by omega
    have hmod : (B * 8 + b) % 2 ^ 64 = B * 8 + b := Nat.mod_eq_of_lt (by omega)
    simp only [find_free_bit_bits, hmod]
    by_cases h1 : B * 8 + b ≥ max_bits
    · rw [if_pos h1]
      exact ⟨b, le_refl _, hbl, fun j hj1 hj2 => by omega, Or.inl ⟨h1, rfl⟩⟩
    · rw [if_neg h1]
      by_cases h2 : m (bitmap + B) &&& (1 <<< b) = 0
      · rw [if_pos h2]
        exact ⟨b, le_refl _, hbl, fun j hj1 hj2 => by omega,
          Or.inr ⟨by omega, (bitClear_byte m bitmap B b hbl).2 h2, rfl⟩⟩
      · rw [if_neg h2]
        have hset : ¬ bitClear m bitmap (B * 8 + b) :=
          fun hc => h2 ((bitClear_byte m bitmap B b hbl).1 hc)
        have ih' := ih (b + 1) (by omega)
        cases hres : find_free_bit_bits m bitmap max_bits B k (b + 1) with
        | none =>
          rw [hres] at ih'
          intro i hi1 hi2
          by_cases hib : i = b
          · subst hib; exact ⟨by omega, hset⟩
          · exact ih' i (by omega) hi2
        | some r =>
          rw [hres] at ih'
          obtain ⟨i, hi1, hi2, hpre, hcase⟩ := ih'
          refine ⟨i, by omega, hi2, ?_, hcase⟩
          intro j hj1 hj2
          by_cases hjb : j = b
          · subst hjb; exact ⟨by omega, hset⟩
          · exact hpre j (by omega) hj2

/-- The outer loop: either not-found with every bit below `max_bits` set, or the lowest
clear bit below `max_bits`. -/
theorem find_free_bit_bytes_spec (m : Mem) (bitmap max_bits : Nat) (hmax : max_bits < 2 ^ 31) :
    ∀ k B, k + B = (max_bits + 7) / 8 →
      (∀ j, j < B * 8 → j < max_bits → ¬ bitClear m bitmap j) →
      (find_free_bit_bytes m bitmap max_bits k B = -1
          ∧ ∀ j, j < max_bits → ¬ bitClear m bitmap j)
      ∨ (∃ p : Nat, find_free_bit_bytes m bitmap max_bits k B = (p : Int) ∧ p < max_bits
          ∧ bitClear m bitmap p ∧ ∀ j, j < p → ¬ bitClear m bitmap j) := by
  intro k
  induction k with
  | zero =>
    intro B hB hpre
    left
    exact ⟨rfl, fun j hj => hpre j (by omega) hj⟩
  | succ k ih =>
    intro B hB hpre
    have hB8 : B * 8 + 8 < 2 ^ 32 := by omega
    have hnext : ∀ (hall : ∀ i, i < 8 → ¬ bitClear m bitmap (B * 8 + i)),
        ∀ j, j < (B + 1) * 8 → j < max_bits → ¬ bitClear m bitmap j := by
      intro hall j hj1 hj2
      by_cases hlt : j < B * 8
      · exact hpre j hlt hj2
      · have e : j = B * 8 + (j - B * 8) := by omega
        rw [e]; exact hall (j - B * 8) (by omega)
    simp only [find_free_bit_bytes]
    by_cases hff : m (bitmap + B) = 0xFF
    · rw [if_neg (not_not.2 hff)]
      apply ih (B + 1) (by omega)
      apply hnext
      intro i hi hc
      have := (bitClear_byte m bitmap B i hi).1 hc
      rw [hff] at this
      exact full_byte_bits i hi this
    · rw [if_pos hff]
      have hin := find_free_bit_bits_spec m bitmap max_bits B hB8 8 0 rfl
      cases hres : find_free_bit_bits m bitmap max_bits B 8 0 with
      | none =>
        rw [hres] at hin
        simp only
        apply ih (B + 1) (by omega)
        apply hnext
        intro i hi
        exact (hin i (Nat.zero_le _) hi).2
      | some r =>
        rw [hres] at hin
        simp only
        obtain ⟨i, _, hi2, hbefore, hcase⟩ := hin
        have hlow : ∀ j, j < B * 8 + i → j < max_bits → ¬ bitClear m bitmap j := by
          intro j hj1 hj2
          by_cases hlt : j < B * 8
          · exact hpre j hlt hj2
          · have e : j = B * 8 + (j - B * 8) := by omega
            rw [e]; exact (hbefore (j - B * 8) (Nat.zero_le _) (by omega)).2
        rcases hcase with ⟨hge, hr⟩ | ⟨hlt, hclear, hr⟩
        · left
          exact ⟨hr, fun j hj => hlow j (by omega) hj⟩
        · right
          refine ⟨B * 8 + i, ?_, hlt, hclear, fun j hj => hlow j hj (by omega)⟩
          rw [hr, toInt32_of_lt _ (by omega)]

theorem find_free_bit_cases (m : Mem) (bitmap max_bits : Nat) (hmax : max_bits < 2 ^ 31) :
    (find_free_bit m bitmap max_bits = -1 ∧ ∀ j, j < max_bits → ¬ bitClear m bitmap j)
    ∨ (∃ p : Nat, find_free_bit m bitmap max_bits = (p : Int) ∧ p < max_bits
        ∧ bitClear m bitmap p ∧ ∀ j, j < p → ¬ bitClear m bitmap j) := by
  unfold find_free_bit
  have hmod : (max_bits + 7) % 2 ^ 64 = max_bits + 7 := Nat.mod_eq_of_lt (by omega)
  rw [hmod]
  exact find_free_bit_bytes_spec m bitmap max_bits hmax _ 0 (by omega) (fun j hj => by omega)

/-- C4: for `max_bits < 2^31`, `find_free_bit` returns `k ≥ 0` exactly when `k` is the
smallest index below `max_bits` whose bit (byte `k / 8`, bit `k % 8`) is clear, and returns
-1 exactly when every bit below `max_bits` is set; so a bitmap with all `n` bits set gives
-1 and one whose only clear bit is `k < n` gives `k`. -/
theorem find_free_bit_lowest_clear (m : Mem) (bitmap max_bits : Nat) (hmax : max_bits < 2 ^ 31) :
    (∀ k : Nat, find_free_bit m bitmap max_bits = (k : Int)
        ↔ (k < max_bits ∧ bitClear m bitmap k ∧ ∀ j, j < k → ¬ bitClear m bitmap j))
    ∧ (find_free_bit m bitmap max_bits = -1 ↔ ∀ j, j < max_bits → ¬ bitClear m bitmap j)
    ∧ (find_free_bit m bitmap max_bits = -1 ∨ 0 ≤ find_free_bit m bitmap max_bits)
    ∧ (∀ k, k < max_bits → bitClear m bitmap k
        → (∀ j, j < max_bits → j ≠ k → ¬ bitClear m bitmap j)
        → find_free_bit m bitmap max_bits = (k : Int)) := by
  have hc := find_free_bit_cases m bitmap max_bits hmax
  have key : ∀ k : Nat, find_free_bit m bitmap max_bits = (k : Int)
      ↔ (k < max_bits ∧ bitClear m bitmap k ∧ ∀ j, j < k → ¬ bitClear m bitmap j) := by
    intro k
    constructor
    · intro hk
      rcases hc with ⟨h1, _⟩ | ⟨p, hp, hlt, hcl, hmin⟩
      · rw [h1] at hk; omega
      · have : p = k := by rw [hp] at hk; exact_mod_cast hk
        subst this; exact ⟨hlt, hcl, hmin⟩
    · rintro ⟨hlt, hcl, hmin⟩
      rcases hc with ⟨_, hall⟩ | ⟨p, hp, hplt, hpcl, hpmin⟩
      · exact absurd hcl (hall k hlt)
      · have : p = k := by
          rcases Nat.lt_trichotomy p k with h | h | h
          · exact absurd hpcl (hmin p h)
          · exact h
          · exact absurd hcl (hpmin k h)
        subst this; exact hp
  refine ⟨key, ?_, ?_, ?_⟩
  · constructor
    · intro h1
      rcases hc with ⟨_, hall⟩ | ⟨p, hp, _⟩
      · exact hall
      · rw [hp] at h1; omega
    · intro hall
      rcases hc with ⟨h1, _⟩ | ⟨p, _, hplt, hpcl, _⟩
      · exact h1
      · exact absurd hpcl (hall p hplt)
  · rcases hc with ⟨h1, _⟩ | ⟨p, hp, _⟩
    · exact Or.inl h1
    · right; rw [hp]; exact Int.natCast_nonneg p
  · intro k hk hcl hothers
    exact (key k).2 ⟨hk, hcl, fun j hj => hothers j (by omega) (by omega)⟩

/-- C4 at a concrete bitmap: bytes `FF 1F` with `max_bits = 16`: bits 0..12 are set, bit 13
is the lowest clear one. -/
theorem find_free_bit_lowest_clear_witness :
    (16 < 2 ^ 31)
    ∧ find_free_bit (memOfList [0xFF, 0x1F]) 0 16 = (13 : Nat)
    ∧ find_free_bit (memOfList [0xFF, 0xFF]) 0 16 = -1 :=
  ⟨by decide,
   ((find_free_bit_lowest_clear (memOfList [0xFF, 0x1F]) 0 16 (by decide)).1 13).2
     ⟨by decide, by decide, by decide⟩,
   (find_free_bit_lowest_clear (memOfList [0xFF, 0xFF]) 0 16 (by decide)).2.1.2 (by decide)⟩

/-! ### The finalizers produce checksums that verify -/

theorem crc32_shift_lt (x : Nat) (h : x < 2 ^ 32) : crc32_shift x < 2 ^ 32 := by
  rw [crc32_shift_eq]
  have h2 : x / 2 < 2 ^ 32 := by omega
  split
  · exact Nat.xor_lt_two_pow h2 (by decide)
  · exact h2

theorem crc32_entry_lt (x : Nat) (h : x < 2 ^ 32) : crc32_entry x < 2 ^ 32 := by
  unfold crc32_entry
  repeat apply crc32_shift_lt
  exact h

theorem crc32_init_getD_lt (i : Nat) : crc32_init.getD i 0 < 2 ^ 32 := by
  by_cases h : i < 256
  · rw [crc32_init_getD i h]
    exact crc32_entry_lt i (by omega)
  · have : crc32_init.length ≤ i := by simp [crc32_init]; omega
    rw [List.getD_eq_getElem?_getD, List.getElem?_eq_none this]
    decide

theorem crc32_loop_lt (m : Mem) (d : Nat) : ∀ n, crc32_loop crc32_init m d n < 2 ^ 32 := by
  intro n
  induction n with
  | zero => show (0xFFFFFFFF : Nat) < 2 ^ 32; decide
  | succ n ih =>
    simp only [crc32_loop, crc32_step]
    apply Nat.xor_lt_two_pow (crc32_init_getD_lt _)
    rw [Nat.shiftRight_eq_div_pow]
    exact lt_of_le_of_lt (Nat.div_le_self _ _) ih

theorem crc32_lt (m : Mem) (d n : Nat) : crc32 m d n < 2 ^ 32 := by
  unfold crc32
  exact Nat.xor_lt_two_pow (crc32_loop_lt m d n) (by decide)

/-- After `superblock_crc_finalize`, zeroing the checksum field and hashing the `BS - 4`
bytes from `sb` gives the stored checksum. -/
theorem superblock_crc_finalize_valid (m : Mem) (sb : Nat) :
    crc32 (store (superblock_crc_finalize m sb) (sb + 112) 4 0) sb (BS - 4)
      = load (superblock_crc_finalize m sb) (sb + 112) 4 := by
  unfold superblock_crc_finalize
  simp only []
  rw [load_store_same, Nat.mod_eq_of_lt (by simpa using crc32_lt _ _ _)]
  apply crc32_congr
  intro i _
  by_cases h : sb + 112 ≤ sb + i ∧ sb + i < sb + 112 + 4
  · rw [store_in _ _ _ _ _ h.1 h.2, store_in _ _ _ _ _ h.1 h.2]
  · rw [store_out _ _ _ _ _ (by omega), store_out _ _ _ _ _ (by omega)]

theorem inode_crc_finalize_out (m : Mem) (ino a : Nat) (h : a < ino + 120 ∨ ino + 128 ≤ a) :
    inode_crc_finalize m ino a = m a := by
  unfold inode_crc_finalize
  exact store_out _ _ _ _ _ (by omega)

theorem inode_crc_finalize_crc (m : Mem) (ino : Nat) :
    load (inode_crc_finalize m ino) (ino + 120) 8 = crc32 m ino 120 := by
  unfold inode_crc_finalize
  simp only []
  rw [load_store_same]
  have e : crc32 (memset (memcpy (fun _ => 0) 0 m ino INODE_SIZE) 120 0 8) 0 120
      = crc32 m ino 120 := by
    apply crc32_congr
    intro i hi
    rw [memset_out _ _ _ _ _ (by omega), memcpy_in _ _ _ _ _ _ (by omega) (by unfold INODE_SIZE; omega)]
    simp
  rw [e]
  exact Nat.mod_eq_of_lt (lt_of_lt_of_le (crc32_lt _ _ _) (by decide))

/-- After `inode_crc_finalize`, the CRC of the first 120 bytes is in the low 4 bytes of
`inode_crc` and the high 4 bytes are zero. -/
theorem inode_crc_finalize_valid (m : Mem) (ino : Nat) :
    crc32 (inode_crc_finalize m ino) ino 120 = load (inode_crc_finalize m ino) (ino + 120) 4
    ∧ load (inode_crc_finalize m ino) (ino + 124) 4 = 0 := by
  have hc : crc32 (inode_crc_finalize m ino) ino 120 = crc32 m ino 120 :=
    crc32_congr _ _ _ _ _ (fun i hi => inode_crc_finalize_out m ino _ (by omega))
  have hlt := crc32_lt m ino 120
  have e : crc32 (memset (memcpy (fun _ => 0) 0 m ino INODE_SIZE) 120 0 8) 0 120
      = crc32 m ino 120 := by
    apply crc32_congr
    intro i hi
    rw [memset_out _ _ _ _ _ (by omega), memcpy_in _ _ _ _ _ _ (by omega) (by unfold INODE_SIZE; omega)]
    simp
  constructor
  · rw [hc]
    unfold inode_crc_finalize
    simp only []
    rw [e]
    have := load_store_sub m (ino + 120) 8 (crc32 m ino 120) 4 0 (by omega)
    simp only [Nat.add_zero, pow_zero, Nat.div_one] at this
    rw [this]
    exact (Nat.mod_eq_of_lt (by simpa using hlt)).symm
  · unfold inode_crc_finalize
    simp only []
    rw [e]
    have := load_store_sub m (ino + 120) 8 (crc32 m ino 120) 4 4 (by omega)
    rw [show ino + 120 + 4 = ino + 124 by omega] at this
    rw [this]
    have : crc32 m ino 120 / 256 ^ 4 = 0 := Nat.div_eq_of_lt (by simpa using hlt)
    rw [this]; rfl

theorem dirent_xor_lt (m : Mem) (de : Nat) : ∀ n, dirent_xor m de n < 256 := by
  intro n
  cases n with
  | zero => show (0 : Nat) < 256; decide
  | succ n => simp only [dirent_xor]; exact Nat.mod_lt _ (by decide)

theorem dirent_checksum_finalize_out (m : Mem) (de a : Nat) (h : a ≠ de + 63) :
    dirent_checksum_finalize m de a = m a := by
  unfold dirent_checksum_finalize
  exact store_out _ _ _ _ _ (by omega)

/-- After `dirent_checksum_finalize`, byte 63 of the entry is the XOR of bytes 0..62. -/
theorem dirent_checksum_finalize_valid (m : Mem) (de : Nat) :
    dirent_checksum_finalize m de (de + 63) = dirent_xor (dirent_checksum_finalize m de) de 63 := by
  have hx : dirent_xor (dirent_checksum_finalize m de) de 63 = dirent_xor m de 63 :=
    dirent_xor_congr _ _ _ _ _ (fun i hi => dirent_checksum_finalize_out m de _ (by omega))
  rw [hx]
  unfold dirent_checksum_finalize
  rw [store_in _ _ _ _ _ (le_refl _) (by omega)]
  simp only [Nat.sub_self, pow_zero, Nat.div_one]
  exact Nat.mod_eq_of_lt (dirent_xor_lt m de 63)

/-! ### Bits and `set_bit` -/

theorem and_shift_eq_zero_iff (x i : Nat) : x &&& (1 <<< i) = 0 ↔ x.testBit i = false := by
  rw [Nat.one_shiftLeft]
  constructor
  · intro h
    have := congrArg (fun y => Nat.testBit y i) h
    simpa [Nat.testBit_and, Nat.testBit_two_pow_self] using this
  · intro h
    apply Nat.eq_of_testBit_eq
    intro j
    rw [Nat.testBit_and, Nat.testBit_two_pow, Nat.zero_testBit]
    by_cases hij : i = j
    · subst hij; simp [h]
    · simp [hij]

theorem bitClear_iff_testBit (m : Mem) (bitmap k : Nat) :
    bitClear m bitmap k ↔ (m (bitmap + k / 8)).testBit (k % 8) = false := by
  unfold bitClear
  exact and_shift_eq_zero_iff _ _

theorem set_bit_nat (m : Mem) (bitmap k : Nat) :
    set_bit m bitmap (k : Int)
      = fun a => if a = bitmap + k / 8 then (m (bitmap + k / 8) ||| (1 <<< (k % 8))) % 256
          else m a := by
  unfold set_bit
  have h1 : Int.tdiv (k : Int) 8 = ((k / 8 : Nat) : Int) := (Int.ofNat_tdiv k 8).symm
  have h2 : Int.tmod (k : Int) 8 = ((k % 8 : Nat) : Int) := (Int.ofNat_tmod k 8).symm
  simp only [h1, h2]
  have h3 : ((bitmap : Int) + ((k / 8 : Nat) : Int)).toNat = bitmap + k / 8 := by omega
  rw [h3, Int.toNat_ofNat]

theorem set_bit_out (m : Mem) (bitmap k a : Nat) (h : a ≠ bitmap + k / 8) :
    set_bit m bitmap (k : Int) a = m a := by
  rw [set_bit_nat]
  simp only [if_neg h]

/-- Setting bit `k` sets that bit and leaves every other bit of the bitmap as it was. -/
theorem bitClear_set_bit (m : Mem) (bitmap k j : Nat) :
    bitClear (set_bit m bitmap (k : Int)) bitmap j ↔ (j ≠ k ∧ bitClear m bitmap j) := by
  rw [bitClear_iff_testBit, bitClear_iff_testBit, set_bit_nat]
  by_cases hb : j / 8 = k / 8
  · have e : bitmap + j / 8 = bitmap + k / 8 := by rw [hb]
    simp only [e, if_true]
    have hmod : ((m (bitmap + k / 8) ||| 1 <<< (k % 8)) % 256).testBit (j % 8)
        = (m (bitmap + k / 8) ||| 1 <<< (k % 8)).testBit (j % 8) := by
      have := Nat.testBit_mod_two_pow (m (bitmap + k / 8) ||| 1 <<< (k % 8)) 8 (j % 8)
      have hj : j % 8 < 8 := Nat.mod_lt _ (by decide)
      simpa [hj] using this
    rw [hmod, Nat.testBit_or, Nat.one_shiftLeft, Nat.testBit_two_pow]
    by_cases hk : k % 8 = j % 8
    · have : j = k := by omega
      simp [hk, this]
    · have : j ≠ k := by intro h; subst h; exact hk rfl
      simp [hk, this]
  · have e : ¬ bitmap + j / 8 = bitmap + k / 8 := by omega
    have : j ≠ k := by intro h; subst h; exact hb rfl
    simp only [if_neg e]
    simp [this]

/-! ### The free-block scan -/

theorem scan_free_blocks_eq (m : Mem) (data_bitmap drs needed : Nat) :
    ∀ k i acc, acc.length ≤ needed →
      scan_free_blocks m data_bitmap drs needed k i acc
        = acc ++ (((List.range' i k).filter (fun j => decide (bitClear m data_bitmap j))).take
            (needed - acc.length)).map (fun j => (drs + j) % 2 ^ 32) := by
  intro k
  induction k with
  | zero => intro i acc _; simp [scan_free_blocks]
  | succ k ih =>
    intro i acc hacc
    simp only [scan_free_blocks, List.range'_succ]
    by_cases hlt : acc.length < needed
    · rw [if_pos hlt]
      by_cases hc : m (data_bitmap + i / 8) &&& (1 <<< (i % 8)) = 0
      · rw [if_pos hc, ih (i + 1) _ (by simp; omega)]
        have hcb : bitClear m data_bitmap i := hc
        have hf : List.filter (fun j => decide (bitClear m data_bitmap j))
            (i :: List.range' (i + 1) k)
            = i :: List.filter (fun j => decide (bitClear m data_bitmap j))
                (List.range' (i + 1) k) := by
          rw [List.filter_cons]; simp [hcb]
        rw [hf]
        have e : needed - acc.length = (needed - (acc ++ [(drs + i) % 2 ^ 32]).length) + 1 := by
          simp; omega
        rw [e, List.take_succ_cons, List.map_cons]
        simp
      · rw [if_neg hc, ih (i + 1) _ hacc]
        have hcb : ¬ bitClear m data_bitmap i := hc
        have hf : List.filter (fun j => decide (bitClear m data_bitmap j))
            (i :: List.range' (i + 1) k)
            = List.filter (fun j => decide (bitClear m data_bitmap j))
                (List.range' (i + 1) k) := by
          rw [List.filter_cons]; simp [hcb]
        rw [hf]
    · rw [if_neg hlt]
      have : needed - acc.length = 0 := by omega
      simp [this]

theorem scan_free_blocks_lowest (m : Mem) (data_bitmap drs needed limit : Nat) :
    scan_free_blocks m data_bitmap drs needed limit 0 []
      = (lowest_clear m data_bitmap limit needed).map (fun j => (drs + j) % 2 ^ 32) := by
  rw [scan_free_blocks_eq m data_bitmap drs needed limit 0 [] (Nat.zero_le _)]
  simp [lowest_clear, List.range_eq_range']

theorem lowest_clear_length_le (m : Mem) (bitmap limit n : Nat) :
    (lowest_clear m bitmap limit n).length ≤ n := by
  unfold lowest_clear
  rw [List.length_take]
  exact Nat.min_le_left _ _

theorem lowest_clear_mem (m : Mem) (bitmap limit n x : Nat)
    (h : x ∈ lowest_clear m bitmap limit n) : x < limit ∧ bitClear m bitmap x := by
  unfold lowest_clear at h
  have h1 := List.mem_of_mem_take h
  rw [List.mem_filter] at h1
  exact ⟨List.mem_range.1 h1.1, by simpa using h1.2⟩

theorem lowest_clear_sorted (m : Mem) (bitmap limit n : Nat) :
    (lowest_clear m bitmap limit n).Pairwise (· < ·) := by
  unfold lowest_clear
  exact ((List.pairwise_lt_range limit).filter _).sublist (List.take_sublist _ _)

/-! ### The new inode record -/

theorem set_direct_out (m : Mem) (ino : Nat) (fb : List Nat) (a : Nat) :
    ∀ n, (a < ino + 44 ∨ ino + 44 + 4 * n ≤ a) → set_direct m ino fb n a = m a := by
  intro n
  induction n with
  | zero => intro _; rfl
  | succ n ih =>
    intro h
    simp only [set_direct]
    rw [store_out _ _ _ _ _ (by omega), ih (by omega)]

theorem clear_direct_out (m : Mem) (ino start a : Nat) :
    ∀ k, (a < ino + 44 + 4 * start ∨ ino + 44 + 4 * (start + k) ≤ a) →
      clear_direct m ino start k a = m a := by
  intro k
  induction k with
  | zero => intro _; rfl
  | succ k ih =>
    intro h
    simp only [clear_direct]
    rw [store_out _ _ _ _ _ (by omega), ih (by omega)]

theorem load_set_direct (m : Mem) (ino : Nat) (fb : List Nat) (i : Nat) :
    ∀ n, i < n → load (set_direct m ino fb n) (ino + 44 + 4 * i) 4 = fb.getD i 0 % 2 ^ 32 := by
  intro n
  induction n with
  | zero => intro h; omega
  | succ n ih =>
    intro h
    simp only [set_direct]
    by_cases hi : i = n
    · subst hi
      rw [load_store_same]
      norm_num
    · rw [load_store_other _ _ _ _ _ _ (by omega), ih (by omega)]

theorem load_clear_direct (m : Mem) (ino start i : Nat) :
    ∀ k, start ≤ i → i < start + k →
      load (clear_direct m ino start k) (ino + 44 + 4 * i) 4 = 0 := by
  intro k
  induction k with
  | zero => intro h1 h2; omega
  | succ k ih =>
    intro h1 h2
    simp only [clear_direct]
    by_cases hi : i = start + k
    · subst hi
      rw [load_store_same]; rfl
    · rw [load_store_other _ _ _ _ _ _ (by omega), ih h1 (by omega)]

/-- The construction of the new inode writes only inside its 128-byte slot. -/
theorem build_inode_out (m : Mem) (ino L now : Nat) (fb : List Nat) (a : Nat)
    (hlen : fb.length ≤ 12) (h : a < ino ∨ ino + 128 ≤ a) :
    build_inode m ino L now fb a = m a := by
  unfold build_inode DIRECT_MAX
  rw [store_out _ _ _ _ _ (by omega), store_out _ _ _ _ _ (by omega),
    store_out _ _ _ _ _ (by omega), store_out _ _ _ _ _ (by omega),
    store_out _ _ _ _ _ (by omega), store_out _ _ _ _ _ (by omega),
    clear_direct_out _ _ _ _ _ (by omega), set_direct_out _ _ _ _ _ (by omega),
    store_out _ _ _ _ _ (by omega), store_out _ _ _ _ _ (by omega),
    store_out _ _ _ _ _ (by omega), store_out _ _ _ _ _ (by omega),
    store_out _ _ _ _ _ (by omega), store_out _ _ _ _ _ (by omega),
    store_out _ _ _ _ _ (by omega), store_out _ _ _ _ _ (by omega),
    memset_out _ _ _ _ _ (by omega)]

theorem load_set_direct_other (m : Mem) (ino : Nat) (fb : List Nat) (n p w : Nat)
    (h : p + w ≤ ino + 44 ∨ ino + 44 + 4 * n ≤ p) :
    load (set_direct m ino fb n) p w = load m p w :=
  load_eq_of_agree _ _ _ _ (fun a h1 h2 => set_direct_out m ino fb a n (by omega))

theorem load_clear_direct_other (m : Mem) (ino start k p w : Nat)
    (h : p + w ≤ ino + 44 + 4 * start ∨ ino + 44 + 4 * (start + k) ≤ p) :
    load (clear_direct m ino start k) p w = load m p w :=
  load_eq_of_agree _ _ _ _ (fun a h1 h2 => clear_direct_out m ino start a k (by omega))

/-- The fields of the record `build_inode` leaves in the slot. -/
theorem build_inode_fields (m : Mem) (ino L now : Nat) (fb : List Nat) (hlen : fb.length ≤ 12) :
    load (build_inode m ino L now fb) (ino + 0) 2 = MODE_FILE
    ∧ load (build_inode m ino L now fb) (ino + 2) 2 = 1
    ∧ load (build_inode m ino L now fb) (ino + 4) 4 = 0
    ∧ load (build_inode m ino L now fb) (ino + 8) 4 = 0
    ∧ load (build_inode m ino L now fb) (ino + 12) 8 = L % 2 ^ 64
    ∧ (∀ i, i < fb.length →
        load (build_inode m ino L now fb) (ino + 44 + 4 * i) 4 = fb.getD i 0 % 2 ^ 32)
    ∧ (∀ i, fb.length ≤ i → i < 12 →
        load (build_inode m ino L now fb) (ino + 44 + 4 * i) 4 = 0) := by
  unfold build_inode DIRECT_MAX
  refine ⟨?_, ?_, ?_, ?_, ?_, ?_, ?_⟩
  · simp (disch := omega) only [load_store_other, load_clear_direct_other,
      load_set_direct_other, load_store_same]
    rfl
  · simp (disch := omega) only [load_store_other, load_clear_direct_other,
      load_set_direct_other, load_store_same]
    rfl
  · simp (disch := omega) only [load_store_other, load_clear_direct_other,
      load_set_direct_other, load_store_same]
    rfl
  · simp (disch := omega) only [load_store_other, load_clear_direct_other,
      load_set_direct_other, load_store_same]
    rfl
  · simp (disch := omega) only [load_store_other, load_clear_direct_other,
      load_set_direct_other, load_store_same]
    rfl
  · intro i hi
    simp (disch := omega) only [load_store_other, load_clear_direct_other]
    exact load_set_direct _ _ _ _ _ hi
  · intro i hi1 hi2
    simp (disch := omega) only [load_store_other]
    exact load_clear_direct _ _ _ _ _ hi1 (by omega)

/-! ### The data blocks -/

theorem block_write_out (m : Mem) (bp : Nat) (src : Mem) (s btr a : Nat) (hb : btr ≤ BS)
    (h : a < bp ∨ bp + BS ≤ a) :
    (if btr < BS then memset (memcpy m bp src s btr) (bp + btr) 0 (BS - btr)
      else memcpy m bp src s btr) a = m a := by
  split
  · rw [memset_out _ _ _ _ _ (by omega), memcpy_out _ _ _ _ _ _ (by omega)]
  · rw [memcpy_out _ _ _ _ _ _ (by omega)]

theorem block_write_in (m : Mem) (bp : Nat) (src : Mem) (s btr x : Nat) (hb : btr ≤ BS)
    (hx : x < BS) :
    (if btr < BS then memset (memcpy m bp src s btr) (bp + btr) 0 (BS - btr)
      else memcpy m bp src s btr) (bp + x) = if x < btr then src (s + x) else 0 := by
  split
  · by_cases hxb : x < btr
    · rw [if_pos hxb, memset_out _ _ _ _ _ (by omega),
        memcpy_in _ _ _ _ _ _ (by omega) (by omega)]
      congr 1; omega
    · rw [if_neg hxb, memset_in _ _ _ _ _ (by omega) (by omega)]
  · rw [if_pos (by omega), memcpy_in _ _ _ _ _ _ (by omega) (by omega)]
    congr 1; omega

theorem block_write_pt (m m' : Mem) (bp : Nat) (src : Mem) (s btr a : Nat) (h : m a = m' a) :
    (if btr < BS then memset (memcpy m bp src s btr) (bp + btr) 0 (BS - btr)
      else memcpy m bp src s btr) a
    = (if btr < BS then memset (memcpy m' bp src s btr) (bp + btr) 0 (BS - btr)
      else memcpy m' bp src s btr) a := by
  split
  · simp only [memset, memcpy, h]
  · simp only [memcpy, h]

theorem bytes_to_read_le (fb : List Nat) (file : File) (n : Nat)
    (hL : file.size ≤ fb.length * BS) :
    (if n + 1 = fb.length then file.size - n * BS else BS) ≤ BS := by
  split
  · rename_i he
    rw [← he] at hL
    have : (n + 1) * BS = n * BS + BS := by ring
    omega
  · exact le_refl _

theorem block_write_below (m : Mem) (bp : Nat) (src : Mem) (s btr a : Nat) (h : a < bp) :
    (if btr < BS then memset (memcpy m bp src s btr) (bp + btr) 0 (BS - btr)
      else memcpy m bp src s btr) a = m a := by
  split
  · rw [memset_out _ _ _ _ _ (by omega), memcpy_out _ _ _ _ _ _ (by omega)]
  · rw [memcpy_out _ _ _ _ _ _ (by omega)]

theorem write_blocks_below (m : Mem) (dreg drs : Nat) (fb : List Nat) (file : File) (a : Nat)
    (h : a < dreg) : ∀ n, write_blocks m dreg drs fb file n a = m a := by
  intro n
  induction n with
  | zero => rfl
  | succ n ih =>
    simp only [write_blocks]
    rw [block_write_below _ _ _ _ _ _ (by omega), ih]

theorem write_blocks_pt (m m' : Mem) (dreg drs : Nat) (fb : List Nat) (file : File) (a : Nat)
    (h : m a = m' a) :
    ∀ n, write_blocks m dreg drs fb file n a = write_blocks m' dreg drs fb file n a := by
  intro n
  induction n with
  | zero => exact h
  | succ n ih =>
    simp only [write_blocks]
    exact block_write_pt _ _ _ _ _ _ _ ih

/-- The block writes touch only the blocks named by `free_blocks`. -/
theorem write_blocks_out (m : Mem) (dreg drs : Nat) (fb : List Nat) (file : File) (a : Nat)
    (idx : Nat → Nat) (hL : file.size ≤ fb.length * BS) :
    ∀ n, (∀ j, j < n → block_index (fb.getD j 0) drs * BS % 2 ^ 64 = idx j * BS) →
      (∀ j, j < n → a < dreg + idx j * BS ∨ dreg + idx j * BS + BS ≤ a) →
      write_blocks m dreg drs fb file n a = m a := by
  intro n
  induction n with
  | zero => intro _ _; rfl
  | succ n ih =>
    intro hidx h
    have ih' := ih (fun j hj => hidx j (by omega)) (fun j hj => h j (by omega))
    simp only [write_blocks, hidx n (by omega)]
    rw [block_write_out _ _ _ _ _ _ (bytes_to_read_le fb file n hL) (h n (by omega)), ih']

/-- What the block writes leave in block `j`: the file bytes of that block, then zeros. -/
theorem write_blocks_in (m : Mem) (dreg drs : Nat) (fb : List Nat) (file : File)
    (idx : Nat → Nat) (hL : file.size ≤ fb.length * BS)
    (hlow : (fb.length - 1) * BS < file.size) (j x : Nat) (hx : x < BS) :
    ∀ n, n ≤ fb.length → j < n →
      (∀ i, i < n → block_index (fb.getD i 0) drs * BS % 2 ^ 64 = idx i * BS) →
      (∀ i, i < n → i ≠ j → idx i ≠ idx j) →
      write_blocks m dreg drs fb file n (dreg + idx j * BS + x)
        = if j * BS + x < file.size then file.data (j * BS + x) else 0 := by
  intro n
  induction n with
  | zero => intro _ h; omega
  | succ n ih =>
    intro hn hj hidx hne
    simp only [write_blocks, hidx n (by omega)]
    by_cases hjn : j = n
    · subst hjn
      rw [block_write_in _ _ _ _ _ _ (bytes_to_read_le fb file j hL) hx]
      by_cases hlast : j + 1 = fb.length
      · simp only [if_pos hlast]
        have h1 : (j + 1) * BS = j * BS + BS := by ring
        rw [← hlast, h1] at hL
        by_cases hxin : j * BS + x < file.size
        · rw [if_pos hxin, if_pos (by omega)]
        · rw [if_neg hxin, if_neg (by omega)]
      · simp only [if_neg hlast]
        have h3 : (j + 1) * BS ≤ (fb.length - 1) * BS :=
          Nat.mul_le_mul_right _ (by omega)
        have h1 : (j + 1) * BS = j * BS + BS := by ring
        rw [if_pos hx, if_pos (by omega)]
    · have hd := hne n (by omega) (fun h => hjn h.symm)
      have hdis : dreg + idx j * BS + x < dreg + idx n * BS
          ∨ dreg + idx n * BS + BS ≤ dreg + idx j * BS + x := by
        rcases Nat.lt_or_gt_of_ne hd with hlt | hgt
        · right
          have : (idx n + 1) * BS ≤ idx j * BS := Nat.mul_le_mul_right _ hlt
          have h1 : (idx n + 1) * BS = idx n * BS + BS := by ring
          omega
        · left
          have : (idx j + 1) * BS ≤ idx n * BS := Nat.mul_le_mul_right _ hgt
          have h1 : (idx j + 1) * BS = idx j * BS + BS := by ring
          omega
      have ih' := ih (by omega) (by omega) (fun i hi => hidx i (by omega))
        (fun i hi => hne i (by omega))
      rw [block_write_out _ _ _ _ _ _ (bytes_to_read_le fb file n hL) hdis, ih']

/-! ### The block bits -/

theorem set_bit_pt (m m' : Mem) (bitmap k a : Nat) (h : m a = m' a) :
    set_bit m bitmap (k : Int) a = set_bit m' bitmap (k : Int) a := by
  rw [set_bit_nat, set_bit_nat]
  by_cases ha : a = bitmap + k / 8
  · simp only [if_pos ha]
    rw [← ha, h]
  · simp only [if_neg ha]
    exact h

theorem mark_blocks_out (m : Mem) (dbm drs : Nat) (fb : List Nat) (idx : Nat → Nat) (a : Nat) :
    ∀ n, (∀ j, j < n → toInt32 (block_index (fb.getD j 0) drs) = ((idx j : Nat) : Int)) →
      (∀ j, j < n → a ≠ dbm + idx j / 8) → mark_blocks m dbm drs fb n a = m a := by
  intro n
  induction n with
  | zero => intro _ _; rfl
  | succ n ih =>
    intro hfb h
    simp only [mark_blocks, hfb n (by omega)]
    rw [set_bit_out _ _ _ _ (h n (by omega)),
      ih (fun j hj => hfb j (by omega)) (fun j hj => h j (by omega))]

theorem mark_blocks_pt (m m' : Mem) (dbm drs : Nat) (fb : List Nat) (idx : Nat → Nat) (a : Nat)
    (h : m a = m' a) :
    ∀ n, (∀ j, j < n → toInt32 (block_index (fb.getD j 0) drs) = ((idx j : Nat) : Int)) →
      mark_blocks m dbm drs fb n a = mark_blocks m' dbm drs fb n a := by
  intro n
  induction n with
  | zero => intro _; exact h
  | succ n ih =>
    intro hfb
    simp only [mark_blocks, hfb n (by omega)]
    exact set_bit_pt _ _ _ _ _ (ih (fun j hj => hfb j (by omega)))

/-- After the marking loop a bit is clear exactly when it was clear before and is none of
the marked ones. -/
theorem bitClear_mark_blocks (m : Mem) (dbm drs : Nat) (fb : List Nat) (idx : Nat → Nat)
    (k : Nat) :
    ∀ n, (∀ j, j < n → toInt32 (block_index (fb.getD j 0) drs) = ((idx j : Nat) : Int)) →
      (bitClear (mark_blocks m dbm drs fb n) dbm k
        ↔ ((∀ j, j < n → k ≠ idx j) ∧ bitClear m dbm k)) := by
  intro n
  induction n with
  | zero => intro _; simp [mark_blocks]
  | succ n ih =>
    intro hfb
    simp only [mark_blocks, hfb n (by omega)]
    rw [bitClear_set_bit, ih (fun j hj => hfb j (by omega))]
    constructor
    · rintro ⟨h1, h2, h3⟩
      refine ⟨fun j hj => ?_, h3⟩
      by_cases hjn : j = n
      · subst hjn; exact h1
      · exact h2 j (by omega)
    · rintro ⟨h1, h2⟩
      exact ⟨h1 n (by omega), fun j hj => h1 j (by omega), h2⟩

/-! ### The root directory scan -/

theorem find_free_entry_spec (m : Mem) (root : Nat) :
    ∀ k i, (find_free_entry m root k i = -1 ∧ ∀ j, i ≤ j → j < i + k → load m (root + j * 64) 4 ≠ 0)
      ∨ (∃ e : Nat, find_free_entry m root k i = (e : Int) ∧ i ≤ e ∧ e < i + k
          ∧ load m (root + e * 64) 4 = 0
          ∧ ∀ j, i ≤ j → j < e → load m (root + j * 64) 4 ≠ 0) := by
  intro k
  induction k with
  | zero => intro i; left; exact ⟨rfl, fun j h1 h2 => by omega⟩
  | succ k ih =>
    intro i
    simp only [find_free_entry]
    by_cases h0 : load m (root + i * 64) 4 = 0
    · rw [if_pos h0]
      right
      exact ⟨i, rfl, le_refl _, by omega, h0, fun j h1 h2 => by omega⟩
    · rw [if_neg h0]
      rcases ih (i + 1) with ⟨h1, h2⟩ | ⟨e, h1, h2, h3, h4, h5⟩
      · left
        refine ⟨h1, fun j hj1 hj2 => ?_⟩
        by_cases hji : j = i
        · subst hji; exact h0
        · exact h2 j (by omega) (by omega)
      · right
        refine ⟨e, h1, by omega, by omega, h4, fun j hj1 hj2 => ?_⟩
        by_cases hji : j = i
        · subst hji; exact h0
        · exact h5 j (by omega) hj2

/-! ### The adder: what a successful run went through -/

theorem main_superblock_load (input : File) (p w : Nat) (h : p + w ≤ 116) :
    load (main_superblock input) p w = load input.data p w := by
  apply load_congr
  intro i hi
  unfold main_superblock
  rw [memcpy_in _ _ _ _ _ _ (by omega) (by omega)]
  congr 1; omega

theorem main_superblock_fields (input : File) :
    sb_magic (main_superblock input) = sb_magic input.data
    ∧ sb_inode_count (main_superblock input) = sb_inode_count input.data
    ∧ sb_inode_bitmap_start (main_superblock input) = sb_inode_bitmap_start input.data
    ∧ sb_data_bitmap_start (main_superblock input) = sb_data_bitmap_start input.data
    ∧ sb_inode_table_start (main_superblock input) = sb_inode_table_start input.data
    ∧ sb_data_region_start (main_superblock input) = sb_data_region_start input.data
    ∧ sb_data_region_blocks (main_superblock input) = sb_data_region_blocks input.data := by
  unfold sb_magic sb_inode_count sb_inode_bitmap_start sb_data_bitmap_start
    sb_inode_table_start sb_data_region_start sb_data_region_blocks
  refine ⟨?_, ?_, ?_, ?_, ?_, ?_, ?_⟩ <;> exact main_superblock_load _ _ _ (by omega)

/-- A run that exits with status 0 passed every check and wrote the final buffer. -/
theorem adder_main_success (input file : File) (filename : List Nat) (now : Nat)
    (h : (adder_main input file filename now).exit_code = 0) :
    blocks_needed_for_file file.size ≤ DIRECT_MAX
    ∧ 116 ≤ input.size
    ∧ sb_magic (main_superblock input) = MAGIC
    ∧ 0 ≤ main_free_inode input
    ∧ blocks_needed_for_file file.size ≤ (main_free_blocks input file).length
    ∧ 0 ≤ main_free_entry input file now
    ∧ strlen filename < 58
    ∧ (adder_main input file filename now).image_data = main_link input file filename now
    ∧ (adder_main input file filename now).superblock = store (main_superblock input) 100 8 now
    ∧ (adder_main input file filename now).output
        = some ⟨input.size, main_link input file filename now⟩ := by
  unfold adder_main at h ⊢
  split_ifs at h ⊢ with h1 h2 h3 h4 h5 h6 h7
  all_goals first
    | exact absurd h (by decide)
    | exact ⟨by omega, by omega, not_not.1 h3, by omega, by omega, by omega, by omega,
        rfl, rfl, rfl⟩

/-- A run that does not exit with status 0 exits with status 1 and writes no output. -/
theorem adder_main_failure (input file : File) (filename : List Nat) (now : Nat)
    (h : (adder_main input file filename now).exit_code ≠ 0) :
    (adder_main input file filename now).exit_code = 1
    ∧ (adder_main input file filename now).output = none := by
  unfold adder_main at h ⊢
  split_ifs at h ⊢ with h1 h2 h3 h4 h5 h6 h7
  all_goals first
    | exact ⟨rfl, rfl⟩
    | exact absurd rfl h

theorem blocks_needed_bounds (L : Nat) :
    L ≤ blocks_needed_for_file L * BS
    ∧ (0 < L → (blocks_needed_for_file L - 1) * BS < L ∧ 1 ≤ blocks_needed_for_file L) := by
  unfold blocks_needed_for_file BS
  by_cases h : L ≤ 0
  · rw [if_pos h]
    exact ⟨by omega, fun h' => by omega⟩
  · rw [if_neg h]
    refine ⟨by omega, fun _ => ⟨by omega, by omega⟩⟩

theorem block_index_add (drs x : Nat) (h : drs + x < 2 ^ 32) :
    block_index ((drs + x) % 2 ^ 32) drs = x := by
  unfold block_index
  rw [Nat.mod_eq_of_lt h, Nat.mod_eq_of_lt (by omega : drs < 2 ^ 64)]
  omega

/-- The facts a successful run on a well laid out image rests on: the inode index `f`,
the directory slot `e`, and the free blocks as the lowest clear bits. -/
theorem main_facts (input file : File) (filename : List Nat) (now : Nat)
    (hl : LayoutOk input) (h : (adder_main input file filename now).exit_code = 0) :
    ∃ f e : Nat,
      main_free_inode input = (f : Int)
      ∧ f < sb_inode_count input.data
      ∧ bitClear input.data (sb_inode_bitmap_start input.data * BS) f
      ∧ (∀ j, j < f → ¬ bitClear input.data (sb_inode_bitmap_start input.data * BS) j)
      ∧ main_free_entry input file now = (e : Int)
      ∧ e < 64
      ∧ main_free_blocks input file
          = (lowest_clear input.data (sb_data_bitmap_start input.data * BS)
              (sb_data_region_blocks input.data) (blocks_needed_for_file file.size)).map
              (fun j => (sb_data_region_start input.data + j) % 2 ^ 32)
      ∧ (lowest_clear input.data (sb_data_bitmap_start input.data * BS)
          (sb_data_region_blocks input.data) (blocks_needed_for_file file.size)).length
          = blocks_needed_for_file file.size
      ∧ (main_free_blocks input file).length = blocks_needed_for_file file.size
      ∧ blocks_needed_for_file file.size ≤ 12
      ∧ strlen filename < 58 := by
  obtain ⟨hn, _, _, hfi, hfb, hfe, hs, _, _, _⟩ := adder_main_success input file filename now h
  obtain ⟨hic, hdrb, _, _, _, _, _, _⟩ := hl
  obtain ⟨_, e1, e2, e3, e4, e5, e6⟩ := main_superblock_fields input
  have hfbeq : main_free_blocks input file
      = (lowest_clear input.data (sb_data_bitmap_start input.data * BS)
          (sb_data_region_blocks input.data) (blocks_needed_for_file file.size)).map
          (fun j => (sb_data_region_start input.data + j) % 2 ^ 32) := by
    unfold main_free_blocks
    rw [e3, e5, e6]
    exact scan_free_blocks_lowest _ _ _ _ _
  have hlen := lowest_clear_length_le input.data (sb_data_bitmap_start input.data * BS)
    (sb_data_region_blocks input.data) (blocks_needed_for_file file.size)
  have hfblen : (main_free_blocks input file).length = blocks_needed_for_file file.size := by
    have : (main_free_blocks input file).length ≤ blocks_needed_for_file file.size := by
      rw [hfbeq, List.length_map]; exact hlen
    omega
  have hlclen : (lowest_clear input.data (sb_data_bitmap_start input.data * BS)
      (sb_data_region_blocks input.data) (blocks_needed_for_file file.size)).length
      = blocks_needed_for_file file.size := by
    rw [hfbeq, List.length_map] at hfblen; exact hfblen
  have hmax : sb_inode_count input.data < 2 ^ 31 := by
    unfold BS at hic; omega
  have hcases := find_free_bit_cases input.data (sb_inode_bitmap_start input.data * BS)
    (sb_inode_count input.data) hmax
  have hfi' : main_free_inode input
      = find_free_bit input.data (sb_inode_bitmap_start input.data * BS)
          (sb_inode_count input.data) := by
    unfold main_free_inode; rw [e1, e2]
  rw [← hfi'] at hcases
  rcases hcases with ⟨hneg, _⟩ | ⟨f, hf, hflt, hfc, hfmin⟩
  · rw [hneg] at hfi; omega
  · have hes := find_free_entry_spec (main_alloc input file now)
      (sb_data_region_start (main_superblock input) * BS) (BS / 64) 0
    have hfe' : main_free_entry input file now
        = find_free_entry (main_alloc input file now)
            (sb_data_region_start (main_superblock input) * BS) (BS / 64) 0 := rfl
    rw [← hfe'] at hes
    rcases hes with ⟨hneg, _⟩ | ⟨e, he, _, helt, _, _⟩
    · rw [hneg] at hfe; omega
    · refine ⟨f, e, hf, hflt, hfc, hfmin, he, ?_, hfbeq, hlclen, hfblen, hn, hs⟩
      have : BS / 64 = 64 := rfl
      omega

/-! ### The adder: which bytes each stage touches -/

theorem entry_stage_out (sb m : Mem) (fi : Int) (e a : Nat)
    (h : a < sb_data_region_start sb * BS + e * 64
      ∨ sb_data_region_start sb * BS + e * 64 + 64 ≤ a) :
    entry_stage sb m fi (e : Int) a = m a := by
  unfold entry_stage
  simp only [Int.toNat_ofNat]
  rw [store_out _ _ _ _ _ (by omega), store_out _ _ _ _ _ (by omega),
    memset_out _ _ _ _ _ (by omega)]

theorem superblock_crc_finalize_out (m : Mem) (sb a : Nat) (h : a < sb + 112 ∨ sb + 116 ≤ a) :
    superblock_crc_finalize m sb a = m a := by
  unfold superblock_crc_finalize
  rw [store_out _ _ _ _ _ (by omega), store_out _ _ _ _ _ (by omega)]

/-- The last stage writes only: the superblock checksum, the name and checksum of the new
entry, the root inode's links, size, mtime, ctime and CRC, and the new inode's CRC. -/
theorem link_stage_out (sb m : Mem) (f e : Nat) (filename : List Nat) (now a : Nat)
    (hs : strlen filename < 58)
    (h1 : a < 112 ∨ 116 ≤ a)
    (h2 : a < sb_data_region_start sb * BS + e * 64 + 5
      ∨ sb_data_region_start sb * BS + e * 64 + 64 ≤ a)
    (h3 : a < sb_inode_table_start sb * BS + 2 ∨ sb_inode_table_start sb * BS + 44 ≤ a)
    (h4 : a < sb_inode_table_start sb * BS + 120 ∨ sb_inode_table_start sb * BS + 128 ≤ a)
    (h5 : a < sb_inode_table_start sb * BS + f * INODE_SIZE + 120
      ∨ sb_inode_table_start sb * BS + f * INODE_SIZE + 128 ≤ a) :
    link_stage sb m (f : Int) (e : Int) filename now a = m a := by
  unfold link_stage
  simp only [Int.toNat_ofNat]
  rw [superblock_crc_finalize_out _ _ _ (by omega),
    dirent_checksum_finalize_out _ _ _ (by omega),
    inode_crc_finalize_out _ _ _ (by omega),
    inode_crc_finalize_out _ _ _ (by omega),
    store_out _ _ _ _ _ (by omega), store_out _ _ _ _ _ (by omega),
    store_out _ _ _ _ _ (by omega), store_out _ _ _ _ _ (by omega),
    strcpy_out _ _ _ _ (by omega)]

/-- The index of block `j` of a successful run, as a function of `j`. -/
theorem main_block_index (input file : File) (drs drb : Nat) (lc : List Nat)
    (hfb : main_free_blocks input file = lc.map (fun j => (drs + j) % 2 ^ 32))
    (hmem : ∀ x, x ∈ lc → x < drb) (hdrb : drb ≤ 8 * BS) (h32 : drs + drb < 2 ^ 32) :
    ∀ j, j < lc.length →
      block_index ((main_free_blocks input file).getD j 0) drs = lc.getD j 0
      ∧ lc.getD j 0 < drb
      ∧ block_index ((main_free_blocks input file).getD j 0) drs * BS % 2 ^ 64
          = lc.getD j 0 * BS
      ∧ toInt32 (block_index ((main_free_blocks input file).getD j 0) drs)
          = ((lc.getD j 0 : Nat) : Int)
      ∧ (main_free_blocks input file).getD j 0 = drs + lc.getD j 0 := by
  intro j hj
  have hx : lc.getD j 0 = lc[j] := by
    rw [List.getD_eq_getElem?_getD, List.getElem?_eq_getElem hj]; rfl
  have hlt : lc.getD j 0 < drb := by rw [hx]; exact hmem _ (List.getElem_mem hj)
  have hget : (main_free_blocks input file).getD j 0 = (drs + lc.getD j 0) % 2 ^ 32 := by
    rw [hfb, List.getD_eq_getElem?_getD, List.getElem?_map, List.getElem?_eq_getElem hj, hx]
    rfl
  have hbi : block_index ((main_free_blocks input file).getD j 0) drs = lc.getD j 0 := by
    rw [hget]; exact block_index_add drs _ (by omega)
  unfold BS at hdrb
  refine ⟨hbi, hlt, ?_, ?_, ?_⟩
  · rw [hbi]; unfold BS; omega
  · rw [hbi]; exact toInt32_of_lt _ (by omega)
  · rw [hget]; exact Nat.mod_eq_of_lt (by omega)

/-- Outside the new directory entry, the superblock checksum, the root inode's updated
fields and the two inode CRCs, the final buffer is the buffer after allocation. -/
theorem main_link_out (input file : File) (filename : List Nat) (now f e a : Nat)
    (hf : main_free_inode input = (f : Int)) (he : main_free_entry input file now = (e : Int))
    (hs : strlen filename < 58)
    (h1 : a < 112 ∨ 116 ≤ a)
    (h2 : a < sb_data_region_start input.data * 4096 + e * 64
      ∨ sb_data_region_start input.data * 4096 + e * 64 + 64 ≤ a)
    (h3 : a < sb_inode_table_start input.data * 4096 + 2
      ∨ sb_inode_table_start input.data * 4096 + 44 ≤ a)
    (h4 : a < sb_inode_table_start input.data * 4096 + 120
      ∨ sb_inode_table_start input.data * 4096 + 128 ≤ a)
    (h5 : a < sb_inode_table_start input.data * 4096 + f * 128 + 120
      ∨ sb_inode_table_start input.data * 4096 + f * 128 + 128 ≤ a) :
    main_link input file filename now a = main_alloc input file now a := by
  obtain ⟨_, _, _, _, e4, e5, _⟩ := main_superblock_fields input
  unfold main_link main_entry
  rw [hf, he]
  rw [link_stage_out _ _ _ _ _ _ _ hs h1 (by rw [e5]; simp only [BS]; omega)
    (by rw [e4]; simp only [BS]; omega)
    (by rw [e4]; simp only [BS]; omega) (by rw [e4]; simp only [BS, INODE_SIZE]; omega)]
  exact entry_stage_out _ _ _ _ _ (by rw [e5]; simp only [BS]; omega)

/-- The buffer after allocation, region by region, in terms of the input image. -/
theorem main_alloc_regions (input file : File) (now f : Nat) (hl : LayoutOk input)
    (hf : main_free_inode input = (f : Int)) (hflt : f < sb_inode_count input.data)
    (hfb : main_free_blocks input file
      = (lowest_clear input.data (sb_data_bitmap_start input.data * BS)
          (sb_data_region_blocks input.data) (blocks_needed_for_file file.size)).map
          (fun j => (sb_data_region_start input.data + j) % 2 ^ 32))
    (hlen : (lowest_clear input.data (sb_data_bitmap_start input.data * BS)
        (sb_data_region_blocks input.data) (blocks_needed_for_file file.size)).length
        = blocks_needed_for_file file.size)
    (hN : blocks_needed_for_file file.size ≤ 12) (a : Nat) :
    (a < sb_inode_bitmap_start input.data * BS → main_alloc input file now a = input.data a)
    ∧ (sb_inode_bitmap_start input.data * BS ≤ a → a < sb_data_bitmap_start input.data * BS →
        main_alloc input file now a
          = set_bit input.data (sb_inode_bitmap_start input.data * BS) (f : Int) a)
    ∧ (sb_data_bitmap_start input.data * BS ≤ a → a < sb_inode_table_start input.data * BS →
        main_alloc input file now a
          = mark_blocks input.data (sb_data_bitmap_start input.data * BS)
              (sb_data_region_start input.data) (main_free_blocks input file)
              (blocks_needed_for_file file.size) a)
    ∧ (sb_inode_table_start input.data * BS ≤ a → a < sb_data_region_start input.data * BS →
        main_alloc input file now a
          = build_inode input.data (sb_inode_table_start input.data * BS + f * INODE_SIZE)
              file.size now (main_free_blocks input file) a)
    ∧ (sb_data_region_start input.data * BS ≤ a →
        main_alloc input file now a
          = write_blocks input.data (sb_data_region_start input.data * BS)
              (sb_data_region_start input.data) (main_free_blocks input file) file
              (blocks_needed_for_file file.size) a) := by
  obtain ⟨hic, hdrb, l1, l2, l3, l4, l5, l6⟩ := hl
  obtain ⟨_, e1, e2, e3, e4, e5, e6⟩ := main_superblock_fields input
  have hidx := main_block_index input file (sb_data_region_start input.data)
    (sb_data_region_blocks input.data) _ hfb
    (fun x hx => (lowest_clear_mem _ _ _ _ x hx).1) hdrb l6
  rw [hlen] at hidx
  have hfblen : (main_free_blocks input file).length = blocks_needed_for_file file.size := by
    rw [hfb, List.length_map, hlen]
  have hI : ∀ j, j < blocks_needed_for_file file.size →
      toInt32 (block_index ((main_free_blocks input file).getD j 0)
        (sb_data_region_start input.data))
      = (((lowest_clear input.data (sb_data_bitmap_start input.data * BS)
          (sb_data_region_blocks input.data) (blocks_needed_for_file file.size)).getD j 0 : Nat)
          : Int) := fun j hj => (hidx j hj).2.2.2.1
  have hlt : ∀ j, j < blocks_needed_for_file file.size →
      (lowest_clear input.data (sb_data_bitmap_start input.data * BS)
          (sb_data_region_blocks input.data) (blocks_needed_for_file file.size)).getD j 0 / 8
        < 4096 := by
    intro j hj
    have := (hidx j hj).2.1
    unfold BS at hdrb
    omega
  have hfl : (fb : List Nat) → fb.length = blocks_needed_for_file file.size → fb.length ≤ 12 :=
    fun fb h => by omega
  unfold main_alloc alloc_stage
  simp only [e1, e2, e3, e4, e5, e6, hf, Int.toNat_ofNat, hfblen]
  simp only [BS, INODE_SIZE] at *
  refine ⟨?_, ?_, ?_, ?_, ?_⟩
  · intro ha
    rw [mark_blocks_out _ _ _ _ _ _ _ hI (fun j hj => by have := hlt j hj; omega),
      set_bit_out _ _ _ _ (by omega), write_blocks_below _ _ _ _ _ _ (by omega),
      build_inode_out _ _ _ _ _ _ (hfl _ hfblen) (by omega)]
  · intro ha1 ha2
    rw [mark_blocks_out _ _ _ _ _ _ _ hI (fun j hj => by have := hlt j hj; omega)]
    apply set_bit_pt
    rw [write_blocks_below _ _ _ _ _ _ (by omega),
      build_inode_out _ _ _ _ _ _ (hfl _ hfblen) (by omega)]
  · intro ha1 ha2
    apply mark_blocks_pt _ _ _ _ _ _ _ _ _ hI
    rw [set_bit_out _ _ _ _ (by omega), write_blocks_below _ _ _ _ _ _ (by omega),
      build_inode_out _ _ _ _ _ _ (hfl _ hfblen) (by omega)]
  · intro ha1 ha2
    rw [mark_blocks_out _ _ _ _ _ _ _ hI (fun j hj => by have := hlt j hj; omega),
      set_bit_out _ _ _ _ (by omega), write_blocks_below _ _ _ _ _ _ (by omega)]
  · intro ha
    rw [mark_blocks_out _ _ _ _ _ _ _ hI (fun j hj => by have := hlt j hj; omega),
      set_bit_out _ _ _ _ (by omega)]
    apply write_blocks_pt
    rw [build_inode_out _ _ _ _ _ _ (hfl _ hfblen) (by omega)]

/-! ### The builder: the bytes of the image it writes -/

theorem write_region_buffer (first bb : Mem) (n i x : Nat) (hx : x < 4096) :
    (if i = 0 then memcpy (memset bb 0 0 4096) 0 first 0 n else memset bb 0 0 4096) x
      = if i = 0 ∧ x < n then first x else 0 := by
  by_cases hi : i = 0
  · rw [if_pos hi]
    by_cases hxn : x < n
    · rw [if_pos ⟨hi, hxn⟩, memcpy_in _ _ _ _ _ _ (by omega) (by omega)]
      congr 1; omega
    · rw [if_neg (fun h => hxn h.2), memcpy_out _ _ _ _ _ _ (by omega),
        memset_in _ _ _ _ _ (by omega) (by omega)]
  · rw [if_neg hi, if_neg (fun h => hi h.1), memset_in _ _ _ _ _ (by omega) (by omega)]

theorem write_region_spec (first : Mem) (n : Nat) (hn : n ≤ 4096) :
    ∀ k i (img : File) (bb : Mem),
      (write_region first n k i (img, bb)).1.size = img.size + k * 4096
      ∧ ∀ a, (write_region first n k i (img, bb)).1.data a
          = if img.size ≤ a ∧ a < img.size + k * 4096 then
              (if i = 0 ∧ a - img.size < n then first (a - img.size) else 0)
            else img.data a := by
  intro k
  induction k with
  | zero =>
    intro i img bb
    refine ⟨by simp [write_region], fun a => ?_⟩
    simp only [write_region]
    rw [if_neg (by omega)]
  | succ k ih =>
    intro i img bb
    simp only [write_region, BS]
    generalize hbb : (if i = 0 then memcpy (memset bb 0 0 4096) 0 first 0 n
      else memset bb 0 0 4096) = bb'
    have hbuf : ∀ x, x < 4096 → bb' x = if i = 0 ∧ x < n then first x else 0 := by
      intro x hx; rw [← hbb]; exact write_region_buffer first bb n i x hx
    obtain ⟨ihs, ihd⟩ := ih (i + 1) (fwrite img bb' 0 4096) bb'
    have hsz : (fwrite img bb' 0 4096).size = img.size + 4096 := rfl
    refine ⟨by rw [ihs, hsz]; omega, fun a => ?_⟩
    rw [ihd a, hsz]
    by_cases h1 : img.size + 4096 ≤ a ∧ a < img.size + 4096 + k * 4096
    · have h2 : img.size ≤ a ∧ a < img.size + (k + 1) * 4096 := by omega
      have h3 : ¬ (i + 1 = 0 ∧ a - (img.size + 4096) < n) := by omega
      have h4 : ¬ (i = 0 ∧ a - img.size < n) := by omega
      rw [if_pos h1, if_neg h3, if_pos h2, if_neg h4]
    · rw [if_neg h1]
      simp only [fwrite]
      by_cases h2 : img.size ≤ a ∧ a < img.size + 4096
      · have h3 : img.size ≤ a ∧ a < img.size + (k + 1) * 4096 := by omega
        rw [if_pos h2, if_pos h3, Nat.zero_add, hbuf _ (by omega)]
      · have h3 : ¬ (img.size ≤ a ∧ a < img.size + (k + 1) * 4096) := by omega
        rw [if_neg h2, if_neg h3]

/-- The image the builder writes, region by region. -/
theorem builder_image_bytes (stack : Mem) (size_kib ic t_sb t_root flags : Nat) :
    (builder_image stack size_kib ic t_sb t_root flags).size
      = 3 * BS + layout_inode_table_blocks ic * BS
          + layout_data_region_blocks size_kib ic * BS
    ∧ ∀ a,
      (a < BS → (builder_image stack size_kib ic t_sb t_root flags).data a
        = if a < 116 then
            superblock_crc_finalize (create_superblock stack 0 size_kib ic t_sb flags) 0 a
          else 0)
      ∧ (BS ≤ a → a < 2 * BS → (builder_image stack size_kib ic t_sb t_root flags).data a
        = if a = BS then 1 else 0)
      ∧ (2 * BS ≤ a → a < 3 * BS → (builder_image stack size_kib ic t_sb t_root flags).data a
        = if a = 2 * BS then 1 else 0)
      ∧ (3 * BS ≤ a → a < 3 * BS + layout_inode_table_blocks ic * BS →
        (builder_image stack size_kib ic t_sb t_root flags).data a
        = if a - 3 * BS < 128 then
            inode_crc_finalize
              (create_root_inode (fun _ => 0) 0 (layout_data_region_start ic) t_root) 0
              (a - 3 * BS)
          else 0)
      ∧ (3 * BS + layout_inode_table_blocks ic * BS ≤ a →
        a < 3 * BS + layout_inode_table_blocks ic * BS
          + layout_data_region_blocks size_kib ic * BS →
        (builder_image stack size_kib ic t_sb t_root flags).data a
        = if a - (3 * BS + layout_inode_table_blocks ic * BS) < 128 then
            create_root_directory_entries (fun _ => 0) 0
              (a - (3 * BS + layout_inode_table_blocks ic * BS))
          else 0) := by
  unfold builder_image
  simp only [BS]
  generalize hsb : superblock_crc_finalize (create_superblock stack 0 size_kib ic t_sb flags) 0
    = SB
  generalize hri : inode_crc_finalize
    (create_root_inode (fun _ => 0) 0 (layout_data_region_start ic) t_root) 0 = RI
  generalize hre : create_root_directory_entries (fun _ => 0) 0 = RE
  generalize hitb : layout_inode_table_blocks ic = itb
  generalize hdrb : layout_data_region_blocks size_kib ic = drb
  generalize hb0 : memcpy (memset (fun _ => 0) 0 0 4096) 0 SB 0 116 = B0
  generalize hb1 : store (memset B0 0 0 4096) 0 1 1 = B1
  generalize hb2 : store (memset B1 0 0 4096) 0 1 1 = B2
  generalize hi0 : fwrite ⟨0, fun _ => 0⟩ B0 0 4096 = I0
  generalize hi1 : fwrite I0 B1 0 4096 = I1
  generalize hi2 : fwrite I1 B2 0 4096 = I2
  have s0 : I0.size = 4096 := by rw [← hi0]; simp [fwrite]
  have s1 : I1.size = 2 * 4096 := by rw [← hi1]; simp only [fwrite, s0]
  have s2 : I2.size = 3 * 4096 := by rw [← hi2]; simp only [fwrite, s1]
  have d0 : ∀ a, I0.data a = if a < 4096 then (if a < 116 then SB a else 0) else 0 := by
    intro a
    rw [← hi0]
    simp only [fwrite]
    by_cases h : a < 4096
    · rw [if_pos (by omega), if_pos h, ← hb0]
      by_cases h' : a < 116
      · rw [if_pos h', memcpy_in _ _ _ _ _ _ (by omega) (by omega)]
        congr 1; omega
      · rw [if_neg h', memcpy_out _ _ _ _ _ _ (by omega),
          memset_in _ _ _ _ _ (by omega) (by omega)]
    · rw [if_neg (by omega), if_neg h]
  have hbit : ∀ (B : Mem) x, x < 4096 → store (memset B 0 0 4096) 0 1 1 x = if x = 0 then 1 else 0 := by
    intro B x hx
    by_cases h0 : x = 0
    · subst h0
      rw [if_pos rfl, store_in _ _ _ _ _ (by omega) (by omega)]
      rfl
    · rw [if_neg h0, store_out _ _ _ _ _ (by omega), memset_in _ _ _ _ _ (by omega) (by omega)]
  have d1 : ∀ a, I1.data a = if 4096 ≤ a ∧ a < 2 * 4096 then (if a = 4096 then 1 else 0)
      else I0.data a := by
    intro a
    rw [← hi1]
    simp only [fwrite, s0]
    by_cases h : 4096 ≤ a ∧ a < 2 * 4096
    · rw [if_pos (by omega), if_pos h, ← hb1, Nat.zero_add, hbit _ _ (by omega)]
      by_cases h' : a = 4096
      · rw [if_pos h', if_pos (by omega)]
      · rw [if_neg h', if_neg (by omega)]
    · rw [if_neg (by omega), if_neg h]
  have d2 : ∀ a, I2.data a = if 2 * 4096 ≤ a ∧ a < 3 * 4096 then (if a = 2 * 4096 then 1 else 0)
      else I1.data a := by
    intro a
    rw [← hi2]
    simp only [fwrite, s1]
    by_cases h : 2 * 4096 ≤ a ∧ a < 3 * 4096
    · rw [if_pos (by omega), if_pos h, ← hb2, Nat.zero_add, hbit _ _ (by omega)]
      by_cases h' : a = 2 * 4096
      · rw [if_pos h', if_pos (by omega)]
      · rw [if_neg h', if_neg (by omega)]
    · rw [if_neg (by omega), if_neg h]
  obtain ⟨s3, d3⟩ := write_region_spec RI 128 (by decide) itb 0 I2 B2
  generalize hst3 : write_region RI 128 itb 0 (I2, B2) = st3 at s3 d3 ⊢
  obtain ⟨I3, B3⟩ := st3
  simp only at s3 d3
  obtain ⟨s4, d4⟩ := write_region_spec RE (2 * 64) (by decide) drb 0 I3 B3
  rw [s2] at s3 d3
  rw [s3] at s4 d4
  refine ⟨s4, fun a => ⟨?_, ?_, ?_, ?_, ?_⟩⟩
  · intro h
    rw [d4, if_neg (by omega), d3, if_neg (by omega), d2, if_neg (by omega), d1,
      if_neg (by omega), d0, if_pos h]
  · intro h1 h2
    rw [d4, if_neg (by omega), d3, if_neg (by omega), d2, if_neg (by omega), d1,
      if_pos ⟨h1, h2⟩]
  · intro h1 h2
    rw [d4, if_neg (by omega), d3, if_neg (by omega), d2, if_pos ⟨h1, h2⟩]
  · intro h1 h2
    rw [d4, if_neg (by omega), d3, if_pos ⟨h1, h2⟩]
    simp only [true_and]
  · intro h1 h2
    rw [d4, if_pos ⟨h1, h2⟩]
    simp only [true_and]

/-! ### The builder's superblock -/

theorem create_superblock_out (m : Mem) (sb size_kib ic now flags a : Nat)
    (h : a < sb ∨ sb + 116 ≤ a) :
    create_superblock m sb size_kib ic now flags a = m a := by
  unfold create_superblock
  simp (disch := omega) only [store_out, memset_out]

/-- The fields `create_superblock` stores, as read back. -/
theorem create_superblock_fields (m : Mem) (sb size_kib ic now flags : Nat) :
    load (create_superblock m sb size_kib ic now flags) (sb + 0) 4 = MAGIC
    ∧ load (create_superblock m sb size_kib ic now flags) (sb + 12) 8
        = layout_total_blocks size_kib % 2 ^ 64
    ∧ load (create_superblock m sb size_kib ic now flags) (sb + 20) 8 = ic % 2 ^ 64
    ∧ load (create_superblock m sb size_kib ic now flags) (sb + 28) 8 = 1
    ∧ load (create_superblock m sb size_kib ic now flags) (sb + 44) 8 = 2
    ∧ load (create_superblock m sb size_kib ic now flags) (sb + 60) 8 = 3
    ∧ load (create_superblock m sb size_kib ic now flags) (sb + 68) 8
        = layout_inode_table_blocks ic % 2 ^ 64
    ∧ load (create_superblock m sb size_kib ic now flags) (sb + 76) 8
        = layout_data_region_start ic % 2 ^ 64
    ∧ load (create_superblock m sb size_kib ic now flags) (sb + 84) 8
        = layout_data_region_blocks size_kib ic % 2 ^ 64
    ∧ load (create_superblock m sb size_kib ic now flags) (sb + 100) 8 = now % 2 ^ 64 := by
  unfold create_superblock
  refine ⟨?_, ?_, ?_, ?_, ?_, ?_, ?_, ?_, ?_, ?_⟩ <;>
    simp (disch := omega) only [load_store_other, load_store_same] <;> rfl

/-- The superblock bytes of the image are the finalized record, so its fields are the ones
`create_superblock` stored. -/
theorem builder_image_superblock_load (stack : Mem) (size_kib ic t_sb t_root flags p w : Nat)
    (h : p + w ≤ 112) :
    load (builder_image stack size_kib ic t_sb t_root flags).data p w
      = load (create_superblock stack 0 size_kib ic t_sb flags) p w := by
  apply load_eq_of_agree
  intro a h1 h2
  have hb := ((builder_image_bytes stack size_kib ic t_sb t_root flags).2 a).1
    (by unfold BS; omega)
  rw [hb, if_pos (by omega), superblock_crc_finalize_out _ _ _ (by omega)]

theorem crc32_succ (m : Mem) (d n : Nat) :
    crc32 m d (n + 1) = crc32_step crc32_init (crc32_loop crc32_init m d n) (m (d + n))
      ^^^ 0xFFFFFFFF := rfl

/-- What the builder stores as checksum: the CRC32 of the 4092 bytes of memory that start
at the local record, checksum field zeroed. -/
theorem builder_stored_checksum (stack : Mem) (size_kib ic t_sb t_root flags : Nat) :
    sb_checksum (builder_image stack size_kib ic t_sb t_root flags).data
      = crc32 (store (create_superblock stack 0 size_kib ic t_sb flags) 112 4 0) 0 (BS - 4) := by
  have hbytes := (builder_image_bytes stack size_kib ic t_sb t_root flags).2
  unfold sb_checksum
  have : load (builder_image stack size_kib ic t_sb t_root flags).data 112 4
      = load (superblock_crc_finalize (create_superblock stack 0 size_kib ic t_sb flags) 0)
          112 4 := by
    apply load_eq_of_agree
    intro a h1 h2
    rw [(hbytes a).1 (by unfold BS; omega), if_pos (by omega)]
  rw [this]
  unfold superblock_crc_finalize
  simp only [Nat.zero_add]
  rw [load_store_same]
  exact Nat.mod_eq_of_lt (by simpa using crc32_lt _ _ _)

/-- When the memory after the local record happens to be zero, the checksum the builder
stores does verify on the image. -/
theorem builder_checksum_valid_of_zero_stack (stack : Mem)
    (size_kib ic t_sb t_root flags : Nat) (hz : ∀ a, 116 ≤ a → a < 4092 → stack a = 0) :
    crc32 (store (builder_image stack size_kib ic t_sb t_root flags).data 112 4 0) 0 (BS - 4)
      = sb_checksum (builder_image stack size_kib ic t_sb t_root flags).data := by
  rw [builder_stored_checksum]
  have hbytes := (builder_image_bytes stack size_kib ic t_sb t_root flags).2
  apply crc32_congr
  intro i hi
  have hi' : i < 4092 := hi
  rw [Nat.zero_add]
  by_cases h1 : 112 ≤ i ∧ i < 112 + 4
  · rw [store_in _ _ _ _ _ h1.1 h1.2, store_in _ _ _ _ _ h1.1 h1.2]
  · rw [store_out _ _ _ _ _ (by omega), store_out _ _ _ _ _ (by omega),
      (hbytes i).1 (by unfold BS; omega)]
    by_cases h2 : i < 116
    · rw [if_pos h2, superblock_crc_finalize_out _ _ _ (by omega)]
    · rw [if_neg h2, create_superblock_out _ _ _ _ _ _ _ (by omega), hz i (by omega) hi']

/-- C1 (the defect): the builder hashes the 116-byte local record together with the 3976
bytes that follow it in memory, then copies only the record into a zeroed block.  With a
single non-zero byte after the record (offset 4091 here) the checksum stored in the image
differs from the CRC32 of the first 4092 bytes of block 0 with the checksum field
zeroed. -/
theorem builder_superblock_checksum_mismatch :
    (builder_main (fun a => if a = 4091 then 1 else 0) 180 128 1000 1000 7).1 = 0
    ∧ crc32 (store (builder_image (fun a => if a = 4091 then 1 else 0) 180 128 1000 1000 7).data
        112 4 0) 0 (BS - 4)
      ≠ sb_checksum (builder_image (fun a => if a = 4091 then 1 else 0) 180 128 1000 1000 7).data := by
  refine ⟨by decide, ?_⟩
  generalize hst : (fun a => if a = 4091 then 1 else 0 : Mem) = stack
  have hs0 : ∀ a, 116 ≤ a → a < 4091 → stack a = 0 := by
    intro a h1 h2; rw [← hst]; simp only []; rw [if_neg (by omega)]
  have hs1 : stack 4091 = 1 := by rw [← hst]; rfl
  generalize hcs : create_superblock stack 0 180 128 1000 7 = CS
  have hbytes := (builder_image_bytes stack 180 128 1000 1000 7).2
  rw [hcs] at hbytes
  have hstored : sb_checksum (builder_image stack 180 128 1000 1000 7).data
      = crc32 (store CS 112 4 0) 0 (BS - 4) := by
    rw [← hcs]; exact builder_stored_checksum stack 180 128 1000 1000 7
  rw [hstored]
  have hA : ∀ a, 116 ≤ a → CS a = stack a := by
    intro a ha; rw [← hcs]; exact create_superblock_out _ _ _ _ _ _ _ (by omega)
  have hagree : ∀ i, i < 4091 →
      store (builder_image stack 180 128 1000 1000 7).data 112 4 0 (0 + i)
        = store CS 112 4 0 (0 + i) := by
    intro i hi
    rw [Nat.zero_add]
    by_cases h1 : 112 ≤ i ∧ i < 112 + 4
    · rw [store_in _ _ _ _ _ h1.1 h1.2, store_in _ _ _ _ _ h1.1 h1.2]
    · rw [store_out _ _ _ _ _ (by omega), store_out _ _ _ _ _ (by omega),
        (hbytes i).1 (by unfold BS; omega)]
      by_cases h2 : i < 116
      · rw [if_pos h2, superblock_crc_finalize_out _ _ _ (by omega)]
      · rw [if_neg h2, hA i (by omega), hs0 i (by omega) hi]
  have hloop := crc32_loop_congr crc32_init _ _ 0 0 4091 hagree
  have hlast1 : store (builder_image stack 180 128 1000 1000 7).data 112 4 0 (0 + 4091) = 0 := by
    rw [store_out _ _ _ _ _ (by omega), (hbytes _).1 (by unfold BS; omega), if_neg (by omega)]
  have hlast2 : store CS 112 4 0 (0 + 4091) = 1 := by
    rw [store_out _ _ _ _ _ (by omega), hA _ (by omega), hs1]
  have e : BS - 4 = 4091 + 1 := rfl
  rw [e, crc32_succ, crc32_succ, hloop, hlast1, hlast2,
    crc32_table_step _ _ (by decide), crc32_table_step _ _ (by decide), crc32_entry_xor,
    crc32_entry_xor]
  generalize crc32_entry (crc32_loop crc32_init (store CS 112 4 0) 0 4091) = c
  intro hc
  have h1 := congrArg (fun x => x ^^^ 0xFFFFFFFF) hc
  simp only [Nat.xor_cancel_right] at h1
  have h2 := congrArg (fun x => c ^^^ x) h1
  simp only [Nat.xor_cancel_left] at h2
  exact absurd h2 (by decide)

/-! ### The adder: the superblock timestamp and the name check -/

/-- C2 (the defect): inserting the 10,000-byte file into the Scenario A image (created at
time 1000) at time 2000 succeeds, and the superblock of the output image still has
`mtime_epoch = 1000`: `main` assigns `now` to its local copy of the superblock only, then
finalizes the checksum of the image's block. -/
theorem adder_superblock_mtime_not_updated :
    (adder_main scenario_image scenario_file [104, 105] 2000).exit_code = 0
    ∧ (adder_main scenario_image scenario_file [104, 105] 2000).output
        = some ⟨scenario_image.size,
            (adder_main scenario_image scenario_file [104, 105] 2000).image_data⟩
    ∧ sb_mtime_epoch scenario_image.data = 1000
    ∧ sb_mtime_epoch (adder_main scenario_image scenario_file [104, 105] 2000).image_data = 1000
    ∧ sb_mtime_epoch (adder_main scenario_image scenario_file [104, 105] 2000).image_data ≠ 2000
    ∧ sb_mtime_epoch (adder_main scenario_image scenario_file [104, 105] 2000).superblock
        = 2000 := by
  have h0 : (adder_main scenario_image scenario_file [104, 105] 2000).exit_code = 0 := by
    decide
  obtain ⟨_, _, _, _, _, _, _, himg, _, hout⟩ :=
    adder_main_success scenario_image scenario_file [104, 105] 2000 h0
  refine ⟨h0, ?_, by decide, by decide, by decide, by decide⟩
  rw [hout, himg]

/-- C3 (as stated, refuted): with a 58-character base name on the Scenario A image the run
fails at the name check, and in the image state it holds at that point inode bit 1 and
data bit 1 are set although they were clear in the input. -/
theorem long_name_fails_after_bitmap_update :
    strlen (List.replicate 58 65) = 58
    ∧ (adder_main scenario_image scenario_file (List.replicate 58 65) 2000).exit_code = 1
    ∧ bitClear scenario_image.data (sb_inode_bitmap_start scenario_image.data * BS) 1
    ∧ ¬ bitClear (adder_main scenario_image scenario_file (List.replicate 58 65) 2000).image_data
        (sb_inode_bitmap_start scenario_image.data * BS) 1
    ∧ bitClear scenario_image.data (sb_data_bitmap_start scenario_image.data * BS) 1
    ∧ ¬ bitClear (adder_main scenario_image scenario_file (List.replicate 58 65) 2000).image_data
        (sb_data_bitmap_start scenario_image.data * BS) 1 := by
  refine ⟨by decide, by decide, by decide, by decide, by decide, by decide⟩

/-- C3 (amended): for every image and every file whose base name has 58 or more
characters the insertion is rejected: the run exits with status 1 and writes no output
image. -/
theorem long_name_rejected (input file : File) (filename : List Nat) (now : Nat)
    (hlen : 58 ≤ strlen filename) :
    (adder_main input file filename now).exit_code = 1
    ∧ (adder_main input file filename now).output = none := by
  apply adder_main_failure
  intro h0
  have := (adder_main_success input file filename now h0).2.2.2.2.2.2.1
  omega

/-- C3 (amended) on the Scenario A image with a 58-character name. -/
theorem long_name_rejected_witness :
    58 ≤ strlen (List.replicate 58 65)
    ∧ (adder_main scenario_image scenario_file (List.replicate 58 65) 2000).exit_code = 1
    ∧ (adder_main scenario_image scenario_file (List.replicate 58 65) 2000).output = none :=
  ⟨by decide, long_name_rejected scenario_image scenario_file (List.replicate 58 65) 2000
    (by decide)⟩

/-! ### The builder on validated parameters -/

theorem parse_args_ok_iff (size_kib ic : Nat) :
    parse_args_ok size_kib ic = true
      ↔ (180 ≤ size_kib ∧ size_kib ≤ 4096 ∧ size_kib % 4 = 0 ∧ 128 ≤ ic ∧ ic ≤ 512) := by
  unfold parse_args_ok
  simp only [Bool.and_eq_true, Bool.not_eq_true', Bool.or_eq_false_iff, decide_eq_false_iff_not,
    bne_eq_false_iff_eq, beq_iff_eq]
  omega

/-- The layout values on validated parameters: no 64-bit operation wraps. -/
theorem layout_of_valid (size_kib ic : Nat)
    (h : 180 ≤ size_kib ∧ size_kib ≤ 4096 ∧ size_kib % 4 = 0 ∧ 128 ≤ ic ∧ ic ≤ 512) :
    layout_total_blocks size_kib = size_kib / 4
    ∧ layout_inode_table_blocks ic = (ic * 128 + 4095) / 4096
    ∧ layout_data_region_start ic = 3 + (ic * 128 + 4095) / 4096
    ∧ layout_data_region_blocks size_kib ic = size_kib / 4 - (3 + (ic * 128 + 4095) / 4096)
    ∧ 4 ≤ layout_inode_table_blocks ic ∧ layout_inode_table_blocks ic ≤ 16
    ∧ 26 ≤ layout_data_region_blocks size_kib ic := by
  obtain ⟨h1, h2, h3, h4, h5⟩ := h
  have e1 : layout_total_blocks size_kib = size_kib / 4 := by
    unfold layout_total_blocks BS
    rw [Nat.mod_eq_of_lt (by omega)]
    omega
  have e2 : layout_inode_table_blocks ic = (ic * 128 + 4095) / 4096 := by
    unfold layout_inode_table_blocks BS INODE_SIZE
    rw [Nat.mod_eq_of_lt (by omega)]
    omega
  have e3 : layout_data_region_start ic = 3 + (ic * 128 + 4095) / 4096 := by
    unfold layout_data_region_start
    rw [e2, Nat.mod_eq_of_lt (by omega)]
  have e4 : layout_data_region_blocks size_kib ic
      = size_kib / 4 - (3 + (ic * 128 + 4095) / 4096) := by
    unfold layout_data_region_blocks
    rw [e1, e3]
    omega
  refine ⟨e1, e2, e3, e4, ?_, ?_, ?_⟩
  · rw [e2]; omega
  · rw [e2]; omega
  · rw [e4]; omega

/-- A builder run with exit status 0 had validated parameters and wrote `builder_image`. -/
theorem builder_main_ok (stack : Mem) (size_kib ic t_sb t_root flags : Nat) (img : File)
    (h : builder_main stack size_kib ic t_sb t_root flags = (0, some img)) :
    (180 ≤ size_kib ∧ size_kib ≤ 4096 ∧ size_kib % 4 = 0 ∧ 128 ≤ ic ∧ ic ≤ 512)
    ∧ img = builder_image stack size_kib ic t_sb t_root flags := by
  unfold builder_main at h
  split_ifs at h with h1 h2
  · have h' := congrArg Prod.fst h
    simp at h'
  · have h' := congrArg Prod.fst h
    simp at h'
  · refine ⟨(parse_args_ok_iff size_kib ic).1 (by simpa using h1), ?_⟩
    have := congrArg Prod.snd h
    simp only [Option.some.injEq] at this
    exact this.symm

/-- The superblock fields of a freshly built image. -/
theorem builder_image_fields (stack : Mem) (size_kib ic t_sb t_root flags : Nat)
    (h : 180 ≤ size_kib ∧ size_kib ≤ 4096 ∧ size_kib % 4 = 0 ∧ 128 ≤ ic ∧ ic ≤ 512) :
    sb_magic (builder_image stack size_kib ic t_sb t_root flags).data = MAGIC
    ∧ sb_total_blocks (builder_image stack size_kib ic t_sb t_root flags).data = size_kib / 4
    ∧ sb_inode_count (builder_image stack size_kib ic t_sb t_root flags).data = ic
    ∧ sb_inode_bitmap_start (builder_image stack size_kib ic t_sb t_root flags).data = 1
    ∧ sb_data_bitmap_start (builder_image stack size_kib ic t_sb t_root flags).data = 2
    ∧ sb_inode_table_start (builder_image stack size_kib ic t_sb t_root flags).data = 3
    ∧ sb_inode_table_blocks (builder_image stack size_kib ic t_sb t_root flags).data
        = (ic * 128 + 4095) / 4096
    ∧ sb_data_region_start (builder_image stack size_kib ic t_sb t_root flags).data
        = 3 + (ic * 128 + 4095) / 4096
    ∧ sb_data_region_blocks (builder_image stack size_kib ic t_sb t_root flags).data
        = size_kib / 4 - (3 + (ic * 128 + 4095) / 4096)
    ∧ (builder_image stack size_kib ic t_sb t_root flags).size = size_kib * 1024 := by
  obtain ⟨e1, e2, e3, e4, b1, b2, b3⟩ := layout_of_valid size_kib ic h
  obtain ⟨f0, f1, f2, f3, f4, f5, f6, f7, f8, _⟩ :=
    create_superblock_fields stack 0 size_kib ic t_sb flags
  simp only [Nat.zero_add] at f0 f1 f2 f3 f4 f5 f6 f7 f8
  unfold sb_magic sb_total_blocks sb_inode_count sb_inode_bitmap_start sb_data_bitmap_start
    sb_inode_table_start sb_inode_table_blocks sb_data_region_start sb_data_region_blocks
  simp only [builder_image_superblock_load _ _ _ _ _ _ _ _ (by omega : 0 + 4 ≤ 112),
    builder_image_superblock_load _ _ _ _ _ _ _ _ (by omega : 12 + 8 ≤ 112),
    builder_image_superblock_load _ _ _ _ _ _ _ _ (by omega : 20 + 8 ≤ 112),
    builder_image_superblock_load _ _ _ _ _ _ _ _ (by omega : 28 + 8 ≤ 112),
    builder_image_superblock_load _ _ _ _ _ _ _ _ (by omega : 44 + 8 ≤ 112),
    builder_image_superblock_load _ _ _ _ _ _ _ _ (by omega : 60 + 8 ≤ 112),
    builder_image_superblock_load _ _ _ _ _ _ _ _ (by omega : 68 + 8 ≤ 112),
    builder_image_superblock_load _ _ _ _ _ _ _ _ (by omega : 76 + 8 ≤ 112),
    builder_image_superblock_load _ _ _ _ _ _ _ _ (by omega : 84 + 8 ≤ 112)]
  obtain ⟨h1, h2, h3, h4, h5⟩ := h
  refine ⟨f0, ?_, ?_, f3, f4, f5, ?_, ?_, ?_, ?_⟩
  · rw [f1, e1]; exact Nat.mod_eq_of_lt (by omega)
  · rw [f2]; exact Nat.mod_eq_of_lt (by omega)
  · rw [f6, e2]; exact Nat.mod_eq_of_lt (by omega)
  · rw [f7, e3]; exact Nat.mod_eq_of_lt (by omega)
  · rw [f8, e4]; exact Nat.mod_eq_of_lt (by omega)
  · rw [(builder_image_bytes stack size_kib ic t_sb t_root flags).1, e2, e4]
    unfold BS
    omega

/-- The two entries `create_root_directory_entries` leaves carry valid checksums. -/
theorem create_root_directory_entries_valid (m : Mem) (entries : Nat) :
    create_root_directory_entries m entries (entries + 63)
      = dirent_xor (create_root_directory_entries m entries) entries 63
    ∧ create_root_directory_entries m entries (entries + 64 + 63)
      = dirent_xor (create_root_directory_entries m entries) (entries + 64) 63 := by
  simp only [create_root_directory_entries]
  generalize strcpy (store (store (memset (strcpy (store (store (memset m entries 0 64)
    (entries + 0) 4 ROOT_INO) (entries + 4) 1 FILE_TYPE_DIR) (entries + 5) [46])
    (entries + 64) 0 64) (entries + 64 + 0) 4 ROOT_INO) (entries + 64 + 4) 1 FILE_TYPE_DIR)
    (entries + 64 + 5) [46, 46] = M
  constructor
  · have h1 : dirent_checksum_finalize (dirent_checksum_finalize M entries) (entries + 64)
        (entries + 63) = dirent_checksum_finalize M entries (entries + 63) :=
      dirent_checksum_finalize_out _ _ _ (by omega)
    have h2 : dirent_xor (dirent_checksum_finalize (dirent_checksum_finalize M entries)
        (entries + 64)) entries 63 = dirent_xor (dirent_checksum_finalize M entries) entries 63 :=
      dirent_xor_congr _ _ entries entries 63
        (fun i hi => dirent_checksum_finalize_out _ (entries + 64) (entries + i) (by omega))
    rw [h1, h2]
    exact dirent_checksum_finalize_valid M entries
  · exact dirent_checksum_finalize_valid _ (entries + 64)

/-- C10: in every freshly created image the root inode record (the first 128 bytes of the
inode table, block 3) has the CRC32 of its first 120 bytes in the low 32 bits of
`inode_crc` and zero in the high 32 bits, and each of the two directory entries at the
start of the first data-region block has byte 63 equal to the XOR of its bytes 0..62. -/
theorem fresh_image_checksums_valid (stack : Mem) (size_kib ic t_sb t_root flags : Nat)
    (img : File) (h : builder_main stack size_kib ic t_sb t_root flags = (0, some img)) :
    sb_inode_table_start img.data = 3
    ∧ crc32 img.data (sb_inode_table_start img.data * BS) 120
        = load img.data (sb_inode_table_start img.data * BS + 120) 4
    ∧ load img.data (sb_inode_table_start img.data * BS + 124) 4 = 0
    ∧ img.data (sb_data_region_start img.data * BS + 63)
        = dirent_xor img.data (sb_data_region_start img.data * BS) 63
    ∧ img.data (sb_data_region_start img.data * BS + 64 + 63)
        = dirent_xor img.data (sb_data_region_start img.data * BS + 64) 63 := by
  obtain ⟨hv, himg⟩ := builder_main_ok _ _ _ _ _ _ _ h
  subst himg
  obtain ⟨e1, e2, e3, e4, b1, b2, b3⟩ := layout_of_valid size_kib ic hv
  obtain ⟨_, _, _, _, _, g5, _, g7, _, _⟩ :=
    builder_image_fields stack size_kib ic t_sb t_root flags hv
  have hbytes := (builder_image_bytes stack size_kib ic t_sb t_root flags).2
  have hREv := create_root_directory_entries_valid (fun _ => 0) 0
  have hvalid := inode_crc_finalize_valid
    (create_root_inode (fun _ => 0) 0 (layout_data_region_start ic) t_root) 0
  rw [g5, g7, ← e3]
  generalize inode_crc_finalize
    (create_root_inode (fun _ => 0) 0 (layout_data_region_start ic) t_root) 0 = RI
    at hbytes hvalid
  generalize create_root_directory_entries (fun _ => 0) 0 = RE at hbytes hREv
  generalize (builder_image stack size_kib ic t_sb t_root flags).data = D at hbytes ⊢
  generalize hdrs : layout_data_region_start ic = drs at *
  generalize hitb : layout_inode_table_blocks ic = itb at *
  generalize hdrb : layout_data_region_blocks size_kib ic = drb at *
  have hBS : BS = 4096 := rfl
  rw [hBS] at hbytes ⊢
  have hino : ∀ x, x < 128 → D (3 * 4096 + x) = RI x := by
    intro x hx
    have hlt : 3 * 4096 + x - 3 * 4096 < 128 := by omega
    have e : 3 * 4096 + x - 3 * 4096 = x := by omega
    rw [(hbytes (3 * 4096 + x)).2.2.2.1 (by omega) (by omega), if_pos hlt, e]
  have hdrs' : drs = 3 + itb := by omega
  have hent : ∀ x, x < 128 → D (drs * 4096 + x) = RE x := by
    intro x hx
    have hlt : drs * 4096 + x - (3 * 4096 + itb * 4096) < 128 := by omega
    have e : drs * 4096 + x - (3 * 4096 + itb * 4096) = x := by omega
    rw [(hbytes (drs * 4096 + x)).2.2.2.2 (by omega) (by omega), if_pos hlt, e]
  refine ⟨Eq.refl 3, ?_, ?_, ?_, ?_⟩
  · rw [crc32_congr D RI (3 * 4096) 0 120
      (fun i hi => by rw [Nat.zero_add]; exact hino i (by omega)), hvalid.1]
    exact (load_congr D RI (3 * 4096 + 120) (0 + 120) 4 (fun i hi => by
      rw [show 3 * 4096 + 120 + i = 3 * 4096 + (120 + i) by omega,
        show 0 + 120 + i = 120 + i by omega]
      exact hino _ (by omega))).symm
  · rw [← hvalid.2]
    exact load_congr D RI (3 * 4096 + 124) (0 + 124) 4 (fun i hi => by
      rw [show 3 * 4096 + 124 + i = 3 * 4096 + (124 + i) by omega,
        show 0 + 124 + i = 124 + i by omega]
      exact hino _ (by omega))
  · rw [hent 63 (by omega), dirent_xor_congr D RE (drs * 4096) 0 63
      (fun i hi => by rw [Nat.zero_add]; exact hent i (by omega))]
    have := hREv.1
    rw [Nat.zero_add] at this
    exact this
  · rw [show drs * 4096 + 64 + 63 = drs * 4096 + 127 by omega, hent 127 (by omega),
      dirent_xor_congr D RE (drs * 4096 + 64) (0 + 64) 63 (fun i hi => by
        rw [show drs * 4096 + 64 + i = drs * 4096 + (64 + i) by omega,
          show 0 + 64 + i = 64 + i by omega]
        exact hent _ (by omega))]
    have := hREv.2
    rw [show 0 + 64 + 63 = 127 by omega] at this
    exact this

/-- C10 on the Scenario A parameters. -/
theorem fresh_image_checksums_valid_witness :
    builder_main (fun _ => 0) 180 128 1000 1000 7 = (0, some scenario_image)
    ∧ sb_inode_table_start scenario_image.data = 3
    ∧ crc32 scenario_image.data (sb_inode_table_start scenario_image.data * BS) 120
        = load scenario_image.data (sb_inode_table_start scenario_image.data * BS + 120) 4
    ∧ load scenario_image.data (sb_inode_table_start scenario_image.data * BS + 124) 4 = 0
    ∧ scenario_image.data (sb_data_region_start scenario_image.data * BS + 63)
        = dirent_xor scenario_image.data (sb_data_region_start scenario_image.data * BS) 63
    ∧ scenario_image.data (sb_data_region_start scenario_image.data * BS + 64 + 63)
        = dirent_xor scenario_image.data (sb_data_region_start scenario_image.data * BS + 64)
            63 :=
  ⟨rfl, fresh_image_checksums_valid (fun _ => 0) 180 128 1000 1000 7 scenario_image rfl⟩

/-! ### The adder: the checksums of the output -/

theorem link_stage_shape (sb m : Mem) (fi fe : Int) (filename : List Nat) (now : Nat) :
    ∃ M : Mem, link_stage sb m fi fe filename now
      = superblock_crc_finalize
          (dirent_checksum_finalize
            (inode_crc_finalize
              (inode_crc_finalize M (sb_inode_table_start sb * BS + fi.toNat * INODE_SIZE))
              (sb_inode_table_start sb * BS))
            (sb_data_region_start sb * BS + fe.toNat * 64)) 0 :=
  ⟨_, rfl⟩

/-- An inode record that verifies keeps verifying in any memory that agrees on its 128
bytes. -/
theorem inode_valid_of_agree (m m' : Mem) (p : Nat)
    (h : ∀ a, p ≤ a → a < p + 128 → m' a = m a)
    (hv : crc32 m p 120 = load m (p + 120) 4 ∧ load m (p + 124) 4 = 0) :
    crc32 m' p 120 = load m' (p + 120) 4 ∧ load m' (p + 124) 4 = 0 := by
  have e1 : crc32 m' p 120 = crc32 m p 120 :=
    crc32_congr _ _ _ _ _ (fun i hi => h (p + i) (by omega) (by omega))
  have e2 : load m' (p + 120) 4 = load m (p + 120) 4 :=
    load_eq_of_agree _ _ _ _ (fun a h1 h2 => h a (by omega) (by omega))
  have e3 : load m' (p + 124) 4 = load m (p + 124) 4 :=
    load_eq_of_agree _ _ _ _ (fun a h1 h2 => h a (by omega) (by omega))
  rw [e1, e2, e3]
  exact hv

/-- C9: after every successful insertion into a well laid out image the integrity markers
of the output verify: the CRC32 of the first 4092 bytes of block 0 with the checksum field
zeroed is the stored superblock checksum; for the new inode and for the root inode the
CRC32 of the first 120 bytes is the low 32 bits of `inode_crc` and the high 32 bits are
zero; byte 63 of the new directory entry is the XOR of its bytes 0..62.  Nothing is assumed
about the checksums of the input image. -/
theorem adder_checksums_valid (input file : File) (filename : List Nat) (now : Nat)
    (hl : LayoutOk input) (h : (adder_main input file filename now).exit_code = 0) :
    crc32 (store (adder_main input file filename now).image_data 112 4 0) 0 (BS - 4)
      = sb_checksum (adder_main input file filename now).image_data
    ∧ (crc32 (adder_main input file filename now).image_data
          (sb_inode_table_start input.data * BS
            + (main_free_inode input).toNat * INODE_SIZE) 120
        = load (adder_main input file filename now).image_data
            (sb_inode_table_start input.data * BS
              + (main_free_inode input).toNat * INODE_SIZE + 120) 4
      ∧ load (adder_main input file filename now).image_data
            (sb_inode_table_start input.data * BS
              + (main_free_inode input).toNat * INODE_SIZE + 124) 4 = 0)
    ∧ (crc32 (adder_main input file filename now).image_data
          (sb_inode_table_start input.data * BS) 120
        = load (adder_main input file filename now).image_data
            (sb_inode_table_start input.data * BS + 120) 4
      ∧ load (adder_main input file filename now).image_data
            (sb_inode_table_start input.data * BS + 124) 4 = 0)
    ∧ (adder_main input file filename now).image_data
          (sb_data_region_start input.data * BS
            + (main_free_entry input file now).toNat * 64 + 63)
        = dirent_xor (adder_main input file filename now).image_data
            (sb_data_region_start input.data * BS
              + (main_free_entry input file now).toNat * 64) 63 := by
  obtain ⟨f, e, hf, hflt, _, _, he, helt, _, _, _, _, _⟩ :=
    main_facts input file filename now hl h
  obtain ⟨_, _, _, _, _, _, _, himg, _, _⟩ := adder_main_success input file filename now h
  obtain ⟨hic, hdrb, l1, l2, l3, l4, l5, l6⟩ := hl
  obtain ⟨_, _, _, _, e4, e5, _⟩ := main_superblock_fields input
  rw [himg, hf, he]
  simp only [Int.toNat_ofNat]
  unfold main_link
  obtain ⟨M, hM⟩ := link_stage_shape (main_superblock input) (main_entry input file now)
    (main_free_inode input) (main_free_entry input file now) filename now
  rw [hM, hf, he, e4, e5]
  simp only [Int.toNat_ofNat]
  generalize sb_inode_table_start input.data = its at *
  generalize sb_data_region_start input.data = drs at *
  generalize sb_inode_count input.data = ic at *
  simp only [BS, INODE_SIZE] at *
  have hroot : crc32 (inode_crc_finalize (inode_crc_finalize M (its * 4096 + f * 128))
        (its * 4096)) (its * 4096) 120
      = load (inode_crc_finalize (inode_crc_finalize M (its * 4096 + f * 128)) (its * 4096))
          (its * 4096 + 120) 4
      ∧ load (inode_crc_finalize (inode_crc_finalize M (its * 4096 + f * 128)) (its * 4096))
          (its * 4096 + 124) 4 = 0 := inode_crc_finalize_valid _ _
  have hrootout : crc32 (superblock_crc_finalize (dirent_checksum_finalize
        (inode_crc_finalize (inode_crc_finalize M (its * 4096 + f * 128)) (its * 4096))
        (drs * 4096 + e * 64)) 0) (its * 4096) 120
      = load (superblock_crc_finalize (dirent_checksum_finalize
          (inode_crc_finalize (inode_crc_finalize M (its * 4096 + f * 128)) (its * 4096))
          (drs * 4096 + e * 64)) 0) (its * 4096 + 120) 4
      ∧ load (superblock_crc_finalize (dirent_checksum_finalize
          (inode_crc_finalize (inode_crc_finalize M (its * 4096 + f * 128)) (its * 4096))
          (drs * 4096 + e * 64)) 0) (its * 4096 + 124) 4 = 0 := by
    apply inode_valid_of_agree _ _ _ _ hroot
    intro a h1 h2
    rw [superblock_crc_finalize_out _ _ _ (by omega),
      dirent_checksum_finalize_out _ _ _ (by omega)]
  refine ⟨?_, ?_, hrootout, ?_⟩
  · have := superblock_crc_finalize_valid (dirent_checksum_finalize
      (inode_crc_finalize (inode_crc_finalize M (its * 4096 + f * 128)) (its * 4096))
      (drs * 4096 + e * 64)) 0
    simp only [Nat.zero_add, BS] at this
    exact this
  · by_cases hf0 : f = 0
    · subst hf0
      simp only [Nat.zero_mul, Nat.add_zero] at hrootout ⊢
      exact hrootout
    · have hnew : crc32 (inode_crc_finalize M (its * 4096 + f * 128)) (its * 4096 + f * 128) 120
          = load (inode_crc_finalize M (its * 4096 + f * 128)) (its * 4096 + f * 128 + 120) 4
          ∧ load (inode_crc_finalize M (its * 4096 + f * 128)) (its * 4096 + f * 128 + 124) 4
            = 0 := inode_crc_finalize_valid _ _
      apply inode_valid_of_agree _ _ _ _ hnew
      intro a h1 h2
      rw [superblock_crc_finalize_out _ _ _ (by omega),
        dirent_checksum_finalize_out _ _ _ (by omega),
        inode_crc_finalize_out _ _ _ (by omega)]
  · rw [superblock_crc_finalize_out _ _ _ (by omega)]
    rw [dirent_xor_congr _ (dirent_checksum_finalize
      (inode_crc_finalize (inode_crc_finalize M (its * 4096 + f * 128)) (its * 4096))
      (drs * 4096 + e * 64)) (drs * 4096 + e * 64) (drs * 4096 + e * 64) 63
      (fun i hi => superblock_crc_finalize_out _ _ _ (by omega))]
    exact dirent_checksum_finalize_valid _ _

/-- C9 on Scenario B (the 10,000-byte file inserted into the Scenario A image). -/
theorem adder_checksums_valid_witness :
    LayoutOk scenario_image
    ∧ (adder_main scenario_image scenario_file [104, 105] 2000).exit_code = 0
    ∧ crc32 (store (adder_main scenario_image scenario_file [104, 105] 2000).image_data
        112 4 0) 0 (BS - 4)
      = sb_checksum (adder_main scenario_image scenario_file [104, 105] 2000).image_data :=
  ⟨by decide, by decide,
    (adder_checksums_valid scenario_image scenario_file [104, 105] 2000 (by decide)
      (by decide)).1⟩

/-! ### The adder: the new inode -/

theorem blocks_needed_eq_ceil (L : Nat) : blocks_needed_for_file L = (L + 4095) / 4096 := by
  unfold blocks_needed_for_file BS
  by_cases h : L ≤ 0
  · rw [if_pos h]; omega
  · rw [if_neg h]; omega

theorem entry_stage_inode_no (sb m : Mem) (f e : Nat) (hf : f + 1 < 2 ^ 32) :
    load (entry_stage sb m (f : Int) (e : Int)) (sb_data_region_start sb * BS + e * 64) 4
      = f + 1 := by
  unfold entry_stage
  simp only [Int.toNat_ofNat, Int.toNat_ofNat_add_one, Nat.add_zero]
  rw [load_store_other _ _ _ _ _ _ (by omega), load_store_same]
  exact Nat.mod_eq_of_lt (by simpa using hf)

theorem getD_of_lt (l : List Nat) (i : Nat) (h : i < l.length) : l.getD i 0 = l[i] := by
  rw [List.getD_eq_getElem?_getD, List.getElem?_eq_getElem h]; rfl

theorem lowest_clear_getD_lt (m : Mem) (bitmap limit n i j : Nat)
    (hj : j < (lowest_clear m bitmap limit n).length) (hij : i < j) :
    (lowest_clear m bitmap limit n).getD i 0 < (lowest_clear m bitmap limit n).getD j 0 := by
  have hs := lowest_clear_sorted m bitmap limit n
  rw [List.pairwise_iff_getElem] at hs
  rw [getD_of_lt _ i (by omega), getD_of_lt _ j hj]
  exact hs i j (by omega) hj hij

theorem lowest_clear_getD_clear (m : Mem) (bitmap limit n i : Nat)
    (hi : i < (lowest_clear m bitmap limit n).length) :
    (lowest_clear m bitmap limit n).getD i 0 < limit
    ∧ bitClear m bitmap ((lowest_clear m bitmap limit n).getD i 0) := by
  rw [getD_of_lt _ i hi]
  exact lowest_clear_mem m bitmap limit n _ (List.getElem_mem hi)

/-- In the output of a successful run the first 120 bytes of the new inode's slot are the
ones `build_inode` wrote: no later step of `main` touches them when the slot is not the
root's. -/
theorem new_inode_bytes_kept (input file : File) (filename : List Nat) (now f : Nat)
    (hl : LayoutOk input) (h : (adder_main input file filename now).exit_code = 0)
    (hf : main_free_inode input = (f : Int)) (hf0 : f ≠ 0) (a : Nat)
    (h1 : sb_inode_table_start input.data * BS + f * INODE_SIZE ≤ a)
    (h2 : a < sb_inode_table_start input.data * BS + f * INODE_SIZE + 120) :
    (adder_main input file filename now).image_data a
      = build_inode input.data (sb_inode_table_start input.data * BS + f * INODE_SIZE)
          file.size now (main_free_blocks input file) a := by
  obtain ⟨f', e, hf', hflt, hfc, hfmin, he, helt, hfb, hlclen, hfblen, hN, hs⟩ :=
    main_facts input file filename now hl h
  have hff : f' = f := by rw [hf] at hf'; exact_mod_cast hf'.symm
  subst hff
  obtain ⟨_, _, _, _, _, _, _, himg, _, _⟩ := adder_main_success input file filename now h
  have hregions := main_alloc_regions input file now f' hl hf hflt hfb hlclen hN
  obtain ⟨hic, hdrb, l1, l2, l3, l4, l5, l6⟩ := hl
  simp only [BS, INODE_SIZE] at *
  rw [himg, main_link_out input file filename now f' e a hf he hs (by omega)
    (by omega)
    (by omega)
    (by omega)
    (by omega)]
  exact (hregions a).2.2.2.1 (by omega) (by omega)

/-- In the output of a successful run the blocks given to the file hold what the block
loop wrote: the directory entry goes to data block 0, which is not one of them when the
root's block is allocated. -/
theorem adder_data_block_bytes (input file : File) (filename : List Nat) (now : Nat)
    (hl : LayoutOk input) (hr : RootAllocated input)
    (h : (adder_main input file filename now).exit_code = 0) (i x : Nat)
    (hi : i < blocks_needed_for_file file.size) (hx : x < BS) :
    (adder_main input file filename now).image_data
        (sb_data_region_start input.data * BS
          + (lowest_clear input.data (sb_data_bitmap_start input.data * BS)
              (sb_data_region_blocks input.data) (blocks_needed_for_file file.size)).getD i 0
            * BS + x)
      = if i * BS + x < file.size then file.data (i * BS + x) else 0 := by
  obtain ⟨f, e, hf, hflt, hfc, hfmin, he, helt, hfb, hlclen, hfblen, hN, hs⟩ :=
    main_facts input file filename now hl h
  obtain ⟨_, _, _, _, _, _, _, himg, _, _⟩ := adder_main_success input file filename now h
  have hregions := main_alloc_regions input file now f hl hf hflt hfb hlclen hN
  have hl' := hl
  obtain ⟨hic, hdrb, l1, l2, l3, l4, l5, l6⟩ := hl
  have hidx := main_block_index input file (sb_data_region_start input.data)
    (sb_data_region_blocks input.data) _ hfb
    (fun x hx => (lowest_clear_mem _ _ _ _ x hx).1) hdrb l6
  rw [hlclen] at hidx
  generalize hlc : lowest_clear input.data (sb_data_bitmap_start input.data * BS)
    (sb_data_region_blocks input.data) (blocks_needed_for_file file.size) = lc at *
  have hLpos : 0 < file.size := by
    by_contra hL0
    have : file.size = 0 := by omega
    rw [this] at hi
    simp [blocks_needed_for_file] at hi
  obtain ⟨hL1, hL2⟩ := blocks_needed_bounds file.size
  obtain ⟨hL3, hL4⟩ := hL2 hLpos
  -- block 0 of the data region is allocated, so none of the blocks found is block 0
  have hne0 : lc.getD i 0 ≠ 0 := by
    intro h0
    have hc := (lowest_clear_getD_clear input.data (sb_data_bitmap_start input.data * BS)
      (sb_data_region_blocks input.data) (blocks_needed_for_file file.size) i
      (by rw [hlc, hlclen]; exact hi)).2
    rw [hlc, h0] at hc
    exact hr.2 hc
  have hdist : ∀ j, j < blocks_needed_for_file file.size → j ≠ i →
      lc.getD j 0 ≠ lc.getD i 0 := by
    intro j hj hji
    rcases Nat.lt_or_gt_of_ne hji with hlt | hgt
    · have := lowest_clear_getD_lt input.data (sb_data_bitmap_start input.data * BS)
        (sb_data_region_blocks input.data) (blocks_needed_for_file file.size) j i
        (by rw [hlc, hlclen]; exact hi) hlt
      rw [hlc] at this
      omega
    · have := lowest_clear_getD_lt input.data (sb_data_bitmap_start input.data * BS)
        (sb_data_region_blocks input.data) (blocks_needed_for_file file.size) i j
        (by rw [hlc, hlclen]; exact hj) hgt
      rw [hlc] at this
      omega
  have hwrite := write_blocks_in input.data (sb_data_region_start input.data * BS)
    (sb_data_region_start input.data) (main_free_blocks input file) file
    (fun j => lc.getD j 0) (by rw [hfblen]; exact hL1) (by rw [hfblen]; exact hL3) i x hx
    (blocks_needed_for_file file.size) (by rw [hfblen]) hi
    (fun j hj => (hidx j hj).2.2.1) hdist
  rw [← hwrite]
  have hlt := (hidx i hi).2.1
  simp only [BS, INODE_SIZE] at *
  rw [himg, main_link_out input file filename now f e _ hf he hs
    (by omega)
    (by omega)
    (by omega)
    (by omega)
    (by omega)]
  exact (hregions _).2.2.2.2 (by omega)

/-- C6: after every successful insertion of a file of length `L`, with
`N = ceil(L / 4096)`, into a well laid out image whose root is allocated: the new inode is
in inode-table slot `f`, the lowest clear bit of the inode bitmap below `inode_count`; the
new directory entry carries inode number `f + 1`; the record has mode `MODE_FILE`, links 1,
uid = gid = 0, `size_bytes = L`, `direct[i] = data_region_start +` the `i`-th of the `N`
lowest clear bits of the data bitmap below `data_region_blocks` (strictly ascending) for
`i < N`, and `direct[i] = 0` for `N ≤ i < 12`. -/
theorem adder_new_inode (input file : File) (filename : List Nat) (now : Nat)
    (hl : LayoutOk input) (hr : RootAllocated input)
    (h : (adder_main input file filename now).exit_code = 0) :
    ∃ f : Nat,
      main_free_inode input = (f : Int)
      ∧ f < sb_inode_count input.data
      ∧ bitClear input.data (sb_inode_bitmap_start input.data * BS) f
      ∧ (∀ j, j < f → ¬ bitClear input.data (sb_inode_bitmap_start input.data * BS) j)
      ∧ load (adder_main input file filename now).image_data
          (sb_data_region_start input.data * BS + (main_free_entry input file now).toNat * 64) 4
          = f + 1
      ∧ load (adder_main input file filename now).image_data
          (sb_inode_table_start input.data * BS + f * INODE_SIZE + 0) 2 = MODE_FILE
      ∧ load (adder_main input file filename now).image_data
          (sb_inode_table_start input.data * BS + f * INODE_SIZE + 2) 2 = 1
      ∧ load (adder_main input file filename now).image_data
          (sb_inode_table_start input.data * BS + f * INODE_SIZE + 4) 4 = 0
      ∧ load (adder_main input file filename now).image_data
          (sb_inode_table_start input.data * BS + f * INODE_SIZE + 8) 4 = 0
      ∧ load (adder_main input file filename now).image_data
          (sb_inode_table_start input.data * BS + f * INODE_SIZE + 12) 8 = file.size
      ∧ blocks_needed_for_file file.size = (file.size + 4095) / 4096
      ∧ (lowest_clear input.data (sb_data_bitmap_start input.data * BS)
          (sb_data_region_blocks input.data) (blocks_needed_for_file file.size)).length
          = blocks_needed_for_file file.size
      ∧ (lowest_clear input.data (sb_data_bitmap_start input.data * BS)
          (sb_data_region_blocks input.data) (blocks_needed_for_file file.size)).Pairwise
          (· < ·)
      ∧ (∀ i, i < blocks_needed_for_file file.size →
          load (adder_main input file filename now).image_data
            (sb_inode_table_start input.data * BS + f * INODE_SIZE + 44 + 4 * i) 4
          = sb_data_region_start input.data
            + (lowest_clear input.data (sb_data_bitmap_start input.data * BS)
                (sb_data_region_blocks input.data)
                (blocks_needed_for_file file.size)).getD i 0)
      ∧ (∀ i, blocks_needed_for_file file.size ≤ i → i < 12 →
          load (adder_main input file filename now).image_data
            (sb_inode_table_start input.data * BS + f * INODE_SIZE + 44 + 4 * i) 4 = 0) := by
  obtain ⟨f, e, hf, hflt, hfc, hfmin, he, helt, hfb, hlclen, hfblen, hN, hs⟩ :=
    main_facts input file filename now hl h
  obtain ⟨_, _, _, _, _, _, _, himg, _, _⟩ := adder_main_success input file filename now h
  have hregions := main_alloc_regions input file now f hl hf hflt hfb hlclen hN
  have hf0 : f ≠ 0 := by
    intro h0; subst h0; exact hr.1 hfc
  have hl' := hl
  obtain ⟨hic, hdrb, l1, l2, l3, l4, l5, l6⟩ := hl
  have hidx := main_block_index input file (sb_data_region_start input.data)
    (sb_data_region_blocks input.data) _ hfb
    (fun x hx => (lowest_clear_mem _ _ _ _ x hx).1) hdrb l6
  rw [hlclen] at hidx
  obtain ⟨_, _, _, _, _, e5, _⟩ := main_superblock_fields input
  have hLb := (blocks_needed_bounds file.size).1
  obtain ⟨b0, b1, b2, b3, b4, b5, b6⟩ := build_inode_fields input.data
    (sb_inode_table_start input.data * BS + f * INODE_SIZE) file.size now
    (main_free_blocks input file) (by omega)
  rw [hfblen] at b5 b6
  have hrec := new_inode_bytes_kept input file filename now f hl' h hf hf0
  have hload : ∀ p w, sb_inode_table_start input.data * BS + f * INODE_SIZE ≤ p →
      p + w ≤ sb_inode_table_start input.data * BS + f * INODE_SIZE + 120 →
      load (adder_main input file filename now).image_data p w
        = load (build_inode input.data (sb_inode_table_start input.data * BS + f * INODE_SIZE)
            file.size now (main_free_blocks input file)) p w :=
    fun p w h1 h2 => load_eq_of_agree _ _ _ _ (fun a h3 h4 => hrec a (by omega) (by omega))
  refine ⟨f, hf, hflt, hfc, hfmin, ?_, ?_, ?_, ?_, ?_, ?_, blocks_needed_eq_ceil _, hlclen,
    lowest_clear_sorted _ _ _ _, ?_, ?_⟩
  · rw [he, Int.toNat_ofNat, himg]
    have hagree : load (main_link input file filename now)
        (sb_data_region_start input.data * BS + e * 64) 4
        = load (main_entry input file now) (sb_data_region_start input.data * BS + e * 64) 4 := by
      apply load_eq_of_agree
      intro a h1 h2
      unfold main_link
      rw [hf, he]
      simp only [BS, INODE_SIZE] at *
      obtain ⟨_, _, _, _, e4', e5', _⟩ := main_superblock_fields input
      exact link_stage_out _ _ _ _ _ _ _ hs (by omega)
        (by rw [e5']; simp only [BS]; omega)
        (by rw [e4']; simp only [BS]; omega)
        (by rw [e4']; simp only [BS]; omega)
        (by rw [e4']; simp only [BS, INODE_SIZE]; omega)
    rw [hagree]
    unfold main_entry
    rw [hf, he, ← e5]
    exact entry_stage_inode_no _ _ f e (by unfold BS at hic; omega)
  · rw [hload _ _ (by omega) (by omega)]; exact b0
  · rw [hload _ _ (by omega) (by omega)]; exact b1
  · rw [hload _ _ (by omega) (by omega)]; exact b2
  · rw [hload _ _ (by omega) (by omega)]; exact b3
  · rw [hload _ _ (by omega) (by omega), b4]
    unfold BS at hLb
    exact Nat.mod_eq_of_lt (by omega)
  · intro i hi
    rw [hload _ _ (by omega) (by omega), b5 i hi, (hidx i hi).2.2.2.2]
    have := (hidx i hi).2.1
    exact Nat.mod_eq_of_lt (by omega)
  · intro i hi1 hi2
    rw [hload _ _ (by omega) (by omega)]
    exact b6 i hi1 hi2

/-- C6 on Scenario B: the 10,000-byte file inserted into the fresh 180 KiB / 128-inode
image gets inode number 2 (slot 1), `size_bytes = 10000` and
`direct = [8, 9, 10, 0, ..., 0]`. -/
theorem adder_new_inode_witness :
    LayoutOk scenario_image ∧ RootAllocated scenario_image
    ∧ (adder_main scenario_image scenario_file [104, 105] 2000).exit_code = 0
    ∧ (∃ f : Nat, main_free_inode scenario_image = (f : Int)
        ∧ load (adder_main scenario_image scenario_file [104, 105] 2000).image_data
            (sb_inode_table_start scenario_image.data * BS + f * INODE_SIZE + 12) 8
          = scenario_file.size)
    ∧ main_free_inode scenario_image = 1
    ∧ load (adder_main scenario_image scenario_file [104, 105] 2000).image_data
        (sb_data_region_start scenario_image.data * BS
          + (main_free_entry scenario_image scenario_file 2000).toNat * 64) 4 = 2
    ∧ load (adder_main scenario_image scenario_file [104, 105] 2000).image_data
        (sb_inode_table_start scenario_image.data * BS + 1 * INODE_SIZE + 12) 8 = 10000
    ∧ (List.range 12).map (fun i =>
        load (adder_main scenario_image scenario_file [104, 105] 2000).image_data
          (sb_inode_table_start scenario_image.data * BS + 1 * INODE_SIZE + 44 + 4 * i) 4)
        = [8, 9, 10, 0, 0, 0, 0, 0, 0, 0, 0, 0] :=
  ⟨by decide, by decide, by decide,
    (match adder_new_inode scenario_image scenario_file [104, 105] 2000 (by decide) (by decide)
        (by decide) with
      | ⟨f, hf, _, _, _, _, _, _, _, _, hsz, _⟩ => ⟨f, hf, hsz⟩),
    by decide, by decide, by decide, by decide⟩

/-! ### The adder: the file contents -/

/-- C7: after every successful insertion of a file with contents `F` of length `L` into a
well laid out image whose root is allocated, the direct pointers `direct[0 .. N)` of the
new inode are non-zero and `direct[N .. 12)` are zero, and the blocks they name, read in
order from the output and concatenated, hold `F` followed only by zero bytes up to
`N * 4096`, the next multiple of 4096; `size_bytes` is `L` whatever the padding. -/
theorem adder_file_contents (input file : File) (filename : List Nat) (now : Nat)
    (hl : LayoutOk input) (hr : RootAllocated input)
    (h : (adder_main input file filename now).exit_code = 0) :
    ∃ f : Nat,
      main_free_inode input = (f : Int)
      ∧ load (adder_main input file filename now).image_data
          (sb_inode_table_start input.data * BS + f * INODE_SIZE + 12) 8 = file.size
      ∧ (∀ i, i < blocks_needed_for_file file.size →
          load (adder_main input file filename now).image_data
            (sb_inode_table_start input.data * BS + f * INODE_SIZE + 44 + 4 * i) 4 ≠ 0)
      ∧ (∀ i, blocks_needed_for_file file.size ≤ i → i < 12 →
          load (adder_main input file filename now).image_data
            (sb_inode_table_start input.data * BS + f * INODE_SIZE + 44 + 4 * i) 4 = 0)
      ∧ file.size ≤ blocks_needed_for_file file.size * BS
      ∧ blocks_needed_for_file file.size * BS < file.size + BS
      ∧ (∀ k, k < blocks_needed_for_file file.size * BS →
          (adder_main input file filename now).image_data
            (load (adder_main input file filename now).image_data
                (sb_inode_table_start input.data * BS + f * INODE_SIZE + 44 + 4 * (k / BS)) 4
              * BS + k % BS)
          = if k < file.size then file.data k else 0) := by
  obtain ⟨f, e, hf, hflt, hfc, hfmin, he, helt, hfb, hlclen, hfblen, hN, hs⟩ :=
    main_facts input file filename now hl h
  have hf0 : f ≠ 0 := by
    intro h0; subst h0; exact hr.1 hfc
  have hrec := new_inode_bytes_kept input file filename now f hl h hf hf0
  have hblock := adder_data_block_bytes input file filename now hl hr h
  obtain ⟨hic, hdrb, l1, l2, l3, l4, l5, l6⟩ := hl
  have hidx := main_block_index input file (sb_data_region_start input.data)
    (sb_data_region_blocks input.data) _ hfb
    (fun x hx => (lowest_clear_mem _ _ _ _ x hx).1) hdrb l6
  rw [hlclen] at hidx
  obtain ⟨_, _, _, _, b4, b5, b6⟩ := build_inode_fields input.data
    (sb_inode_table_start input.data * BS + f * INODE_SIZE) file.size now
    (main_free_blocks input file) (by omega)
  rw [hfblen] at b5 b6
  have hload : ∀ p w, sb_inode_table_start input.data * BS + f * INODE_SIZE ≤ p →
      p + w ≤ sb_inode_table_start input.data * BS + f * INODE_SIZE + 120 →
      load (adder_main input file filename now).image_data p w
        = load (build_inode input.data (sb_inode_table_start input.data * BS + f * INODE_SIZE)
            file.size now (main_free_blocks input file)) p w :=
    fun p w h1 h2 => load_eq_of_agree _ _ _ _ (fun a h3 h4 => hrec a (by omega) (by omega))
  have hdirect : ∀ i, i < blocks_needed_for_file file.size →
      load (adder_main input file filename now).image_data
        (sb_inode_table_start input.data * BS + f * INODE_SIZE + 44 + 4 * i) 4
      = sb_data_region_start input.data
        + (lowest_clear input.data (sb_data_bitmap_start input.data * BS)
            (sb_data_region_blocks input.data) (blocks_needed_for_file file.size)).getD i 0 := by
    intro i hi
    rw [hload _ _ (by omega) (by omega), b5 i hi, (hidx i hi).2.2.2.2]
    have := (hidx i hi).2.1
    exact Nat.mod_eq_of_lt (by omega)
  obtain ⟨hL1, hL2⟩ := blocks_needed_bounds file.size
  have hBS : BS = 4096 := rfl
  refine ⟨f, hf, ?_, ?_, ?_, hL1, ?_, ?_⟩
  · rw [hload _ _ (by omega) (by omega), b4]
    rw [hBS] at hL1
    exact Nat.mod_eq_of_lt (by omega)
  · intro i hi
    rw [hdirect i hi]
    have : 1 ≤ sb_data_region_start input.data := by
      simp only [BS, INODE_SIZE] at l4; omega
    omega
  · intro i hi1 hi2
    rw [hload _ _ (by omega) (by omega)]
    exact b6 i hi1 hi2
  · by_cases hL0 : 0 < file.size
    · have := (hL2 hL0).1
      have h1 := (hL2 hL0).2
      rw [hBS] at this ⊢
      omega
    · have : file.size = 0 := by omega
      rw [this]
      decide
  · intro k hk
    have hi : k / BS < blocks_needed_for_file file.size := by
      rw [hBS] at hk ⊢
      omega
    have hx : k % BS < BS := Nat.mod_lt _ (by decide)
    rw [hdirect _ hi]
    have hb := hblock (k / BS) (k % BS) hi hx
    have e1 : k / BS * BS + k % BS = k := by rw [hBS]; omega
    rw [e1] at hb
    rw [Nat.add_mul]
    exact hb

/-- C7 on Scenario B: the three blocks of the 10,000-byte file. -/
theorem adder_file_contents_witness :
    LayoutOk scenario_image ∧ RootAllocated scenario_image
    ∧ (adder_main scenario_image scenario_file [104, 105] 2000).exit_code = 0
    ∧ (∃ f : Nat, main_free_inode scenario_image = (f : Int)
        ∧ ∀ k, k < blocks_needed_for_file scenario_file.size * BS →
          (adder_main scenario_image scenario_file [104, 105] 2000).image_data
            (load (adder_main scenario_image scenario_file [104, 105] 2000).image_data
                (sb_inode_table_start scenario_image.data * BS + f * INODE_SIZE
                  + 44 + 4 * (k / BS)) 4 * BS + k % BS)
          = if k < scenario_file.size then scenario_file.data k else 0)
    ∧ blocks_needed_for_file scenario_file.size = 3
    ∧ (adder_main scenario_image scenario_file [104, 105] 2000).image_data
        (10 * 4096 + 1807) = scenario_file.data 9999
    ∧ (adder_main scenario_image scenario_file [104, 105] 2000).image_data
        (10 * 4096 + 1808) = 0 :=
  ⟨by decide, by decide, by decide,
    (match adder_file_contents scenario_image scenario_file [104, 105] 2000 (by decide)
        (by decide) (by decide) with
      | ⟨f, hf, _, _, _, _, _, hk⟩ => ⟨f, hf, hk⟩),
    by decide, by decide, by decide⟩

/-! ### Bitmap popcounts -/

theorem countP_range_flip (p q : Nat → Bool) (k : Nat) (hp : p k = false) (hq : q k = true)
    (hother : ∀ j, j ≠ k → q j = p j) :
    ∀ n, (List.range n).countP q = (List.range n).countP p + if k < n then 1 else 0 := by
  intro n
  induction n with
  | zero => simp
  | succ n ih =>
    rw [List.range_succ, List.countP_append, List.countP_append, ih]
    simp only [List.countP_cons, List.countP_nil, Nat.zero_add]
    by_cases hkn : k = n
    · subst hkn
      simp [hp, hq]
    · rw [hother n (fun h => hkn h.symm)]
      by_cases hlt : k < n
      · have : k < n + 1 := by omega
        simp only [hlt, this, if_true]
        omega
      · have : ¬ k < n + 1 := by omega
        simp only [hlt, this, if_false]
        omega

theorem popcount_congr (m m' : Mem) (bitmap : Nat)
    (h : ∀ a, bitmap ≤ a → a < bitmap + BS → m a = m' a) :
    popcount m bitmap = popcount m' bitmap := by
  unfold popcount
  apply List.countP_congr
  intro k hk
  have hk' : k < 8 * BS := List.mem_range.1 hk
  have e : m (bitmap + k / 8) = m' (bitmap + k / 8) :=
    h _ (by omega) (by unfold BS at hk' ⊢; omega)
  simp only [bitClear, e]

/-- Setting a clear bit of the bitmap block raises its popcount by one. -/
theorem popcount_set_bit (m : Mem) (bitmap k : Nat) (hk : k < 8 * BS)
    (hc : bitClear m bitmap k) :
    popcount (set_bit m bitmap (k : Int)) bitmap = popcount m bitmap + 1 := by
  unfold popcount
  rw [countP_range_flip (fun j => decide (¬ bitClear m bitmap j))
    (fun j => decide (¬ bitClear (set_bit m bitmap (k : Int)) bitmap j)) k
    (by simpa using hc)
    (by
      have := (bitClear_set_bit m bitmap k k).not
      simp only [ne_eq, not_true_eq_false, false_and, not_false_eq_true, iff_true] at this
      simpa using this)
    (fun j hj => by
      have := bitClear_set_bit m bitmap k j
      simp only [ne_eq, hj, not_false_eq_true, true_and] at this
      simp only [this]) (8 * BS), if_pos hk]

/-- Marking `n` distinct clear bits raises the popcount by `n`. -/
theorem popcount_mark_blocks (m : Mem) (dbm drs : Nat) (fb : List Nat) (idx : Nat → Nat) :
    ∀ n, (∀ j, j < n → toInt32 (block_index (fb.getD j 0) drs) = ((idx j : Nat) : Int)) →
      (∀ j, j < n → idx j < 8 * BS ∧ bitClear m dbm (idx j)) →
      (∀ i j, i < n → j < n → i ≠ j → idx i ≠ idx j) →
      popcount (mark_blocks m dbm drs fb n) dbm = popcount m dbm + n := by
  intro n
  induction n with
  | zero => intro _ _ _; simp only [mark_blocks, Nat.add_zero]
  | succ n ih =>
    intro hfb hcl hinj
    have ih' := ih (fun j hj => hfb j (by omega)) (fun j hj => hcl j (by omega))
      (fun i j hi hj => hinj i j (by omega) (by omega))
    simp only [mark_blocks, hfb n (by omega)]
    rw [popcount_set_bit _ _ _ (hcl n (by omega)).1, ih']
    · omega
    · rw [bitClear_mark_blocks m dbm drs fb idx (idx n) n (fun j hj => hfb j (by omega))]
      exact ⟨fun j hj => (hinj j n (by omega) (by omega) (by omega)).symm,
        (hcl n (by omega)).2⟩

/-- In the output of a successful run the superblock bytes before the checksum and the two
bitmap blocks are, respectively, unchanged, the input with the inode bit set, and the input
with the block bits set. -/
theorem adder_low_bytes (input file : File) (filename : List Nat) (now f : Nat)
    (hl : LayoutOk input) (h : (adder_main input file filename now).exit_code = 0)
    (hf : main_free_inode input = (f : Int)) (a : Nat) :
    (a < 112 → (adder_main input file filename now).image_data a = input.data a)
    ∧ (sb_inode_bitmap_start input.data * BS ≤ a →
        a < sb_inode_bitmap_start input.data * BS + BS →
        (adder_main input file filename now).image_data a
          = set_bit input.data (sb_inode_bitmap_start input.data * BS) (f : Int) a)
    ∧ (sb_data_bitmap_start input.data * BS ≤ a →
        a < sb_data_bitmap_start input.data * BS + BS →
        (adder_main input file filename now).image_data a
          = mark_blocks input.data (sb_data_bitmap_start input.data * BS)
              (sb_data_region_start input.data) (main_free_blocks input file)
              (blocks_needed_for_file file.size) a) := by
  obtain ⟨f', e, hf', hflt, hfc, hfmin, he, helt, hfb, hlclen, hfblen, hN, hs⟩ :=
    main_facts input file filename now hl h
  have hff : f' = f := by rw [hf] at hf'; exact_mod_cast hf'.symm
  subst hff
  obtain ⟨_, _, _, _, _, _, _, himg, _, _⟩ := adder_main_success input file filename now h
  have hregions := main_alloc_regions input file now f' hl hf hflt hfb hlclen hN a
  obtain ⟨hic, hdrb, l1, l2, l3, l4, l5, l6⟩ := hl
  simp only [BS, INODE_SIZE] at *
  refine ⟨?_, ?_, ?_⟩
  · intro ha
    rw [himg, main_link_out input file filename now f' e a hf he hs (by omega)
      (by omega)
      (by omega)
      (by omega)
      (by omega)]
    exact hregions.1 (by omega)
  · intro ha1 ha2
    rw [himg, main_link_out input file filename now f' e a hf he hs (by omega)
      (by omega)
      (by omega)
      (by omega)
      (by omega)]
    exact hregions.2.1 (by omega) (by omega)
  · intro ha1 ha2
    rw [himg, main_link_out input file filename now f' e a hf he hs (by omega)
      (by omega)
      (by omega)
      (by omega)
      (by omega)]
    exact hregions.2.2.1 (by omega) (by omega)

/-- A successful insertion leaves the layout fields of the superblock and the file length
as they were. -/
theorem adder_keeps_layout (input file : File) (filename : List Nat) (now : Nat)
    (hl : LayoutOk input) (h : (adder_main input file filename now).exit_code = 0) :
    sb_inode_count (adder_main input file filename now).image_data = sb_inode_count input.data
    ∧ sb_inode_bitmap_start (adder_main input file filename now).image_data
        = sb_inode_bitmap_start input.data
    ∧ sb_data_bitmap_start (adder_main input file filename now).image_data
        = sb_data_bitmap_start input.data
    ∧ sb_inode_table_start (adder_main input file filename now).image_data
        = sb_inode_table_start input.data
    ∧ sb_data_region_start (adder_main input file filename now).image_data
        = sb_data_region_start input.data
    ∧ sb_data_region_blocks (adder_main input file filename now).image_data
        = sb_data_region_blocks input.data
    ∧ LayoutOk ⟨input.size, (adder_main input file filename now).image_data⟩ := by
  obtain ⟨f, e, hf, _⟩ := main_facts input file filename now hl h
  have hlow : ∀ p w, p + w ≤ 112 →
      load (adder_main input file filename now).image_data p w = load input.data p w :=
    fun p w hpw => load_eq_of_agree _ _ _ _ (fun a h1 h2 =>
      (adder_low_bytes input file filename now f hl h hf a).1 (by omega))
  have e1 : sb_inode_count (adder_main input file filename now).image_data
      = sb_inode_count input.data := hlow 20 8 (by omega)
  have e2 : sb_inode_bitmap_start (adder_main input file filename now).image_data
      = sb_inode_bitmap_start input.data := hlow 28 8 (by omega)
  have e3 : sb_data_bitmap_start (adder_main input file filename now).image_data
      = sb_data_bitmap_start input.data := hlow 44 8 (by omega)
  have e4 : sb_inode_table_start (adder_main input file filename now).image_data
      = sb_inode_table_start input.data := hlow 60 8 (by omega)
  have e5 : sb_data_region_start (adder_main input file filename now).image_data
      = sb_data_region_start input.data := hlow 76 8 (by omega)
  have e6 : sb_data_region_blocks (adder_main input file filename now).image_data
      = sb_data_region_blocks input.data := hlow 84 8 (by omega)
  refine ⟨e1, e2, e3, e4, e5, e6, ?_⟩
  unfold LayoutOk
  simp only [e1, e2, e3, e4, e5, e6]
  exact hl

/-- One successful insertion: the inode popcount grows by 1, the data popcount by the number
of blocks the file needs. -/
theorem adder_popcount_step (input file : File) (filename : List Nat) (now : Nat)
    (hl : LayoutOk input) (h : (adder_main input file filename now).exit_code = 0) :
    popcount (adder_main input file filename now).image_data
        (sb_inode_bitmap_start input.data * BS)
      = popcount input.data (sb_inode_bitmap_start input.data * BS) + 1
    ∧ popcount (adder_main input file filename now).image_data
        (sb_data_bitmap_start input.data * BS)
      = popcount input.data (sb_data_bitmap_start input.data * BS)
        + blocks_needed_for_file file.size := by
  obtain ⟨f, e, hf, hflt, hfc, hfmin, he, helt, hfb, hlclen, hfblen, hN, hs⟩ :=
    main_facts input file filename now hl h
  have hlow := adder_low_bytes input file filename now f hl h hf
  obtain ⟨hic, hdrb, l1, l2, l3, l4, l5, l6⟩ := hl
  have hidx := main_block_index input file (sb_data_region_start input.data)
    (sb_data_region_blocks input.data) _ hfb
    (fun x hx => (lowest_clear_mem _ _ _ _ x hx).1) hdrb l6
  rw [hlclen] at hidx
  constructor
  · rw [popcount_congr _ _ _ (fun a h1 h2 => (hlow a).2.1 h1 h2)]
    exact popcount_set_bit _ _ _ (by omega) hfc
  · rw [popcount_congr _ _ _ (fun a h1 h2 => (hlow a).2.2 h1 h2)]
    apply popcount_mark_blocks input.data _ _ _
      (fun j => (lowest_clear input.data (sb_data_bitmap_start input.data * BS)
        (sb_data_region_blocks input.data) (blocks_needed_for_file file.size)).getD j 0)
    · exact fun j hj => (hidx j hj).2.2.2.1
    · intro j hj
      have := lowest_clear_getD_clear input.data (sb_data_bitmap_start input.data * BS)
        (sb_data_region_blocks input.data) (blocks_needed_for_file file.size) j
        (by rw [hlclen]; exact hj)
      exact ⟨by omega, this.2⟩
    · intro i j hi hj hij
      rcases Nat.lt_or_gt_of_ne hij with hlt | hgt
      · have := lowest_clear_getD_lt input.data (sb_data_bitmap_start input.data * BS)
          (sb_data_region_blocks input.data) (blocks_needed_for_file file.size) i j
          (by rw [hlclen]; exact hj) hlt
        omega
      · have := lowest_clear_getD_lt input.data (sb_data_bitmap_start input.data * BS)
          (sb_data_region_blocks input.data) (blocks_needed_for_file file.size) j i
          (by rw [hlclen]; exact hi) hgt
        omega

theorem one_and_shift (i : Nat) (hi : i < 8) : (1 &&& (1 <<< i) = 0) ↔ i ≠ 0 := by
  interval_cases i <;> decide

/-- A bitmap block whose first byte is 1 and whose other bytes are 0 has popcount 1. -/
theorem popcount_first_bit (m : Mem) (bitmap : Nat)
    (h : ∀ x, x < BS → m (bitmap + x) = if x = 0 then 1 else 0) : popcount m bitmap = 1 := by
  unfold popcount
  have hcl : ∀ k, k < 8 * BS → (bitClear m bitmap k ↔ k ≠ 0) := by
    intro k hk
    unfold bitClear
    rw [h (k / 8) (by unfold BS at hk ⊢; omega)]
    by_cases hk8 : k / 8 = 0
    · rw [if_pos hk8, one_and_shift _ (Nat.mod_lt _ (by decide))]
      omega
    · rw [if_neg hk8]
      simp only [Nat.zero_and, true_iff]
      omega
  have e : (List.range (8 * BS)).countP (fun k => decide (¬ bitClear m bitmap k))
      = (List.range (8 * BS)).countP (fun k => decide (k = 0)) := by
    apply List.countP_congr
    intro k hk
    have := hcl k (List.mem_range.1 hk)
    simp only [decide_eq_true_eq, this, ne_eq, not_not]
  rw [e, countP_range_flip (fun _ => false) (fun k => decide (k = 0)) 0 rfl (by simp)
    (fun j hj => by simp [hj]) (8 * BS), if_pos (by decide)]
  simp

/-- A freshly built image is well laid out and its root is allocated. -/
theorem builder_image_layout (stack : Mem) (size_kib ic t_sb t_root flags : Nat)
    (h : 180 ≤ size_kib ∧ size_kib ≤ 4096 ∧ size_kib % 4 = 0 ∧ 128 ≤ ic ∧ ic ≤ 512) :
    LayoutOk (builder_image stack size_kib ic t_sb t_root flags) := by
  obtain ⟨_, _, g2, g3, g4, g5, _, g7, g8, g9⟩ :=
    builder_image_fields stack size_kib ic t_sb t_root flags h
  unfold LayoutOk
  rw [g2, g3, g4, g5, g7, g8, g9]
  unfold BS INODE_SIZE
  obtain ⟨h1, h2, h3, h4, h5⟩ := h
  refine ⟨by omega, by omega, by omega, by omega, by omega, by omega, by omega, by omega⟩

/-- The two bitmaps of a freshly built image have popcount 1. -/
theorem builder_image_popcount (stack : Mem) (size_kib ic t_sb t_root flags : Nat)
    (h : 180 ≤ size_kib ∧ size_kib ≤ 4096 ∧ size_kib % 4 = 0 ∧ 128 ≤ ic ∧ ic ≤ 512) :
    popcount (builder_image stack size_kib ic t_sb t_root flags).data
        (sb_inode_bitmap_start (builder_image stack size_kib ic t_sb t_root flags).data * BS) = 1
    ∧ popcount (builder_image stack size_kib ic t_sb t_root flags).data
        (sb_data_bitmap_start (builder_image stack size_kib ic t_sb t_root flags).data * BS)
        = 1 := by
  obtain ⟨_, _, _, g3, g4, _⟩ := builder_image_fields stack size_kib ic t_sb t_root flags h
  have hbytes := (builder_image_bytes stack size_kib ic t_sb t_root flags).2
  rw [g3, g4]
  have hBS : BS = 4096 := rfl
  constructor
  · apply popcount_first_bit
    intro x hx
    rw [hBS] at hx hbytes ⊢
    rw [(hbytes (1 * 4096 + x)).2.1 (by omega) (by omega)]
    by_cases h0 : x = 0
    · rw [if_pos h0, if_pos (by omega)]
    · rw [if_neg h0, if_neg (by omega)]
  · apply popcount_first_bit
    intro x hx
    rw [hBS] at hx hbytes ⊢
    rw [(hbytes (2 * 4096 + x)).2.2.1 (by omega) (by omega)]
    by_cases h0 : x = 0
    · rw [if_pos h0, if_pos (by omega)]
    · rw [if_neg h0, if_neg (by omega)]

/-- A run of successful insertions on a well laid out image: the layout is kept, the inode
popcount grows by the number of insertions and the data popcount by the blocks needed. -/
theorem insert_all_popcount :
    ∀ (reqs : List (File × List Nat × Nat)) (img out : File), LayoutOk img →
      insert_all img reqs = some out →
      LayoutOk out
      ∧ sb_inode_bitmap_start out.data = sb_inode_bitmap_start img.data
      ∧ sb_data_bitmap_start out.data = sb_data_bitmap_start img.data
      ∧ popcount out.data (sb_inode_bitmap_start img.data * BS)
          = popcount img.data (sb_inode_bitmap_start img.data * BS) + reqs.length
      ∧ popcount out.data (sb_data_bitmap_start img.data * BS)
          = popcount img.data (sb_data_bitmap_start img.data * BS)
            + (reqs.map (fun r => blocks_needed_for_file r.1.size)).sum := by
  intro reqs
  induction reqs with
  | nil =>
    intro img out hl h
    simp only [insert_all, Option.some.injEq] at h
    subst h
    exact ⟨hl, rfl, rfl, by simp, by simp⟩
  | cons r rest ih =>
    intro img out hl h
    obtain ⟨file, filename, now⟩ := r
    simp only [insert_all] at h
    by_cases hx : (adder_main img file filename now).exit_code = 0
    · obtain ⟨_, _, _, _, _, _, _, himg, _, hout⟩ := adder_main_success img file filename now hx
      obtain ⟨_, k2, k3, _, _, _, hl'⟩ := adder_keeps_layout img file filename now hl hx
      obtain ⟨p1, p2⟩ := adder_popcount_step img file filename now hl hx
      rw [hout] at h
      simp only at h
      rw [← himg] at h
      obtain ⟨q1, q2, q3, q4, q5⟩ := ih _ out hl' h
      simp only at q2 q3 q4 q5
      rw [k2] at q2 q4
      rw [k3] at q3 q5
      refine ⟨q1, q2, q3, ?_, ?_⟩
      · rw [q4, p1, List.length_cons]; omega
      · rw [q5, p2, List.map_cons, List.sum_cons]; dsimp only; omega
    · have := (adder_main_failure img file filename now hx).2
      rw [this] at h
      simp at h

theorem builder_image_root (stack : Mem) (size_kib ic t_sb t_root flags : Nat)
    (h : 180 ≤ size_kib ∧ size_kib ≤ 4096 ∧ size_kib % 4 = 0 ∧ 128 ≤ ic ∧ ic ≤ 512) :
    RootAllocated (builder_image stack size_kib ic t_sb t_root flags) := by
  obtain ⟨_, _, _, g3, g4, _⟩ := builder_image_fields stack size_kib ic t_sb t_root flags h
  have hbytes := (builder_image_bytes stack size_kib ic t_sb t_root flags).2
  unfold RootAllocated bitClear
  rw [g3, g4]
  have hBS : BS = 4096 := rfl
  rw [hBS] at hbytes ⊢
  rw [(hbytes (1 * 4096 + 0 / 8)).2.1 (by omega) (by omega),
    (hbytes (2 * 4096 + 0 / 8)).2.2.1 (by omega) (by omega)]
  decide

/-- A successful insertion keeps the root's inode bit and block bit set. -/
theorem adder_keeps_root (input file : File) (filename : List Nat) (now : Nat)
    (hl : LayoutOk input) (hr : RootAllocated input)
    (h : (adder_main input file filename now).exit_code = 0) :
    RootAllocated ⟨input.size, (adder_main input file filename now).image_data⟩ := by
  obtain ⟨f, e, hf, hflt, hfc, hfmin, he, helt, hfb, hlclen, hfblen, hN, hs⟩ :=
    main_facts input file filename now hl h
  obtain ⟨_, k2, k3, _, _, _, _⟩ := adder_keeps_layout input file filename now hl h
  have hlow := adder_low_bytes input file filename now f hl h hf
  have hidx := main_block_index input file (sb_data_region_start input.data)
    (sb_data_region_blocks input.data) _ hfb
    (fun x hx => (lowest_clear_mem _ _ _ _ x hx).1) hl.2.1 hl.2.2.2.2.2.2.2
  rw [hlclen] at hidx
  have hBS : BS = 4096 := rfl
  unfold RootAllocated
  simp only [k2, k3]
  constructor
  · intro hc
    have e1 : bitClear (set_bit input.data (sb_inode_bitmap_start input.data * BS) (f : Int))
        (sb_inode_bitmap_start input.data * BS) 0 := by
      unfold bitClear at hc ⊢
      rw [← (hlow _).2.1 (by omega) (by rw [hBS]; omega)]
      exact hc
    exact hr.1 ((bitClear_set_bit _ _ _ _).1 e1).2
  · intro hc
    have e1 : bitClear (mark_blocks input.data (sb_data_bitmap_start input.data * BS)
        (sb_data_region_start input.data) (main_free_blocks input file)
        (blocks_needed_for_file file.size)) (sb_data_bitmap_start input.data * BS) 0 := by
      unfold bitClear at hc ⊢
      rw [← (hlow _).2.2 (by omega) (by rw [hBS]; omega)]
      exact hc
    exact hr.2 ((bitClear_mark_blocks _ _ _ _ _ _ _ (fun j hj => (hidx j hj).2.2.2.1)).1 e1).2

/-- Every image the two tools produce (a fresh image, then any run of successful
insertions) is well laid out and has its root allocated. -/
theorem produced_image_ok (stack : Mem) (size_kib ic t_sb t_root flags : Nat) (img0 : File)
    (h0 : builder_main stack size_kib ic t_sb t_root flags = (0, some img0)) :
    ∀ (reqs : List (File × List Nat × Nat)) (img : File), insert_all img0 reqs = some img →
      LayoutOk img ∧ RootAllocated img := by
  obtain ⟨hv, himg⟩ := builder_main_ok _ _ _ _ _ _ _ h0
  subst himg
  have key : ∀ (reqs : List (File × List Nat × Nat)) (a b : File),
      LayoutOk a → RootAllocated a → insert_all a reqs = some b →
      LayoutOk b ∧ RootAllocated b := by
    intro reqs
    induction reqs with
    | nil =>
      intro a b hl hr h
      simp only [insert_all, Option.some.injEq] at h
      subst h
      exact ⟨hl, hr⟩
    | cons r rest ih =>
      intro a b hl hr h
      obtain ⟨file, filename, now⟩ := r
      simp only [insert_all] at h
      by_cases hx : (adder_main a file filename now).exit_code = 0
      · obtain ⟨_, _, _, _, _, _, _, himg, _, hout⟩ :=
          adder_main_success a file filename now hx
        have hl' := (adder_keeps_layout a file filename now hl hx).2.2.2.2.2.2
        have hr' := adder_keeps_root a file filename now hl hr hx
        rw [hout] at h
        simp only at h
        rw [← himg] at h
        exact ih _ b hl' hr' h
      · have := (adder_main_failure a file filename now hx).2
        rw [this] at h
        simp at h
  intro reqs img h
  exact key reqs _ img (builder_image_layout stack size_kib ic t_sb t_root flags hv)
    (builder_image_root stack size_kib ic t_sb t_root flags hv) h

/-- C8: a freshly created image has inode-bitmap popcount 1 and data-bitmap popcount 1;
every successful insertion of a file needing `N = ceil(L / 4096)` blocks into a well laid
out image raises the inode popcount by exactly 1 and the data popcount by exactly `N`; so
after any run of successful insertions into a fresh image the inode popcount is 1 + the
number of insertions and the data popcount is 1 + the sum of the `N` of the files. -/
theorem popcount_after_insertions (stack : Mem) (size_kib ic t_sb t_root flags : Nat)
    (img out : File) (reqs : List (File × List Nat × Nat))
    (h0 : builder_main stack size_kib ic t_sb t_root flags = (0, some img))
    (h1 : insert_all img reqs = some out) :
    popcount img.data (sb_inode_bitmap_start img.data * BS) = 1
    ∧ popcount img.data (sb_data_bitmap_start img.data * BS) = 1
    ∧ popcount out.data (sb_inode_bitmap_start out.data * BS) = 1 + reqs.length
    ∧ popcount out.data (sb_data_bitmap_start out.data * BS)
        = 1 + (reqs.map (fun r => blocks_needed_for_file r.1.size)).sum
    ∧ (∀ (input file : File) (filename : List Nat) (now : Nat), LayoutOk input →
        (adder_main input file filename now).exit_code = 0 →
        popcount (adder_main input file filename now).image_data
            (sb_inode_bitmap_start input.data * BS)
          = popcount input.data (sb_inode_bitmap_start input.data * BS) + 1
        ∧ popcount (adder_main input file filename now).image_data
            (sb_data_bitmap_start input.data * BS)
          = popcount input.data (sb_data_bitmap_start input.data * BS)
            + (file.size + 4095) / 4096) := by
  obtain ⟨hv, himg⟩ := builder_main_ok _ _ _ _ _ _ _ h0
  subst himg
  have hl := builder_image_layout stack size_kib ic t_sb t_root flags hv
  obtain ⟨c1, c2⟩ := builder_image_popcount stack size_kib ic t_sb t_root flags hv
  obtain ⟨_, q2, q3, q4, q5⟩ := insert_all_popcount reqs _ out hl h1
  refine ⟨c1, c2, ?_, ?_, ?_⟩
  · rw [q2, q4, c1, Nat.add_comm]
  · rw [q3, q5, c2, Nat.add_comm]
  · intro input file filename now hli hx
    rw [← blocks_needed_eq_ceil]
    exact adder_popcount_step input file filename now hli hx

/-- C8 on Scenarios A and B: one insertion of the 10,000-byte file into the fresh image. -/
theorem popcount_after_insertions_witness :
    builder_main (fun _ => 0) 180 128 1000 1000 7 = (0, some scenario_image)
    ∧ insert_all scenario_image [(scenario_file, [104, 105], 2000)]
        = some ⟨scenario_image.size, main_link scenario_image scenario_file [104, 105] 2000⟩
    ∧ popcount (main_link scenario_image scenario_file [104, 105] 2000)
        (sb_inode_bitmap_start (main_link scenario_image scenario_file [104, 105] 2000) * BS)
        = 1 + 1
    ∧ popcount (main_link scenario_image scenario_file [104, 105] 2000)
        (sb_data_bitmap_start (main_link scenario_image scenario_file [104, 105] 2000) * BS)
        = 1 + 3 :=
  ⟨rfl, rfl,
    (popcount_after_insertions (fun _ => 0) 180 128 1000 1000 7 scenario_image
      ⟨scenario_image.size, main_link scenario_image scenario_file [104, 105] 2000⟩
      [(scenario_file, [104, 105], 2000)] rfl rfl).2.2.1,
    (popcount_after_insertions (fun _ => 0) 180 128 1000 1000 7 scenario_image
      ⟨scenario_image.size, main_link scenario_image scenario_file [104, 105] 2000⟩
      [(scenario_file, [104, 105], 2000)] rfl rfl).2.2.2.1⟩

/-! ### The layout a fresh image records -/

theorem create_superblock_bitmap_blocks (m : Mem) (sb size_kib ic now flags : Nat) :
    load (create_superblock m sb size_kib ic now flags) (sb + 36) 8 = 1
    ∧ load (create_superblock m sb size_kib ic now flags) (sb + 52) 8 = 1 := by
  unfold create_superblock
  refine ⟨?_, ?_⟩ <;>
    simp (disch := omega) only [load_store_other, load_store_same] <;> rfl

/-- On validated parameters the builder exits with status 0 and writes `builder_image`. -/
theorem builder_main_of_valid (stack : Mem) (size_kib ic t_sb t_root flags : Nat)
    (h : 180 ≤ size_kib ∧ size_kib ≤ 4096 ∧ size_kib % 4 = 0 ∧ 128 ≤ ic ∧ ic ≤ 512) :
    builder_main stack size_kib ic t_sb t_root flags
      = (0, some (builder_image stack size_kib ic t_sb t_root flags)) := by
  have hp : parse_args_ok size_kib ic = true := (parse_args_ok_iff size_kib ic).2 h
  have hd := (layout_of_valid size_kib ic h).2.2.2.2.2.2
  unfold builder_main
  rw [if_neg (by rw [hp]; decide), if_neg (by omega)]

/-- C11: for every `size_kib` in 180..4096 that is a multiple of 4 and every inode count in
128..512 the builder writes an image whose superblock records
`total_blocks = size_kib * 1024 / 4096`, the inode bitmap at block 1 (1 block), the data
bitmap at block 2 (1 block), `inode_table_start = 3`,
`inode_table_blocks = ceil(inode_count * 128 / 4096)`,
`data_region_start = 3 + inode_table_blocks` and
`data_region_blocks = total_blocks - data_region_start` (at least 1), so that
`1 + 1 + 1 + inode_table_blocks + data_region_blocks = total_blocks`. -/
theorem builder_layout_tiles (stack : Mem) (size_kib ic t_sb t_root flags : Nat)
    (h1 : 180 ≤ size_kib) (h2 : size_kib ≤ 4096) (h3 : size_kib % 4 = 0)
    (h4 : 128 ≤ ic) (h5 : ic ≤ 512) :
    ∃ img : File, builder_main stack size_kib ic t_sb t_root flags = (0, some img)
      ∧ sb_total_blocks img.data = size_kib * 1024 / 4096
      ∧ sb_inode_bitmap_start img.data = 1 ∧ sb_inode_bitmap_blocks img.data = 1
      ∧ sb_data_bitmap_start img.data = 2 ∧ sb_data_bitmap_blocks img.data = 1
      ∧ sb_inode_table_start img.data = 3
      ∧ ic * 128 ≤ sb_inode_table_blocks img.data * 4096
      ∧ sb_inode_table_blocks img.data * 4096 < ic * 128 + 4096
      ∧ sb_data_region_start img.data = 3 + sb_inode_table_blocks img.data
      ∧ sb_data_region_blocks img.data
          = sb_total_blocks img.data - sb_data_region_start img.data
      ∧ 1 ≤ sb_data_region_blocks img.data
      ∧ 1 + 1 + 1 + sb_inode_table_blocks img.data + sb_data_region_blocks img.data
          = sb_total_blocks img.data := by
  have hv : 180 ≤ size_kib ∧ size_kib ≤ 4096 ∧ size_kib % 4 = 0 ∧ 128 ≤ ic ∧ ic ≤ 512 :=
    ⟨h1, h2, h3, h4, h5⟩
  refine ⟨builder_image stack size_kib ic t_sb t_root flags,
    builder_main_of_valid stack size_kib ic t_sb t_root flags hv, ?_⟩
  obtain ⟨_, g1, _, g3, g4, g5, g6, g7, g8, _⟩ :=
    builder_image_fields stack size_kib ic t_sb t_root flags hv
  obtain ⟨b1, b2⟩ := create_superblock_bitmap_blocks stack 0 size_kib ic t_sb flags
  have k1 : sb_inode_bitmap_blocks (builder_image stack size_kib ic t_sb t_root flags).data
      = 1 := by
    unfold sb_inode_bitmap_blocks
    rw [builder_image_superblock_load _ _ _ _ _ _ _ _ (by omega : 36 + 8 ≤ 112)]
    exact b1
  have k2 : sb_data_bitmap_blocks (builder_image stack size_kib ic t_sb t_root flags).data
      = 1 := by
    unfold sb_data_bitmap_blocks
    rw [builder_image_superblock_load _ _ _ _ _ _ _ _ (by omega : 52 + 8 ≤ 112)]
    exact b2
  rw [g1, g3, g4, g5, g6, g7, g8, k1, k2]
  refine ⟨by omega, rfl, rfl, rfl, rfl, rfl, by omega, by omega, rfl, rfl, by omega, by omega⟩

/-- C11 on Scenario A: 180 KiB and 128 inodes give 45 blocks, 4 inode-table blocks, the
data region at block 7 with 38 blocks. -/
theorem builder_layout_tiles_witness :
    ∃ img : File, builder_main (fun _ => 0) 180 128 1000 1000 7 = (0, some img)
      ∧ sb_total_blocks img.data = 45
      ∧ sb_inode_bitmap_start img.data = 1 ∧ sb_inode_bitmap_blocks img.data = 1
      ∧ sb_data_bitmap_start img.data = 2 ∧ sb_data_bitmap_blocks img.data = 1
      ∧ sb_inode_table_start img.data = 3
      ∧ sb_inode_table_blocks img.data = 4
      ∧ sb_data_region_start img.data = 7
      ∧ sb_data_region_blocks img.data = 38 :=
  match builder_layout_tiles (fun _ => 0) 180 128 1000 1000 7 (by decide) (by decide)
    (by decide) (by decide) (by decide) with
  | ⟨img, hm, a1, a2, a3, a4, a5, a6, a7, a8, a9, a10, a11, a12⟩ =>
    ⟨img, hm, a1, a2, a3, a4, a5, a6, by omega, by omega, by omega⟩

/-! ### The root directory of a fresh image -/

/-- The fields of the record `create_root_inode` leaves. -/
theorem create_root_inode_fields (m : Mem) (r db now : Nat) :
    load (create_root_inode m r db now) (r + 0) 2 = MODE_DIR
    ∧ load (create_root_inode m r db now) (r + 2) 2 = 2
    ∧ load (create_root_inode m r db now) (r + 4) 4 = 0
    ∧ load (create_root_inode m r db now) (r + 8) 4 = 0
    ∧ load (create_root_inode m r db now) (r + 12) 8 = 128
    ∧ load (create_root_inode m r db now) (r + 20) 8 = now % 2 ^ 64
    ∧ load (create_root_inode m r db now) (r + 28) 8 = now % 2 ^ 64
    ∧ load (create_root_inode m r db now) (r + 36) 8 = now % 2 ^ 64
    ∧ load (create_root_inode m r db now) (r + 44) 4 = db % 2 ^ 32
    ∧ (∀ i, 1 ≤ i → i < 12 → load (create_root_inode m r db now) (r + 44 + 4 * i) 4 = 0) := by
  unfold create_root_inode
  refine ⟨?_, ?_, ?_, ?_, ?_, ?_, ?_, ?_, ?_, ?_⟩
  · simp (disch := omega) only [load_store_other, load_clear_direct_other, load_store_same]
    rfl
  · simp (disch := omega) only [load_store_other, load_clear_direct_other, load_store_same]
    rfl
  · simp (disch := omega) only [load_store_other, load_clear_direct_other, load_store_same]
    rfl
  · simp (disch := omega) only [load_store_other, load_clear_direct_other, load_store_same]
    rfl
  · simp (disch := omega) only [load_store_other, load_clear_direct_other, load_store_same]
    rfl
  · simp (disch := omega) only [load_store_other, load_clear_direct_other, load_store_same]
    norm_num
  · simp (disch := omega) only [load_store_other, load_clear_direct_other, load_store_same]
    norm_num
  · simp (disch := omega) only [load_store_other, load_clear_direct_other, load_store_same]
    norm_num
  · have e : r + 44 = r + 44 + 4 * 0 := by omega
    simp (disch := omega) only [load_store_other, load_clear_direct_other, load_store_same]
    norm_num
  · intro i hi1 hi2
    simp (disch := omega) only [load_store_other]
    exact load_clear_direct _ _ _ _ _ hi1 (by omega)

/-- The bytes of a directory entry after it is cleared, given its inode number and type,
and named with `strcpy`. -/
theorem dirent_fill_bytes (m : Mem) (e ino ty : Nat) (name : List Nat) (hs : strlen name < 58) :
    load (strcpy (store (store (memset m e 0 64) (e + 0) 4 ino) (e + 4) 1 ty) (e + 5) name)
        e 4 = ino % 2 ^ 32
    ∧ strcpy (store (store (memset m e 0 64) (e + 0) 4 ino) (e + 4) 1 ty) (e + 5) name (e + 4)
        = ty % 256
    ∧ ∀ i, i < 58 →
        strcpy (store (store (memset m e 0 64) (e + 0) 4 ino) (e + 4) 1 ty) (e + 5) name
            (e + 5 + i)
          = if i < strlen name then name.getD i 0 % 256 else 0 := by
  refine ⟨?_, ?_, ?_⟩
  · rw [load_eq_of_agree _ (store (store (memset m e 0 64) (e + 0) 4 ino) (e + 4) 1 ty) e 4
      (fun a h1 h2 => strcpy_out _ _ _ _ (by omega)),
      load_store_other _ _ _ _ _ _ (by omega)]
    have := load_store_same (memset m e 0 64) (e + 0) 4 ino
    rw [Nat.add_zero] at this
    rw [Nat.add_zero, this]
    norm_num
  · rw [strcpy_out _ _ _ _ (by omega), store_in _ _ _ _ _ (by omega) (by omega)]
    simp
  · intro i hi
    unfold strcpy
    by_cases h1 : i < strlen name
    · rw [if_pos ⟨by omega, by omega⟩, if_pos h1]
      have e1 : e + 5 + i - (e + 5) = i := by omega
      rw [e1]
    · rw [if_neg (by omega), if_neg h1]
      by_cases h2 : i = strlen name
      · rw [if_pos (by omega)]
      · rw [if_neg (by omega), store_out _ _ _ _ _ (by omega), store_out _ _ _ _ _ (by omega),
          memset_in _ _ _ _ _ (by omega) (by omega)]

/-- The two entries `create_root_directory_entries` writes, field by field. -/
theorem create_root_directory_entries_bytes (m : Mem) (e : Nat) :
    load (create_root_directory_entries m e) e 4 = 1
    ∧ create_root_directory_entries m e (e + 4) = 2
    ∧ create_root_directory_entries m e (e + 5) = 46
    ∧ (∀ i, 1 ≤ i → i < 58 → create_root_directory_entries m e (e + 5 + i) = 0)
    ∧ load (create_root_directory_entries m e) (e + 64) 4 = 1
    ∧ create_root_directory_entries m e (e + 64 + 4) = 2
    ∧ create_root_directory_entries m e (e + 64 + 5) = 46
    ∧ create_root_directory_entries m e (e + 64 + 5 + 1) = 46
    ∧ (∀ i, 2 ≤ i → i < 58 → create_root_directory_entries m e (e + 64 + 5 + i) = 0) := by
  have s1 : strlen [46] = 1 := rfl
  have s2 : strlen [46, 46] = 2 := rfl
  obtain ⟨a1, a2, a3⟩ := dirent_fill_bytes m e ROOT_INO FILE_TYPE_DIR [46] (by rw [s1]; omega)
  obtain ⟨b1, b2, b3⟩ := dirent_fill_bytes
    (strcpy (store (store (memset m e 0 64) (e + 0) 4 ROOT_INO) (e + 4) 1 FILE_TYPE_DIR)
      (e + 5) [46]) (e + 64) ROOT_INO FILE_TYPE_DIR [46, 46] (by rw [s2]; omega)
  -- below `e + 63` the second entry and the two checksums leave the first entry alone
  have hfirst : ∀ a, a < e + 63 → create_root_directory_entries m e a
      = strcpy (store (store (memset m e 0 64) (e + 0) 4 ROOT_INO) (e + 4) 1 FILE_TYPE_DIR)
          (e + 5) [46] a := by
    intro a ha
    simp only [create_root_directory_entries]
    rw [dirent_checksum_finalize_out _ _ _ (by omega),
      dirent_checksum_finalize_out _ _ _ (by omega),
      strcpy_out _ _ _ _ (by omega), store_out _ _ _ _ _ (by omega),
      store_out _ _ _ _ _ (by omega), memset_out _ _ _ _ _ (by omega)]
  have hsecond : ∀ a, a ≠ e + 63 → a ≠ e + 64 + 63 → create_root_directory_entries m e a
      = strcpy (store (store (memset
          (strcpy (store (store (memset m e 0 64) (e + 0) 4 ROOT_INO) (e + 4) 1 FILE_TYPE_DIR)
            (e + 5) [46]) (e + 64) 0 64) (e + 64 + 0) 4 ROOT_INO) (e + 64 + 4) 1 FILE_TYPE_DIR)
          (e + 64 + 5) [46, 46] a := by
    intro a ha1 ha2
    simp only [create_root_directory_entries]
    rw [dirent_checksum_finalize_out _ _ _ (by omega),
      dirent_checksum_finalize_out _ _ _ (by omega)]
  refine ⟨?_, ?_, ?_, ?_, ?_, ?_, ?_, ?_, ?_⟩
  · rw [load_eq_of_agree _ _ e 4 (fun a h1 h2 => hfirst a (by omega)), a1]; rfl
  · rw [hfirst _ (by omega), a2]; rfl
  · exact (hfirst (e + 5) (by omega)).trans ((a3 0 (by omega)).trans (by rw [s1]; rfl))
  · intro i hi1 hi2
    rw [hfirst _ (by omega), a3 i hi2, s1, if_neg (by omega)]
  · rw [load_eq_of_agree _ _ (e + 64) 4 (fun a h1 h2 => hsecond a (by omega) (by omega)), b1]
    rfl
  · rw [hsecond _ (by omega) (by omega), b2]; rfl
  · exact (hsecond (e + 64 + 5) (by omega) (by omega)).trans
      ((b3 0 (by omega)).trans (by rw [s2]; rfl))
  · rw [hsecond _ (by omega) (by omega), b3 1 (by omega), s2]; rfl
  · intro i hi1 hi2
    rw [hsecond _ (by omega) (by omega), b3 i hi2, s2, if_neg (by omega)]

/-- The root inode record and the first data-region block of a fresh image, byte by byte. -/
theorem builder_image_root_bytes (stack : Mem) (size_kib ic t_sb t_root flags : Nat)
    (h : 180 ≤ size_kib ∧ size_kib ≤ 4096 ∧ size_kib % 4 = 0 ∧ 128 ≤ ic ∧ ic ≤ 512) :
    (∀ x, x < 128 → (builder_image stack size_kib ic t_sb t_root flags).data (3 * 4096 + x)
      = inode_crc_finalize
          (create_root_inode (fun _ => 0) 0 (3 + (ic * 128 + 4095) / 4096) t_root) 0 x)
    ∧ (∀ x, x < 4096 → (builder_image stack size_kib ic t_sb t_root flags).data
        ((3 + (ic * 128 + 4095) / 4096) * 4096 + x)
      = if x < 128 then create_root_directory_entries (fun _ => 0) 0 x else 0) := by
  obtain ⟨e1, e2, e3, e4, b1, b2, b3⟩ := layout_of_valid size_kib ic h
  have hbytes := (builder_image_bytes stack size_kib ic t_sb t_root flags).2
  rw [e3] at hbytes
  generalize inode_crc_finalize
    (create_root_inode (fun _ => 0) 0 (3 + (ic * 128 + 4095) / 4096) t_root) 0 = RI
    at hbytes ⊢
  generalize create_root_directory_entries (fun _ => 0) 0 = RE at hbytes ⊢
  generalize (builder_image stack size_kib ic t_sb t_root flags).data = D at hbytes ⊢
  rw [e2] at b1 b2 hbytes
  generalize (ic * 128 + 4095) / 4096 = itb at *
  generalize hdrb : layout_data_region_blocks size_kib ic = drb at *
  have hBS : BS = 4096 := rfl
  rw [hBS] at hbytes
  constructor
  · intro x hx
    have hlt : 3 * 4096 + x - 3 * 4096 < 128 := by omega
    have e : 3 * 4096 + x - 3 * 4096 = x := by omega
    rw [(hbytes (3 * 4096 + x)).2.2.2.1 (by omega) (by omega), if_pos hlt, e]
  · intro x hx
    have e : (3 + itb) * 4096 + x - (3 * 4096 + itb * 4096) = x := by omega
    rw [(hbytes ((3 + itb) * 4096 + x)).2.2.2.2 (by omega) (by omega), e]

/-- The occupied slots of a block whose entries from `n` on are free and whose first `n`
entries are in use, for `n` up to 64. -/
theorem occupied_slots_prefix (m : Mem) (root n : Nat) (hn : n ≤ 64)
    (h1 : ∀ s, s < n → load m (root + s * 64) 4 ≠ 0)
    (h2 : ∀ s, n ≤ s → s < 64 → load m (root + s * 64) 4 = 0) :
    occupied_slots m root = n := by
  unfold occupied_slots
  have key : ∀ k, k ≤ 64 →
      (List.range k).countP (fun i => decide (load m (root + i * 64) 4 ≠ 0)) = min k n := by
    intro k
    induction k with
    | zero => intro _; simp
    | succ k ih =>
      intro hk
      rw [List.range_succ, List.countP_append, ih (by omega)]
      by_cases hkn : k < n
      · have := h1 k hkn
        simp [this]
        omega
      · have := h2 k (by omega) (by omega)
        simp [this]
        omega
  rw [key 64 (le_refl _)]
  omega

/-- The root inode and the root directory block of the image written on validated
parameters, field by field. -/
theorem builder_image_root_facts (stack : Mem) (size_kib ic t_sb t_root flags : Nat)
    (img : File)
    (hv : 180 ≤ size_kib ∧ size_kib ≤ 4096 ∧ size_kib % 4 = 0 ∧ 128 ≤ ic ∧ ic ≤ 512)
    (himg : img = builder_image stack size_kib ic t_sb t_root flags) :
    load img.data (sb_inode_table_start img.data * BS + 0) 2 = MODE_DIR
    ∧ load img.data (sb_inode_table_start img.data * BS + 2) 2 = 2
    ∧ load img.data (sb_inode_table_start img.data * BS + 12) 8 = 128
    ∧ load img.data (sb_inode_table_start img.data * BS + 20) 8 = t_root % 2 ^ 64
    ∧ load img.data (sb_inode_table_start img.data * BS + 28) 8 = t_root % 2 ^ 64
    ∧ load img.data (sb_inode_table_start img.data * BS + 36) 8 = t_root % 2 ^ 64
    ∧ load img.data (sb_inode_table_start img.data * BS + 44) 4 = sb_data_region_start img.data
    ∧ (∀ i, 1 ≤ i → i < 12 →
        load img.data (sb_inode_table_start img.data * BS + 44 + 4 * i) 4 = 0)
    ∧ load img.data (sb_data_region_start img.data * BS) 4 = 1
    ∧ img.data (sb_data_region_start img.data * BS + 4) = FILE_TYPE_DIR
    ∧ img.data (sb_data_region_start img.data * BS + 5) = 46
    ∧ (∀ i, 1 ≤ i → i < 58 → img.data (sb_data_region_start img.data * BS + 5 + i) = 0)
    ∧ load img.data (sb_data_region_start img.data * BS + 64) 4 = 1
    ∧ img.data (sb_data_region_start img.data * BS + 64 + 4) = FILE_TYPE_DIR
    ∧ img.data (sb_data_region_start img.data * BS + 64 + 5) = 46
    ∧ img.data (sb_data_region_start img.data * BS + 64 + 5 + 1) = 46
    ∧ (∀ i, 2 ≤ i → i < 58 → img.data (sb_data_region_start img.data * BS + 64 + 5 + i) = 0)
    ∧ (∀ s, 2 ≤ s → s < 64 → load img.data (sb_data_region_start img.data * BS + s * 64) 4 = 0)
    ∧ occupied_slots img.data (sb_data_region_start img.data * BS) = 2 := by
  subst himg
  obtain ⟨_, _, _, _, _, g5, _, g7, _, _⟩ :=
    builder_image_fields stack size_kib ic t_sb t_root flags hv
  obtain ⟨hino, hent⟩ := builder_image_root_bytes stack size_kib ic t_sb t_root flags hv
  obtain ⟨r0, r1, _, _, r4, r5, r6, r7, r8, r9⟩ :=
    create_root_inode_fields (fun _ => 0) 0 (3 + (ic * 128 + 4095) / 4096) t_root
  obtain ⟨d1, d2, d3, d4, d5, d6, d7, d8, d9⟩ :=
    create_root_directory_entries_bytes (fun _ => 0) 0
  have hitb : (ic * 128 + 4095) / 4096 ≤ 16 := by omega
  rw [g5, g7]
  generalize (builder_image stack size_kib ic t_sb t_root flags).data = D at hino hent ⊢
  generalize hdrs : 3 + (ic * 128 + 4095) / 4096 = drs at *
  have hBS : BS = 4096 := rfl
  rw [hBS]
  have hload : ∀ off w, off + w ≤ 120 → load D (3 * 4096 + off) w
      = load (create_root_inode (fun _ => 0) 0 drs t_root) (0 + off) w := by
    intro off w hw
    rw [load_congr D (inode_crc_finalize (create_root_inode (fun _ => 0) 0 drs t_root) 0)
      (3 * 4096 + off) (0 + off) w (fun i hi => by
        rw [show 3 * 4096 + off + i = 3 * 4096 + (off + i) by omega,
          show 0 + off + i = off + i by omega]
        exact hino _ (by omega))]
    exact load_eq_of_agree _ _ _ _ (fun a h1 h2 => inode_crc_finalize_out _ _ _ (by omega))
  have hbyte : ∀ x, x < 128 → D (drs * 4096 + x)
      = create_root_directory_entries (fun _ => 0) 0 (0 + x) := by
    intro x hx
    rw [hent x (by omega), if_pos hx, Nat.zero_add]
  have hslot : ∀ s, 2 ≤ s → s < 64 → load D (drs * 4096 + s * 64) 4 = 0 := by
    intro s hs1 hs2
    rw [load_congr D (fun _ => 0) (drs * 4096 + s * 64) 0 4 (fun i hi => by
      rw [show drs * 4096 + s * 64 + i = drs * 4096 + (s * 64 + i) by omega,
        hent _ (by omega), if_neg (by omega)])]
    rfl
  have hfirst : load D (drs * 4096) 4 = 1 := by
    rw [load_congr D (create_root_directory_entries (fun _ => 0) 0) (drs * 4096) 0 4
      (fun i hi => by rw [hbyte i (by omega)])]
    exact d1
  have hsecond : load D (drs * 4096 + 64) 4 = 1 := by
    rw [load_congr D (create_root_directory_entries (fun _ => 0) 0) (drs * 4096 + 64) (0 + 64) 4
      (fun i hi => by
        rw [show drs * 4096 + 64 + i = drs * 4096 + (64 + i) by omega, hbyte _ (by omega)]
        rw [show 0 + (64 + i) = 0 + 64 + i by omega])]
    exact d5
  refine ⟨?_, ?_, ?_, ?_, ?_, ?_, ?_, ?_, hfirst, ?_, ?_, ?_, hsecond, ?_, ?_, ?_, ?_, hslot, ?_⟩
  · rw [hload 0 2 (by omega)]; exact r0
  · rw [hload 2 2 (by omega)]; exact r1
  · rw [hload 12 8 (by omega)]; exact r4
  · rw [hload 20 8 (by omega)]; exact r5
  · rw [hload 28 8 (by omega)]; exact r6
  · rw [hload 36 8 (by omega)]; exact r7
  · rw [hload 44 4 (by omega), r8]; exact Nat.mod_eq_of_lt (by omega)
  · intro i hi1 hi2
    rw [show 3 * 4096 + 44 + 4 * i = 3 * 4096 + (44 + 4 * i) by omega,
      hload (44 + 4 * i) 4 (by omega),
      show 0 + (44 + 4 * i) = 0 + 44 + 4 * i by omega]
    exact r9 i hi1 hi2
  · rw [hbyte 4 (by omega)]; exact d2
  · rw [hbyte 5 (by omega)]; exact d3
  · intro i hi1 hi2
    rw [show drs * 4096 + 5 + i = drs * 4096 + (5 + i) by omega, hbyte _ (by omega),
      show 0 + (5 + i) = 0 + 5 + i by omega]
    exact d4 i hi1 hi2
  · rw [show drs * 4096 + 64 + 4 = drs * 4096 + 68 by omega, hbyte 68 (by omega)]; exact d6
  · rw [show drs * 4096 + 64 + 5 = drs * 4096 + 69 by omega, hbyte 69 (by omega)]; exact d7
  · rw [show drs * 4096 + 64 + 5 + 1 = drs * 4096 + 70 by omega, hbyte 70 (by omega)]; exact d8
  · intro i hi1 hi2
    rw [show drs * 4096 + 64 + 5 + i = drs * 4096 + (64 + 5 + i) by omega, hbyte _ (by omega),
      show 0 + (64 + 5 + i) = 0 + 64 + 5 + i by omega]
    exact d9 i hi1 hi2
  · apply occupied_slots_prefix D (drs * 4096) 2 (by omega)
    · intro s hs
      have hs' : s = 0 ∨ s = 1 := by omega
      rcases hs' with rfl | rfl
      · rw [show drs * 4096 + 0 * 64 = drs * 4096 by omega, hfirst]; omega
      · rw [show drs * 4096 + 1 * 64 = drs * 4096 + 64 by omega, hsecond]; omega
    · exact hslot

/-- C12: in every freshly created image the root inode (first record of the inode table)
has mode = directory (0040000), links = 2, size_bytes = 128, atime = mtime = ctime (the
creation time), direct[0] = data_region_start and direct[1..12) all zero; the first
data-region block starts with the entry "." and the entry "..", each with inode_no = 1,
type = directory and a name NUL-padded to 58 bytes, and the other 62 slots of the block
have inode_no = 0, so exactly two slots are occupied. -/
theorem fresh_root_directory (stack : Mem) (size_kib ic t_sb t_root flags : Nat)
    (img : File) (h : builder_main stack size_kib ic t_sb t_root flags = (0, some img)) :
    load img.data (sb_inode_table_start img.data * BS + 0) 2 = MODE_DIR
    ∧ load img.data (sb_inode_table_start img.data * BS + 2) 2 = 2
    ∧ load img.data (sb_inode_table_start img.data * BS + 12) 8 = 128
    ∧ load img.data (sb_inode_table_start img.data * BS + 20) 8 = t_root % 2 ^ 64
    ∧ load img.data (sb_inode_table_start img.data * BS + 28) 8 = t_root % 2 ^ 64
    ∧ load img.data (sb_inode_table_start img.data * BS + 36) 8 = t_root % 2 ^ 64
    ∧ load img.data (sb_inode_table_start img.data * BS + 44) 4 = sb_data_region_start img.data
    ∧ (∀ i, 1 ≤ i → i < 12 →
        load img.data (sb_inode_table_start img.data * BS + 44 + 4 * i) 4 = 0)
    ∧ load img.data (sb_data_region_start img.data * BS) 4 = 1
    ∧ img.data (sb_data_region_start img.data * BS + 4) = FILE_TYPE_DIR
    ∧ img.data (sb_data_region_start img.data * BS + 5) = 46
    ∧ (∀ i, 1 ≤ i → i < 58 → img.data (sb_data_region_start img.data * BS + 5 + i) = 0)
    ∧ load img.data (sb_data_region_start img.data * BS + 64) 4 = 1
    ∧ img.data (sb_data_region_start img.data * BS + 64 + 4) = FILE_TYPE_DIR
    ∧ img.data (sb_data_region_start img.data * BS + 64 + 5) = 46
    ∧ img.data (sb_data_region_start img.data * BS + 64 + 5 + 1) = 46
    ∧ (∀ i, 2 ≤ i → i < 58 → img.data (sb_data_region_start img.data * BS + 64 + 5 + i) = 0)
    ∧ (∀ s, 2 ≤ s → s < 64 → load img.data (sb_data_region_start img.data * BS + s * 64) 4 = 0)
    ∧ occupied_slots img.data (sb_data_region_start img.data * BS) = 2 := by
  obtain ⟨hv, himg⟩ := builder_main_ok _ _ _ _ _ _ _ h
  exact builder_image_root_facts stack size_kib ic t_sb t_root flags img hv himg

/-- C12 on Scenario A: the root inode's direct[0] is block 7. -/
theorem fresh_root_directory_witness :
    builder_main (fun _ => 0) 180 128 1000 1000 7 = (0, some scenario_image)
    ∧ load scenario_image.data (sb_inode_table_start scenario_image.data * BS + 44) 4 = 7
    ∧ load scenario_image.data (sb_inode_table_start scenario_image.data * BS + 0) 2 = MODE_DIR
    ∧ load scenario_image.data (sb_inode_table_start scenario_image.data * BS + 2) 2 = 2
    ∧ load scenario_image.data (sb_inode_table_start scenario_image.data * BS + 12) 8 = 128
    ∧ occupied_slots scenario_image.data (sb_data_region_start scenario_image.data * BS) = 2 :=
  have hw := fresh_root_directory (fun _ => 0) 180 128 1000 1000 7 scenario_image rfl
  ⟨rfl, hw.2.2.2.2.2.2.1.trans
      (builder_image_fields (fun _ => 0) 180 128 1000 1000 7 (by decide)).2.2.2.2.2.2.2.1,
    hw.1, hw.2.1, hw.2.2.1, hw.2.2.2.2.2.2.2.2.2.2.2.2.2.2.2.2.2.2⟩

/-! ### The adder: the state at the root directory scan -/

/-- What the two allocation checks rest on, on a well laid out image: the inode index `f`
and the free blocks as the lowest clear bits. -/
theorem alloc_facts (input file : File) (hl : LayoutOk input)
    (hfi : 0 ≤ main_free_inode input)
    (hfb : blocks_needed_for_file file.size ≤ (main_free_blocks input file).length) :
    ∃ f : Nat,
      main_free_inode input = (f : Int)
      ∧ f < sb_inode_count input.data
      ∧ bitClear input.data (sb_inode_bitmap_start input.data * BS) f
      ∧ (∀ j, j < f → ¬ bitClear input.data (sb_inode_bitmap_start input.data * BS) j)
      ∧ main_free_blocks input file
          = (lowest_clear input.data (sb_data_bitmap_start input.data * BS)
              (sb_data_region_blocks input.data) (blocks_needed_for_file file.size)).map
              (fun j => (sb_data_region_start input.data + j) % 2 ^ 32)
      ∧ (lowest_clear input.data (sb_data_bitmap_start input.data * BS)
          (sb_data_region_blocks input.data) (blocks_needed_for_file file.size)).length
          = blocks_needed_for_file file.size
      ∧ (main_free_blocks input file).length = blocks_needed_for_file file.size := by
  obtain ⟨hic, hdrb, _, _, _, _, _, _⟩ := hl
  obtain ⟨_, e1, e2, e3, e4, e5, e6⟩ := main_superblock_fields input
  have hfbeq : main_free_blocks input file
      = (lowest_clear input.data (sb_data_bitmap_start input.data * BS)
          (sb_data_region_blocks input.data) (blocks_needed_for_file file.size)).map
          (fun j => (sb_data_region_start input.data + j) % 2 ^ 32) := by
    unfold main_free_blocks
    rw [e3, e5, e6]
    exact scan_free_blocks_lowest _ _ _ _ _
  have hlen := lowest_clear_length_le input.data (sb_data_bitmap_start input.data * BS)
    (sb_data_region_blocks input.data) (blocks_needed_for_file file.size)
  have hfblen : (main_free_blocks input file).length = blocks_needed_for_file file.size := by
    have : (main_free_blocks input file).length ≤ blocks_needed_for_file file.size := by
      rw [hfbeq, List.length_map]; exact hlen
    omega
  have hlclen : (lowest_clear input.data (sb_data_bitmap_start input.data * BS)
      (sb_data_region_blocks input.data) (blocks_needed_for_file file.size)).length
      = blocks_needed_for_file file.size := by
    rw [hfbeq, List.length_map] at hfblen; exact hfblen
  have hmax : sb_inode_count input.data < 2 ^ 31 := by
    unfold BS at hic; omega
  have hcases := find_free_bit_cases input.data (sb_inode_bitmap_start input.data * BS)
    (sb_inode_count input.data) hmax
  have hfi' : main_free_inode input
      = find_free_bit input.data (sb_inode_bitmap_start input.data * BS)
          (sb_inode_count input.data) := by
    unfold main_free_inode; rw [e1, e2]
  rw [← hfi'] at hcases
  rcases hcases with ⟨hneg, _⟩ | ⟨f, hf, hflt, hfc, hfmin⟩
  · rw [hneg] at hfi; omega
  · exact ⟨f, hf, hflt, hfc, hfmin, hfbeq, hlclen, hfblen⟩

/-- When the root's data block is allocated, the allocation stage leaves the root
directory block (block 0 of the data region) as it is in the input. -/
theorem main_alloc_root_block (input file : File) (now : Nat) (hl : LayoutOk input)
    (hr : RootAllocated input) (hN : blocks_needed_for_file file.size ≤ 12)
    (hfi : 0 ≤ main_free_inode input)
    (hfb : blocks_needed_for_file file.size ≤ (main_free_blocks input file).length)
    (a : Nat) (h1 : sb_data_region_start input.data * 4096 ≤ a)
    (h2 : a < sb_data_region_start input.data * 4096 + 4096) :
    main_alloc input file now a = input.data a := by
  obtain ⟨f, hf, hflt, hfc, hfmin, hfbeq, hlclen, hfblen⟩ := alloc_facts input file hl hfi hfb
  have hregions := main_alloc_regions input file now f hl hf hflt hfbeq hlclen hN
  obtain ⟨hic, hdrb, l1, l2, l3, l4, l5, l6⟩ := hl
  have hidx := main_block_index input file (sb_data_region_start input.data)
    (sb_data_region_blocks input.data) _ hfbeq
    (fun x hx => (lowest_clear_mem _ _ _ _ x hx).1) hdrb l6
  rw [hlclen] at hidx
  have hne0 : ∀ j, j < blocks_needed_for_file file.size →
      (lowest_clear input.data (sb_data_bitmap_start input.data * BS)
        (sb_data_region_blocks input.data) (blocks_needed_for_file file.size)).getD j 0
        ≠ 0 := by
    intro j hj h0
    have hc := (lowest_clear_getD_clear input.data (sb_data_bitmap_start input.data * BS)
      (sb_data_region_blocks input.data) (blocks_needed_for_file file.size) j
      (by rw [hlclen]; exact hj)).2
    rw [h0] at hc
    exact hr.2 hc
  generalize hlc : lowest_clear input.data (sb_data_bitmap_start input.data * BS)
    (sb_data_region_blocks input.data) (blocks_needed_for_file file.size) = lc at *
  obtain ⟨hL1, _⟩ := blocks_needed_bounds file.size
  have hw := write_blocks_out input.data (sb_data_region_start input.data * BS)
    (sb_data_region_start input.data) (main_free_blocks input file) file a
    (fun j => lc.getD j 0) (by rw [hfblen]; exact hL1) (blocks_needed_for_file file.size)
    (fun j hj => (hidx j hj).2.2.1)
    (fun j hj => by
      have := hne0 j hj
      left
      simp only [BS]
      omega)
  rw [← hw]
  exact (hregions a).2.2.2.2 (by simp only [BS]; omega)

/-- The inode the allocation takes is not the root's when the root's inode is allocated,
and then the allocation stage leaves the root inode record as it is in the input. -/
theorem main_alloc_root_inode (input file : File) (now : Nat) (hl : LayoutOk input)
    (hr : RootAllocated input) (hN : blocks_needed_for_file file.size ≤ 12)
    (hfi : 0 ≤ main_free_inode input)
    (hfb : blocks_needed_for_file file.size ≤ (main_free_blocks input file).length)
    (a : Nat) (h1 : sb_inode_table_start input.data * 4096 ≤ a)
    (h2 : a < sb_inode_table_start input.data * 4096 + 128) :
    main_alloc input file now a = input.data a := by
  obtain ⟨f, hf, hflt, hfc, hfmin, hfbeq, hlclen, hfblen⟩ := alloc_facts input file hl hfi hfb
  have hregions := main_alloc_regions input file now f hl hf hflt hfbeq hlclen hN
  have hf0 : f ≠ 0 := by
    intro h0
    rw [h0] at hfc
    exact hr.1 hfc
  obtain ⟨hic, hdrb, l1, l2, l3, l4, l5, l6⟩ := hl
  simp only [BS, INODE_SIZE] at *
  rw [(hregions a).2.2.2.1 (by omega) (by omega)]
  exact build_inode_out _ _ _ _ _ _ (by omega) (by omega)

/-- The new directory entry as the last stage leaves it: below its checksum byte it is the
entry `entry_stage` prepared with the name copied in. -/
theorem link_stage_entry (sb m : Mem) (f e : Nat) (filename : List Nat) (now : Nat)
    (hs : strlen filename < 58)
    (h1 : 116 ≤ sb_data_region_start sb * 4096)
    (h3 : sb_inode_table_start sb * 4096 + f * 128 + 128 ≤ sb_data_region_start sb * 4096) :
    load (link_stage sb (entry_stage sb m (f : Int) (e : Int)) (f : Int) (e : Int) filename now)
        (sb_data_region_start sb * BS + e * 64) 4 = (f + 1) % 2 ^ 32
    ∧ link_stage sb (entry_stage sb m (f : Int) (e : Int)) (f : Int) (e : Int) filename now
        (sb_data_region_start sb * BS + e * 64 + 4) = FILE_TYPE_FILE
    ∧ ∀ i, i < 58 →
        link_stage sb (entry_stage sb m (f : Int) (e : Int)) (f : Int) (e : Int) filename now
            (sb_data_region_start sb * BS + e * 64 + 5 + i)
          = if i < strlen filename then filename.getD i 0 % 256 else 0 := by
  have hf1 : ((f : Int) + 1).toNat = f + 1 := by omega
  obtain ⟨a1, a2, a3⟩ := dirent_fill_bytes m (sb_data_region_start sb * BS + e * 64) (f + 1)
    FILE_TYPE_FILE filename hs
  have hpt : ∀ a, sb_data_region_start sb * BS + e * 64 ≤ a →
      a < sb_data_region_start sb * BS + e * 64 + 63 →
      link_stage sb (entry_stage sb m (f : Int) (e : Int)) (f : Int) (e : Int) filename now a
        = strcpy (store (store (memset m (sb_data_region_start sb * BS + e * 64) 0 64)
            (sb_data_region_start sb * BS + e * 64 + 0) 4 (f + 1))
            (sb_data_region_start sb * BS + e * 64 + 4) 1 FILE_TYPE_FILE)
            (sb_data_region_start sb * BS + e * 64 + 5) filename a := by
    intro a ha1 ha2
    unfold link_stage entry_stage
    simp only [Int.toNat_ofNat, hf1]
    simp only [BS, INODE_SIZE] at *
    rw [superblock_crc_finalize_out _ _ _ (by omega),
      dirent_checksum_finalize_out _ _ _ (by omega),
      inode_crc_finalize_out _ _ _ (by omega),
      inode_crc_finalize_out _ _ _ (by omega),
      store_out _ _ _ _ _ (by omega), store_out _ _ _ _ _ (by omega),
      store_out _ _ _ _ _ (by omega), store_out _ _ _ _ _ (by omega)]
  refine ⟨?_, ?_, ?_⟩
  · rw [load_eq_of_agree _ _ _ 4 (fun a ha1 ha2 => hpt a ha1 (by omega)), a1]
  · rw [hpt _ (by omega) (by omega), a2]; rfl
  · intro i hi
    rw [hpt _ (by omega) (by omega), a3 i hi]

/-- The directory slot a successful run fills, on a well laid out image whose root is
allocated: slot `e` is the lowest whose `inode_no` is 0 in the input, it receives the
inode number `f + 1`, the type and the name, and the rest of the block is kept. -/
theorem adder_slot_facts (input file : File) (filename : List Nat) (now : Nat)
    (hl : LayoutOk input) (hr : RootAllocated input)
    (h : (adder_main input file filename now).exit_code = 0) :
    ∃ f e : Nat,
      main_free_inode input = (f : Int)
      ∧ main_free_entry input file now = (e : Int)
      ∧ e < 64
      ∧ load input.data (sb_data_region_start input.data * BS + e * 64) 4 = 0
      ∧ (∀ j, j < e → load input.data (sb_data_region_start input.data * BS + j * 64) 4 ≠ 0)
      ∧ load (adder_main input file filename now).image_data
          (sb_data_region_start input.data * BS + e * 64) 4 = f + 1
      ∧ (adder_main input file filename now).image_data
          (sb_data_region_start input.data * BS + e * 64 + 4) = FILE_TYPE_FILE
      ∧ (∀ i, i < 58 →
          (adder_main input file filename now).image_data
            (sb_data_region_start input.data * BS + e * 64 + 5 + i)
          = if i < strlen filename then filename.getD i 0 % 256 else 0)
      ∧ (∀ a, sb_data_region_start input.data * BS ≤ a →
          a < sb_data_region_start input.data * BS + BS →
          (a < sb_data_region_start input.data * BS + e * 64
            ∨ sb_data_region_start input.data * BS + e * 64 + 64 ≤ a) →
          (adder_main input file filename now).image_data a = input.data a) := by
  obtain ⟨f, e, hf, hflt, hfc, hfmin, he, helt, hfb, hlclen, hfblen, hN, hs⟩ :=
    main_facts input file filename now hl h
  obtain ⟨_, _, _, hfi, hfbl, _, _, himg, _, _⟩ := adder_main_success input file filename now h
  obtain ⟨_, e1, e2, e3, e4, e5, e6⟩ := main_superblock_fields input
  have hroot := main_alloc_root_block input file now hl hr hN hfi hfbl
  -- the scan of the root directory block, read on the input
  have hes := find_free_entry_spec (main_alloc input file now)
    (sb_data_region_start (main_superblock input) * BS) (BS / 64) 0
  have hfe' : main_free_entry input file now
      = find_free_entry (main_alloc input file now)
          (sb_data_region_start (main_superblock input) * BS) (BS / 64) 0 := rfl
  rw [← hfe', he, e5] at hes
  have h64 : BS / 64 = 64 := rfl
  have hin : ∀ j, j < 64 → load (main_alloc input file now)
      (sb_data_region_start input.data * BS + j * 64) 4
      = load input.data (sb_data_region_start input.data * BS + j * 64) 4 := by
    intro j hj
    apply load_eq_of_agree
    intro a ha1 ha2
    simp only [BS] at ha1 ha2
    exact hroot a (by omega) (by omega)
  have hscan : load input.data (sb_data_region_start input.data * BS + e * 64) 4 = 0
      ∧ ∀ j, j < e → load input.data (sb_data_region_start input.data * BS + j * 64) 4 ≠ 0 := by
    rcases hes with ⟨hneg, _⟩ | ⟨e', he', _, _, hz, hnz⟩
    · omega
    · have hee : e' = e := by exact_mod_cast he'.symm
      subst hee
      refine ⟨by rw [← hin _ helt]; exact hz, fun j hj => ?_⟩
      rw [← hin j (by omega)]
      exact hnz j (Nat.zero_le _) hj
  have hl' := hl
  obtain ⟨hic, hdrb, l1, l2, l3, l4, l5, l6⟩ := hl'
  have hentry := link_stage_entry (main_superblock input) (main_alloc input file now) f e
    filename now hs (by rw [e5]; simp only [BS, INODE_SIZE] at *; omega)
    (by rw [e4, e5]; simp only [BS, INODE_SIZE] at *; omega)
  rw [e5] at hentry
  have hml : main_link input file filename now
      = link_stage (main_superblock input)
          (entry_stage (main_superblock input) (main_alloc input file now) (f : Int) (e : Int))
          (f : Int) (e : Int) filename now := by
    unfold main_link main_entry
    rw [hf, he]
  rw [himg]
  refine ⟨f, e, hf, he, helt, hscan.1, hscan.2, ?_, ?_, ?_, ?_⟩
  · rw [hml, hentry.1]
    simp only [BS] at *
    exact Nat.mod_eq_of_lt (by omega)
  · rw [hml]; exact hentry.2.1
  · rw [hml]; exact hentry.2.2
  · intro a ha1 ha2 ha3
    simp only [BS, INODE_SIZE] at *
    rw [main_link_out input file filename now f e a hf he hs (by omega) (by omega) (by omega)
      (by omega) (by omega)]
    exact hroot a (by omega) (by omega)

/-- C13: after every successful insertion into a well laid out image whose root is
allocated (the base name then has at most 57 characters), the new directory entry is in
slot `e`, the lowest-indexed of the 64 slots of the first data-region block whose
`inode_no` was 0 in the input; the slot holds `inode_no = f + 1` for the inode-bitmap bit
`f` the run allocated, type = file (1) and a 58-byte name field that is the base name
followed only by NUL bytes; every byte of the root directory block outside that slot is
unchanged. -/
theorem adder_directory_entry (input file : File) (filename : List Nat) (now : Nat)
    (hl : LayoutOk input) (hr : RootAllocated input)
    (h : (adder_main input file filename now).exit_code = 0) :
    ∃ f e : Nat,
      main_free_inode input = (f : Int)
      ∧ bitClear input.data (sb_inode_bitmap_start input.data * BS) f
      ∧ ¬ bitClear (adder_main input file filename now).image_data
          (sb_inode_bitmap_start input.data * BS) f
      ∧ strlen filename ≤ 57
      ∧ e < 64
      ∧ load input.data (sb_data_region_start input.data * BS + e * 64) 4 = 0
      ∧ (∀ j, j < e → load input.data (sb_data_region_start input.data * BS + j * 64) 4 ≠ 0)
      ∧ load (adder_main input file filename now).image_data
          (sb_data_region_start input.data * BS + e * 64) 4 = f + 1
      ∧ (adder_main input file filename now).image_data
          (sb_data_region_start input.data * BS + e * 64 + 4) = FILE_TYPE_FILE
      ∧ (∀ i, i < 58 →
          (adder_main input file filename now).image_data
            (sb_data_region_start input.data * BS + e * 64 + 5 + i)
          = if i < strlen filename then filename.getD i 0 % 256 else 0)
      ∧ (∀ a, sb_data_region_start input.data * BS ≤ a →
          a < sb_data_region_start input.data * BS + BS →
          (a < sb_data_region_start input.data * BS + e * 64
            ∨ sb_data_region_start input.data * BS + e * 64 + 64 ≤ a) →
          (adder_main input file filename now).image_data a = input.data a) := by
  obtain ⟨f, e, hf, he, helt, hz, hnz, hino, hty, hname, hrest⟩ :=
    adder_slot_facts input file filename now hl hr h
  obtain ⟨f', _, hf', hflt, hfc, _, _, _, _, _, _, _, hs⟩ :=
    main_facts input file filename now hl h
  have hff : f' = f := by rw [hf] at hf'; exact_mod_cast hf'.symm
  subst hff
  have hlow := adder_low_bytes input file filename now f' hl h hf
  obtain ⟨hic, hdrb, l1, l2, l3, l4, l5, l6⟩ := hl
  refine ⟨f', e, hf, hfc, ?_, by omega, helt, hz, hnz, hino, hty, hname, hrest⟩
  have hb : (adder_main input file filename now).image_data
        (sb_inode_bitmap_start input.data * BS + f' / 8)
      = set_bit input.data (sb_inode_bitmap_start input.data * BS) (f' : Int)
          (sb_inode_bitmap_start input.data * BS + f' / 8) :=
    (hlow _).2.1 (by omega) (by simp only [BS] at *; omega)
  intro hc
  have hc' : bitClear (set_bit input.data (sb_inode_bitmap_start input.data * BS) (f' : Int))
      (sb_inode_bitmap_start input.data * BS) f' := by
    unfold bitClear at hc ⊢
    rw [← hb]; exact hc
  exact ((bitClear_set_bit _ _ _ _).1 hc').1 rfl

/-- C13 on Scenarios A and B: the file named "hi" goes to slot 2, the first free one after
"." and "..", with inode number 2, type 1 and the name bytes 104, 105 followed by NULs. -/
theorem adder_directory_entry_witness :
    LayoutOk scenario_image ∧ RootAllocated scenario_image
    ∧ (adder_main scenario_image scenario_file [104, 105] 2000).exit_code = 0
    ∧ main_free_inode scenario_image = 1
    ∧ load scenario_image.data (sb_data_region_start scenario_image.data * BS + 2 * 64) 4 = 0
    ∧ load (adder_main scenario_image scenario_file [104, 105] 2000).image_data
        (sb_data_region_start scenario_image.data * BS + 2 * 64) 4 = 1 + 1
    ∧ (adder_main scenario_image scenario_file [104, 105] 2000).image_data
        (sb_data_region_start scenario_image.data * BS + 2 * 64 + 4) = FILE_TYPE_FILE
    ∧ (∀ i, i < 58 →
        (adder_main scenario_image scenario_file [104, 105] 2000).image_data
          (sb_data_region_start scenario_image.data * BS + 2 * 64 + 5 + i)
        = if i < strlen [104, 105] then [104, 105].getD i 0 % 256 else 0) :=
  ⟨by decide, by decide, by decide, by decide, by decide,
    match adder_directory_entry scenario_image scenario_file [104, 105] 2000 (by decide)
      (by decide) (by decide) with
    | ⟨f, e, a1, _, _, _, _, a6, a7, a8, a9, a10, _⟩ => by
      have hf : f = 1 := by
        have h1 : main_free_inode scenario_image = 1 := by decide
        rw [h1] at a1
        exact_mod_cast a1.symm
      have s0 : load scenario_image.data
          (sb_data_region_start scenario_image.data * BS + 0 * 64) 4 ≠ 0 := by decide
      have s1 : load scenario_image.data
          (sb_data_region_start scenario_image.data * BS + 1 * 64) 4 ≠ 0 := by decide
      have s2 : load scenario_image.data
          (sb_data_region_start scenario_image.data * BS + 2 * 64) 4 = 0 := by decide
      have he : e = 2 := by
        rcases Nat.lt_trichotomy e 2 with h | h | h
        · have h01 : e = 0 ∨ e = 1 := by omega
          rcases h01 with rfl | rfl
          · exact absurd a6 s0
          · exact absurd a6 s1
        · exact h
        · exact absurd s2 (a7 2 h)
      subst hf
      subst he
      exact ⟨a8, a9, a10⟩⟩

/-! ### The adder: the root inode and the occupied slots -/

theorem load_superblock_crc_finalize_other (m : Mem) (sb p w : Nat)
    (h : p + w ≤ sb + 112 ∨ sb + 116 ≤ p) :
    load (superblock_crc_finalize m sb) p w = load m p w :=
  load_eq_of_agree _ _ _ _ (fun a h1 h2 => superblock_crc_finalize_out m sb a (by omega))

theorem load_inode_crc_finalize_other (m : Mem) (ino p w : Nat)
    (h : p + w ≤ ino + 120 ∨ ino + 128 ≤ p) :
    load (inode_crc_finalize m ino) p w = load m p w :=
  load_eq_of_agree _ _ _ _ (fun a h1 h2 => inode_crc_finalize_out m ino a (by omega))

theorem load_dirent_checksum_finalize_other (m : Mem) (de p w : Nat)
    (h : p + w ≤ de + 63 ∨ de + 64 ≤ p) :
    load (dirent_checksum_finalize m de) p w = load m p w :=
  load_eq_of_agree _ _ _ _ (fun a h1 h2 => dirent_checksum_finalize_out m de a (by omega))

theorem load_strcpy_other (m : Mem) (dst : Nat) (s : List Nat) (p w : Nat)
    (h : p + w ≤ dst ∨ dst + strlen s < p) :
    load (strcpy m dst s) p w = load m p w :=
  load_eq_of_agree _ _ _ _ (fun a h1 h2 => strcpy_out m dst s a (by omega))

/-- The root inode record as the last stage leaves it, in terms of the buffer `m` the stage
starts from: size plus 64, links plus 1, mtime and ctime set, the other bytes below the
CRC kept.  The new inode is not the root's (`f ≠ 0`). -/
theorem link_stage_root (sb m : Mem) (f e : Nat) (filename : List Nat) (now : Nat)
    (hf : f ≠ 0) (h1 : 116 ≤ sb_inode_table_start sb * 4096)
    (h2 : sb_inode_table_start sb * 4096 + 128 ≤ sb_data_region_start sb * 4096) :
    load (link_stage sb m (f : Int) (e : Int) filename now) (sb_inode_table_start sb * BS + 12) 8
        = (load m (sb_inode_table_start sb * BS + 12) 8 + 64) % 2 ^ 64
    ∧ load (link_stage sb m (f : Int) (e : Int) filename now) (sb_inode_table_start sb * BS + 2) 2
        = (load m (sb_inode_table_start sb * BS + 2) 2 + 1) % 2 ^ 16
    ∧ load (link_stage sb m (f : Int) (e : Int) filename now) (sb_inode_table_start sb * BS + 28) 8
        = now % 2 ^ 64
    ∧ load (link_stage sb m (f : Int) (e : Int) filename now) (sb_inode_table_start sb * BS + 36) 8
        = now % 2 ^ 64
    ∧ ∀ x, x < 120 → (x < 2 ∨ (4 ≤ x ∧ x < 12) ∨ (20 ≤ x ∧ x < 28) ∨ 44 ≤ x) →
        link_stage sb m (f : Int) (e : Int) filename now (sb_inode_table_start sb * BS + x)
          = m (sb_inode_table_start sb * BS + x) := by
  have hf1 : 1 ≤ f := by omega
  unfold link_stage
  simp only [Int.toNat_ofNat]
  simp only [BS, INODE_SIZE] at *
  refine ⟨?_, ?_, ?_, ?_, ?_⟩
  · simp (disch := omega) only [load_superblock_crc_finalize_other,
      load_inode_crc_finalize_other, load_dirent_checksum_finalize_other, load_store_other,
      load_store_same, load_strcpy_other]
    norm_num
  · simp (disch := omega) only [load_superblock_crc_finalize_other,
      load_inode_crc_finalize_other, load_dirent_checksum_finalize_other, load_store_other,
      load_store_same, load_strcpy_other]
    norm_num
  · simp (disch := omega) only [load_superblock_crc_finalize_other,
      load_inode_crc_finalize_other, load_dirent_checksum_finalize_other, load_store_other,
      load_store_same, load_strcpy_other]
    norm_num
  · simp (disch := omega) only [load_superblock_crc_finalize_other,
      load_inode_crc_finalize_other, load_dirent_checksum_finalize_other, load_store_other,
      load_store_same, load_strcpy_other]
    norm_num
  · intro x hx hx'
    rw [superblock_crc_finalize_out _ _ _ (by omega),
      dirent_checksum_finalize_out _ _ _ (by omega),
      inode_crc_finalize_out _ _ _ (by omega),
      inode_crc_finalize_out _ _ _ (by omega),
      store_out _ _ _ _ _ (by omega), store_out _ _ _ _ _ (by omega),
      store_out _ _ _ _ _ (by omega), store_out _ _ _ _ _ (by omega),
      strcpy_out _ _ _ _ (by omega)]

/-- Filling one free slot of a directory block raises the number of occupied slots by 1. -/
theorem occupied_slots_step (m m' : Mem) (root e : Nat) (he : e < 64)
    (h0 : load m (root + e * 64) 4 = 0) (h1 : load m' (root + e * 64) 4 ≠ 0)
    (hother : ∀ j, j < 64 → j ≠ e → load m' (root + j * 64) 4 = load m (root + j * 64) 4) :
    occupied_slots m' root = occupied_slots m root + 1 := by
  unfold occupied_slots
  have key : ∀ n, n ≤ 64 →
      (List.range n).countP (fun i => decide (load m' (root + i * 64) 4 ≠ 0))
        = (List.range n).countP (fun i => decide (load m (root + i * 64) 4 ≠ 0))
          + if e < n then 1 else 0 := by
    intro n
    induction n with
    | zero => intro _; simp
    | succ n ih =>
      intro hn
      rw [List.range_succ, List.countP_append, List.countP_append, ih (by omega)]
      simp only [List.countP_cons, List.countP_nil, Nat.zero_add]
      by_cases hen : e = n
      · subst hen
        simp [h0, h1]
      · rw [hother n (by omega) (fun h => hen h.symm)]
        by_cases hlt : e < n
        · have : e < n + 1 := by omega
          simp only [hlt, this, if_true]
          omega
        · have : ¬ e < n + 1 := by omega
          simp only [hlt, this, if_false]
          omega
  rw [key 64 (le_refl _), if_pos he]

theorem occupied_slots_le (m : Mem) (root : Nat) : occupied_slots m root ≤ 64 := by
  unfold occupied_slots
  have := List.countP_le_length (fun i => decide (load m (root + i * 64) 4 ≠ 0))
    (l := List.range 64)
  simpa using this

/-- One successful insertion into a well laid out image whose root is allocated, seen from
the root inode and the root directory block. -/
theorem adder_root_step (input file : File) (filename : List Nat) (now : Nat)
    (hl : LayoutOk input) (hr : RootAllocated input)
    (h : (adder_main input file filename now).exit_code = 0) :
    load (adder_main input file filename now).image_data
        (sb_inode_table_start input.data * BS + 12) 8
      = (load input.data (sb_inode_table_start input.data * BS + 12) 8 + 64) % 2 ^ 64
    ∧ load (adder_main input file filename now).image_data
        (sb_inode_table_start input.data * BS + 2) 2
      = (load input.data (sb_inode_table_start input.data * BS + 2) 2 + 1) % 2 ^ 16
    ∧ load (adder_main input file filename now).image_data
        (sb_inode_table_start input.data * BS + 28) 8 = now % 2 ^ 64
    ∧ load (adder_main input file filename now).image_data
        (sb_inode_table_start input.data * BS + 36) 8 = now % 2 ^ 64
    ∧ (∀ x, x < 120 → (x < 2 ∨ (4 ≤ x ∧ x < 12) ∨ (20 ≤ x ∧ x < 28) ∨ 44 ≤ x) →
        (adder_main input file filename now).image_data
            (sb_inode_table_start input.data * BS + x)
          = input.data (sb_inode_table_start input.data * BS + x))
    ∧ occupied_slots (adder_main input file filename now).image_data
        (sb_data_region_start input.data * BS)
      = occupied_slots input.data (sb_data_region_start input.data * BS) + 1 := by
  obtain ⟨f, e, hf, he, helt, hz, hnz, hino, _, _, hrest⟩ :=
    adder_slot_facts input file filename now hl hr h
  obtain ⟨f', _, hf', hflt, hfc, _, _, _, _, _, _, hN, hs⟩ :=
    main_facts input file filename now hl h
  have hff : f' = f := by rw [hf] at hf'; exact_mod_cast hf'.symm
  subst hff
  obtain ⟨_, _, _, hfi, hfbl, _, _, himg, _, _⟩ := adder_main_success input file filename now h
  obtain ⟨_, e1, e2, e3, e4, e5, e6⟩ := main_superblock_fields input
  have hf0 : f' ≠ 0 := by
    intro h0
    rw [h0] at hfc
    exact hr.1 hfc
  have hrootino := main_alloc_root_inode input file now hl hr hN hfi hfbl
  have hml : main_link input file filename now
      = link_stage (main_superblock input)
          (entry_stage (main_superblock input) (main_alloc input file now) (f' : Int) (e : Int))
          (f' : Int) (e : Int) filename now := by
    unfold main_link main_entry
    rw [hf, he]
  obtain ⟨hic, hdrb, l1, l2, l3, l4, l5, l6⟩ := hl
  have hstage := link_stage_root (main_superblock input)
    (entry_stage (main_superblock input) (main_alloc input file now) (f' : Int) (e : Int))
    f' e filename now hf0 (by rw [e4]; simp only [BS, INODE_SIZE] at *; omega)
    (by rw [e4, e5]; simp only [BS, INODE_SIZE] at *; omega)
  rw [e4] at hstage
  -- on the root inode record the buffer the last stage starts from is the input
  have hpre : ∀ a, sb_inode_table_start input.data * 4096 ≤ a →
      a < sb_inode_table_start input.data * 4096 + 128 →
      entry_stage (main_superblock input) (main_alloc input file now) (f' : Int) (e : Int) a
        = input.data a := by
    intro a ha1 ha2
    rw [entry_stage_out _ _ _ _ _ (by rw [e5]; simp only [BS, INODE_SIZE] at *; omega)]
    exact hrootino a ha1 ha2
  have hpreload : ∀ off w, off + w ≤ 128 →
      load (entry_stage (main_superblock input) (main_alloc input file now) (f' : Int) (e : Int))
        (sb_inode_table_start input.data * BS + off) w
      = load input.data (sb_inode_table_start input.data * BS + off) w := by
    intro off w hw
    apply load_eq_of_agree
    intro a ha1 ha2
    simp only [BS] at ha1 ha2
    exact hpre a (by omega) (by omega)
  rw [himg, hml]
  refine ⟨?_, ?_, hstage.2.2.1, hstage.2.2.2.1, ?_, ?_⟩
  · rw [hstage.1, hpreload 12 8 (by omega)]
  · rw [hstage.2.1, hpreload 2 2 (by omega)]
  · intro x hx hx'
    rw [hstage.2.2.2.2 x hx hx']
    simp only [BS]
    exact hpre _ (by omega) (by omega)
  · rw [← hml, ← himg]
    apply occupied_slots_step _ _ _ e helt hz
    · rw [hino]; omega
    · intro j hj hje
      apply load_eq_of_agree
      intro a ha1 ha2
      have hr' := hrest a
      simp only [BS] at hr' ha1 ha2
      exact hr' (by omega) (by omega) (by omega)

/-- Along a run of insertions that starts from an image whose root inode records 64 bytes
and one link per occupied slot, the root inode keeps doing so, and each insertion occupies
one more slot. -/
theorem insert_all_root :
    ∀ (reqs : List (File × List Nat × Nat)) (img out : File), LayoutOk img →
      RootAllocated img →
      load img.data (sb_inode_table_start img.data * BS + 12) 8
        = 64 * occupied_slots img.data (sb_data_region_start img.data * BS) →
      load img.data (sb_inode_table_start img.data * BS + 2) 2
        = occupied_slots img.data (sb_data_region_start img.data * BS) →
      insert_all img reqs = some out →
      load out.data (sb_inode_table_start out.data * BS + 12) 8
        = 64 * occupied_slots out.data (sb_data_region_start out.data * BS)
      ∧ load out.data (sb_inode_table_start out.data * BS + 2) 2
        = occupied_slots out.data (sb_data_region_start out.data * BS)
      ∧ occupied_slots out.data (sb_data_region_start out.data * BS)
        = occupied_slots img.data (sb_data_region_start img.data * BS) + reqs.length := by
  intro reqs
  induction reqs with
  | nil =>
    intro img out _ _ hs hk h
    simp only [insert_all, Option.some.injEq] at h
    subst h
    exact ⟨hs, hk, by simp⟩
  | cons r rest ih =>
    intro img out hl hr hs hk h
    obtain ⟨file, filename, now⟩ := r
    simp only [insert_all] at h
    by_cases hx : (adder_main img file filename now).exit_code = 0
    · obtain ⟨_, _, _, _, _, _, _, himg, _, hout⟩ := adder_main_success img file filename now hx
      obtain ⟨_, _, _, k4, k5, _, hl'⟩ := adder_keeps_layout img file filename now hl hx
      have hr' := adder_keeps_root img file filename now hl hr hx
      obtain ⟨p1, p2, _, _, _, p6⟩ := adder_root_step img file filename now hl hr hx
      have hle := occupied_slots_le (adder_main img file filename now).image_data
        (sb_data_region_start img.data * BS)
      rw [hout] at h
      simp only at h
      rw [← himg] at h
      have hs' : load (adder_main img file filename now).image_data
          (sb_inode_table_start img.data * BS + 12) 8
          = 64 * occupied_slots (adder_main img file filename now).image_data
              (sb_data_region_start img.data * BS) := by
        rw [p1, hs, p6]
        rw [p6] at hle
        omega
      have hk' : load (adder_main img file filename now).image_data
          (sb_inode_table_start img.data * BS + 2) 2
          = occupied_slots (adder_main img file filename now).image_data
              (sb_data_region_start img.data * BS) := by
        rw [p2, hk, p6]
        rw [p6] at hle
        omega
      obtain ⟨q1, q2, q3⟩ := ih _ out hl' hr'
        (by simp only; rw [k4, k5]; exact hs') (by simp only; rw [k4, k5]; exact hk') h
      simp only at q3
      rw [k5, p6] at q3
      refine ⟨q1, q2, ?_⟩
      rw [q3, List.length_cons]
      omega
    · have := (adder_main_failure img file filename now hx).2
      rw [this] at h
      simp at h

/-- C14: after `k` successful insertions into a fresh image the root inode has
`size_bytes = 64 * (2 + k)` and `links = 2 + k`, the number of occupied slots of the root
directory block; and every successful insertion into a well laid out image whose root is
allocated leaves the root inode with `size_bytes` = input + 64 (64-bit), `links` = input
+ 1 (16-bit), `mtime = ctime = now`, and mode, uid, gid, atime, the direct pointers and
every other byte below the checksum unchanged. -/
theorem root_inode_after_insertions (stack : Mem) (size_kib ic t_sb t_root flags : Nat)
    (img out : File) (reqs : List (File × List Nat × Nat))
    (h0 : builder_main stack size_kib ic t_sb t_root flags = (0, some img))
    (h1 : insert_all img reqs = some out) :
    load out.data (sb_inode_table_start out.data * BS + 12) 8 = 64 * (2 + reqs.length)
    ∧ load out.data (sb_inode_table_start out.data * BS + 2) 2 = 2 + reqs.length
    ∧ occupied_slots out.data (sb_data_region_start out.data * BS) = 2 + reqs.length
    ∧ (∀ (input file : File) (filename : List Nat) (now : Nat), LayoutOk input →
        RootAllocated input → (adder_main input file filename now).exit_code = 0 →
        load (adder_main input file filename now).image_data
            (sb_inode_table_start input.data * BS + 12) 8
          = (load input.data (sb_inode_table_start input.data * BS + 12) 8 + 64) % 2 ^ 64
        ∧ (load input.data (sb_inode_table_start input.data * BS + 12) 8 + 64 < 2 ^ 64 →
            load (adder_main input file filename now).image_data
                (sb_inode_table_start input.data * BS + 12) 8
              = load input.data (sb_inode_table_start input.data * BS + 12) 8 + 64)
        ∧ load (adder_main input file filename now).image_data
            (sb_inode_table_start input.data * BS + 2) 2
          = (load input.data (sb_inode_table_start input.data * BS + 2) 2 + 1) % 2 ^ 16
        ∧ (load input.data (sb_inode_table_start input.data * BS + 2) 2 + 1 < 2 ^ 16 →
            load (adder_main input file filename now).image_data
                (sb_inode_table_start input.data * BS + 2) 2
              = load input.data (sb_inode_table_start input.data * BS + 2) 2 + 1)
        ∧ (now < 2 ^ 64 →
            load (adder_main input file filename now).image_data
                (sb_inode_table_start input.data * BS + 28) 8 = now
            ∧ load (adder_main input file filename now).image_data
                (sb_inode_table_start input.data * BS + 36) 8 = now)
        ∧ load (adder_main input file filename now).image_data
            (sb_inode_table_start input.data * BS + 0) 2
          = load input.data (sb_inode_table_start input.data * BS + 0) 2
        ∧ load (adder_main input file filename now).image_data
            (sb_inode_table_start input.data * BS + 4) 4
          = load input.data (sb_inode_table_start input.data * BS + 4) 4
        ∧ load (adder_main input file filename now).image_data
            (sb_inode_table_start input.data * BS + 8) 4
          = load input.data (sb_inode_table_start input.data * BS + 8) 4
        ∧ load (adder_main input file filename now).image_data
            (sb_inode_table_start input.data * BS + 20) 8
          = load input.data (sb_inode_table_start input.data * BS + 20) 8
        ∧ (∀ i, i < 12 →
            load (adder_main input file filename now).image_data
                (sb_inode_table_start input.data * BS + 44 + 4 * i) 4
              = load input.data (sb_inode_table_start input.data * BS + 44 + 4 * i) 4)
        ∧ (∀ x, x < 120 → (x < 2 ∨ (4 ≤ x ∧ x < 12) ∨ (20 ≤ x ∧ x < 28) ∨ 44 ≤ x) →
            (adder_main input file filename now).image_data
                (sb_inode_table_start input.data * BS + x)
              = input.data (sb_inode_table_start input.data * BS + x))
        ∧ occupied_slots (adder_main input file filename now).image_data
            (sb_data_region_start input.data * BS)
          = occupied_slots input.data (sb_data_region_start input.data * BS) + 1) := by
  obtain ⟨hv, himg⟩ := builder_main_ok _ _ _ _ _ _ _ h0
  have hfresh := builder_image_root_facts stack size_kib ic t_sb t_root flags img hv himg
  obtain ⟨_, f2, f3, _, _, _, _, _, _, _, _, _, _, _, _, _, _, _, f19⟩ := hfresh
  have hl : LayoutOk img := by
    rw [himg]; exact builder_image_layout stack size_kib ic t_sb t_root flags hv
  have hr : RootAllocated img := by
    rw [himg]; exact builder_image_root stack size_kib ic t_sb t_root flags hv
  obtain ⟨q1, q2, q3⟩ := insert_all_root reqs img out hl hr (by rw [f3, f19]) (by rw [f2, f19])
    h1
  rw [f19] at q3
  refine ⟨by rw [q1, q3], by rw [q2, q3], q3, ?_⟩
  intro input file filename now hli hri hx
  obtain ⟨p1, p2, p3, p4, p5, p6⟩ := adder_root_step input file filename now hli hri hx
  have hld : ∀ off w, off + w ≤ 120 →
      (∀ x, off ≤ x → x < off + w → (x < 2 ∨ (4 ≤ x ∧ x < 12) ∨ (20 ≤ x ∧ x < 28) ∨ 44 ≤ x)) →
      load (adder_main input file filename now).image_data
          (sb_inode_table_start input.data * BS + off) w
        = load input.data (sb_inode_table_start input.data * BS + off) w := by
    intro off w hw hok
    apply load_congr
    intro i hi
    rw [Nat.add_assoc]
    exact p5 (off + i) (by omega) (hok (off + i) (by omega) (by omega))
  refine ⟨p1, fun hlt => ?_, p2, fun hlt => ?_, fun hnow => ?_, ?_, ?_, ?_, ?_, ?_, p5, p6⟩
  · rw [p1]; exact Nat.mod_eq_of_lt hlt
  · rw [p2]; exact Nat.mod_eq_of_lt hlt
  · exact ⟨by rw [p3]; exact Nat.mod_eq_of_lt hnow, by rw [p4]; exact Nat.mod_eq_of_lt hnow⟩
  · exact hld 0 2 (by omega) (fun x h1 h2 => by omega)
  · exact hld 4 4 (by omega) (fun x h1 h2 => by omega)
  · exact hld 8 4 (by omega) (fun x h1 h2 => by omega)
  · exact hld 20 8 (by omega) (fun x h1 h2 => by omega)
  · intro i hi
    rw [Nat.add_assoc]
    exact hld (44 + 4 * i) 4 (by omega) (fun x h1 h2 => by omega)

/-- C14 on Scenarios A and B: after one insertion into the fresh image the root inode has
size 192 and 3 links, and the step applies to the fresh image itself. -/
theorem root_inode_after_insertions_witness :
    builder_main (fun _ => 0) 180 128 1000 1000 7 = (0, some scenario_image)
    ∧ insert_all scenario_image [(scenario_file, [104, 105], 2000)]
        = some ⟨scenario_image.size, main_link scenario_image scenario_file [104, 105] 2000⟩
    ∧ load (main_link scenario_image scenario_file [104, 105] 2000)
        (sb_inode_table_start (main_link scenario_image scenario_file [104, 105] 2000) * BS + 12)
        8 = 64 * (2 + 1)
    ∧ load (main_link scenario_image scenario_file [104, 105] 2000)
        (sb_inode_table_start (main_link scenario_image scenario_file [104, 105] 2000) * BS + 2)
        2 = 2 + 1
    ∧ LayoutOk scenario_image ∧ RootAllocated scenario_image
    ∧ (adder_main scenario_image scenario_file [104, 105] 2000).exit_code = 0
    ∧ load (adder_main scenario_image scenario_file [104, 105] 2000).image_data
        (sb_inode_table_start scenario_image.data * BS + 28) 8 = 2000 :=
  have hw := root_inode_after_insertions (fun _ => 0) 180 128 1000 1000 7 scenario_image
    ⟨scenario_image.size, main_link scenario_image scenario_file [104, 105] 2000⟩
    [(scenario_file, [104, 105], 2000)] rfl rfl
  ⟨rfl, rfl, hw.1, hw.2.1, by decide, by decide, by decide,
    ((hw.2.2.2 scenario_image scenario_file [104, 105] 2000 (by decide) (by decide)
      (by decide)).2.2.2.2.1 (by decide)).1⟩

/-! ### The adder: which check a run stops at -/

/-- A clear bit below `inode_count` makes the inode search succeed. -/
theorem main_free_inode_found (input : File) (hl : LayoutOk input)
    (hino : ∃ k, k < sb_inode_count input.data
      ∧ bitClear input.data (sb_inode_bitmap_start input.data * BS) k) :
    0 ≤ main_free_inode input := by
  obtain ⟨hic, _, _, _, _, _, _, _⟩ := hl
  obtain ⟨_, e1, e2, _, _, _, _⟩ := main_superblock_fields input
  have hmax : sb_inode_count input.data < 2 ^ 31 := by
    unfold BS at hic; omega
  have hcases := find_free_bit_cases input.data (sb_inode_bitmap_start input.data * BS)
    (sb_inode_count input.data) hmax
  have hfi' : main_free_inode input
      = find_free_bit input.data (sb_inode_bitmap_start input.data * BS)
          (sb_inode_count input.data) := by
    unfold main_free_inode; rw [e1, e2]
  rw [← hfi'] at hcases
  rcases hcases with ⟨_, hnone⟩ | ⟨f, hf, _, _, _⟩
  · obtain ⟨k, hk1, hk2⟩ := hino
    exact absurd hk2 (hnone k hk1)
  · rw [hf]; omega

/-- The block scan finds as many blocks as are needed, or all the clear bits below
`data_region_blocks` when there are fewer. -/
theorem main_free_blocks_length (input file : File) :
    (main_free_blocks input file).length
      = min (blocks_needed_for_file file.size)
          ((List.range (sb_data_region_blocks input.data)).filter
            (fun k => decide (bitClear input.data (sb_data_bitmap_start input.data * BS) k))).length
      := by
  obtain ⟨_, _, _, e3, _, e5, e6⟩ := main_superblock_fields input
  unfold main_free_blocks
  rw [e3, e5, e6, scan_free_blocks_lowest, List.length_map]
  unfold lowest_clear
  rw [List.length_take]

/-- The root directory scan reads the input's root directory block: it finds a slot when
the input has a free one, and none when the input has none. -/
theorem main_free_entry_cases (input file : File) (now : Nat) (hl : LayoutOk input)
    (hr : RootAllocated input) (hN : blocks_needed_for_file file.size ≤ 12)
    (hfi : 0 ≤ main_free_inode input)
    (hfb : blocks_needed_for_file file.size ≤ (main_free_blocks input file).length) :
    ((∃ e, e < 64 ∧ load input.data (sb_data_region_start input.data * BS + e * 64) 4 = 0) →
      0 ≤ main_free_entry input file now)
    ∧ ((∀ s, s < 64 → load input.data (sb_data_region_start input.data * BS + s * 64) 4 ≠ 0) →
      main_free_entry input file now < 0) := by
  obtain ⟨_, _, _, _, _, e5, _⟩ := main_superblock_fields input
  have hroot := main_alloc_root_block input file now hl hr hN hfi hfb
  have hes := find_free_entry_spec (main_alloc input file now)
    (sb_data_region_start (main_superblock input) * BS) (BS / 64) 0
  have hfe' : main_free_entry input file now
      = find_free_entry (main_alloc input file now)
          (sb_data_region_start (main_superblock input) * BS) (BS / 64) 0 := rfl
  rw [← hfe', e5] at hes
  have h64 : BS / 64 = 64 := rfl
  have hin : ∀ j, j < 64 → load (main_alloc input file now)
      (sb_data_region_start input.data * BS + j * 64) 4
      = load input.data (sb_data_region_start input.data * BS + j * 64) 4 := by
    intro j hj
    apply load_eq_of_agree
    intro a ha1 ha2
    simp only [BS] at ha1 ha2
    exact hroot a (by omega) (by omega)
  constructor
  · rintro ⟨e, he1, he2⟩
    rcases hes with ⟨_, hnz⟩ | ⟨e', he', _, _, _, _⟩
    · exact absurd (by rw [hin e he1]; exact he2) (hnz e (Nat.zero_le _) (by omega))
    · rw [he']; omega
  · intro hfull
    rcases hes with ⟨hneg, _⟩ | ⟨e', _, _, hlt, hz, _⟩
    · rw [hneg]; omega
    · rw [hin e' (by omega)] at hz
      exact absurd hz (hfull e' (by omega))

/-- Sufficient conditions for a run to succeed on a well laid out image whose root is
allocated: the file fits 12 blocks, the magic number is right, there is a free inode, there
are enough free data blocks, the root directory has a free slot, the name fits. -/
theorem adder_main_succeeds (input file : File) (filename : List Nat) (now : Nat)
    (hl : LayoutOk input) (hr : RootAllocated input)
    (hN : blocks_needed_for_file file.size ≤ 12)
    (hmagic : sb_magic input.data = MAGIC)
    (hino : ∃ k, k < sb_inode_count input.data
      ∧ bitClear input.data (sb_inode_bitmap_start input.data * BS) k)
    (hblk : blocks_needed_for_file file.size
      ≤ ((List.range (sb_data_region_blocks input.data)).filter
          (fun k => decide (bitClear input.data (sb_data_bitmap_start input.data * BS) k))).length)
    (hslot : ∃ e, e < 64
      ∧ load input.data (sb_data_region_start input.data * BS + e * 64) 4 = 0)
    (hname : strlen filename < 58) :
    (adder_main input file filename now).exit_code = 0 := by
  have hfi := main_free_inode_found input hl hino
  have hfb : blocks_needed_for_file file.size ≤ (main_free_blocks input file).length := by
    rw [main_free_blocks_length]; omega
  have hfe := (main_free_entry_cases input file now hl hr hN hfi hfb).1 hslot
  obtain ⟨e0, _, _, _, _, _, _⟩ := main_superblock_fields input
  have hsize : 116 ≤ input.size := by
    obtain ⟨hic, hdrb, l1, l2, l3, l4, l5, l6⟩ := hl
    simp only [BS, INODE_SIZE] at *
    omega
  have hN' : ¬ blocks_needed_for_file file.size > DIRECT_MAX := by
    unfold DIRECT_MAX; omega
  have hm' : ¬ sb_magic (main_superblock input) ≠ MAGIC := by
    rw [e0]; exact not_not.2 hmagic
  unfold adder_main
  rw [if_neg hN', if_neg (not_lt.2 hsize), if_neg hm', if_neg (not_lt.2 hfi),
    if_neg (not_lt.2 hfb), if_neg (not_lt.2 hfe), if_neg (not_le.2 hname)]

/-- The direct pointers of the new inode after a successful run: the blocks found, as
absolute block numbers. -/
theorem adder_direct_pointers (input file : File) (filename : List Nat) (now : Nat)
    (hl : LayoutOk input) (hr : RootAllocated input)
    (h : (adder_main input file filename now).exit_code = 0) :
    ∃ f : Nat, main_free_inode input = (f : Int)
      ∧ ∀ i, i < blocks_needed_for_file file.size →
          load (adder_main input file filename now).image_data
            (sb_inode_table_start input.data * BS + f * INODE_SIZE + 44 + 4 * i) 4
          = sb_data_region_start input.data
            + (lowest_clear input.data (sb_data_bitmap_start input.data * BS)
                (sb_data_region_blocks input.data)
                (blocks_needed_for_file file.size)).getD i 0
          ∧ sb_data_region_start input.data
            + (lowest_clear input.data (sb_data_bitmap_start input.data * BS)
                (sb_data_region_blocks input.data)
                (blocks_needed_for_file file.size)).getD i 0 ≠ 0 := by
  obtain ⟨f, e, hf, hflt, hfc, hfmin, he, helt, hfb, hlclen, hfblen, hN, hs⟩ :=
    main_facts input file filename now hl h
  have hf0 : f ≠ 0 := by
    intro h0; subst h0; exact hr.1 hfc
  have hl' := hl
  obtain ⟨hic, hdrb, l1, l2, l3, l4, l5, l6⟩ := hl
  have hidx := main_block_index input file (sb_data_region_start input.data)
    (sb_data_region_blocks input.data) _ hfb
    (fun x hx => (lowest_clear_mem _ _ _ _ x hx).1) hdrb l6
  rw [hlclen] at hidx
  obtain ⟨_, _, _, _, _, b5, _⟩ := build_inode_fields input.data
    (sb_inode_table_start input.data * BS + f * INODE_SIZE) file.size now
    (main_free_blocks input file) (by omega)
  rw [hfblen] at b5
  have hrec := new_inode_bytes_kept input file filename now f hl' h hf hf0
  refine ⟨f, hf, fun i hi => ?_⟩
  have hload : load (adder_main input file filename now).image_data
        (sb_inode_table_start input.data * BS + f * INODE_SIZE + 44 + 4 * i) 4
      = load (build_inode input.data (sb_inode_table_start input.data * BS + f * INODE_SIZE)
          file.size now (main_free_blocks input file))
          (sb_inode_table_start input.data * BS + f * INODE_SIZE + 44 + 4 * i) 4 :=
    load_eq_of_agree _ _ _ _ (fun a h3 h4 => hrec a (by omega) (by omega))
  have hlt := (hidx i hi).2.1
  constructor
  · rw [hload, b5 i hi, (hidx i hi).2.2.2.2]
    exact Nat.mod_eq_of_lt (by omega)
  · simp only [BS, INODE_SIZE] at *
    omega

/-- The first check of `main` is the only one that reports a file as too large. -/
theorem adder_message_file_too_large (input file : File) (filename : List Nat) (now : Nat) :
    (adder_main input file filename now).message = some AdderDiag.file_too_large
      ↔ blocks_needed_for_file file.size > DIRECT_MAX := by
  unfold adder_main
  split_ifs with h1 h2 h3 h4 h5 h6 h7 <;> simp [h1]

/-- C15: the size check of the insertion tool accepts a file of length `L` exactly when
`ceil(L / 4096) ≤ 12`, that is when `L ≤ 12 * 4096 = 49152`; a longer file (so one of
`12 * 4096 + 1` bytes) is rejected with the "File too large" message, exit status 1 and no
output; a file of exactly `12 * 4096` bytes whose name fits is inserted successfully into
every well laid out image with a free inode, a free root slot and at least 12 free data
blocks, and all 12 direct pointers of its inode point to data blocks. -/
theorem size_check_boundary (input file : File) (filename : List Nat) (now : Nat) :
    (blocks_needed_for_file file.size ≤ DIRECT_MAX ↔ file.size ≤ 12 * 4096)
    ∧ ((adder_main input file filename now).message = some AdderDiag.file_too_large
        ↔ 12 * 4096 < file.size)
    ∧ (12 * 4096 < file.size →
        (adder_main input file filename now).exit_code = 1
        ∧ (adder_main input file filename now).output = none)
    ∧ (file.size = 12 * 4096 → LayoutOk input → RootAllocated input →
        sb_magic input.data = MAGIC →
        (∃ k, k < sb_inode_count input.data
          ∧ bitClear input.data (sb_inode_bitmap_start input.data * BS) k) →
        12 ≤ ((List.range (sb_data_region_blocks input.data)).filter
          (fun k => decide (bitClear input.data (sb_data_bitmap_start input.data * BS) k))).length →
        (∃ e, e < 64
          ∧ load input.data (sb_data_region_start input.data * BS + e * 64) 4 = 0) →
        strlen filename < 58 →
        (adder_main input file filename now).exit_code = 0
        ∧ (adder_main input file filename now).output
            = some ⟨input.size, (adder_main input file filename now).image_data⟩
        ∧ ∃ f : Nat, main_free_inode input = (f : Int)
          ∧ ∀ i, i < 12 →
            load (adder_main input file filename now).image_data
              (sb_inode_table_start input.data * BS + f * INODE_SIZE + 44 + 4 * i) 4
            = sb_data_region_start input.data
              + (lowest_clear input.data (sb_data_bitmap_start input.data * BS)
                  (sb_data_region_blocks input.data) 12).getD i 0
            ∧ sb_data_region_start input.data
              + (lowest_clear input.data (sb_data_bitmap_start input.data * BS)
                  (sb_data_region_blocks input.data) 12).getD i 0 ≠ 0) := by
  have hiff : blocks_needed_for_file file.size ≤ DIRECT_MAX ↔ file.size ≤ 12 * 4096 := by
    unfold blocks_needed_for_file DIRECT_MAX BS
    by_cases h0 : file.size ≤ 0
    · rw [if_pos h0]; omega
    · rw [if_neg h0]; omega
  have hmsg := adder_message_file_too_large input file filename now
  refine ⟨hiff, ?_, ?_, ?_⟩
  · rw [hmsg]
    constructor
    · intro h
      by_contra hle
      exact absurd (hiff.2 (by omega)) (by omega)
    · intro h
      by_contra hle
      exact absurd (hiff.1 (by omega)) (by omega)
  · intro hbig
    have hgt : blocks_needed_for_file file.size > DIRECT_MAX := by
      by_contra hle
      exact absurd (hiff.1 (by omega)) (by omega)
    unfold adder_main
    rw [if_pos hgt]
    exact ⟨rfl, rfl⟩
  · intro hsz hl hr hmagic hino hblk hslot hname
    have hN12 : blocks_needed_for_file file.size = 12 := by
      unfold blocks_needed_for_file BS
      rw [hsz]
      rfl
    have hx := adder_main_succeeds input file filename now hl hr (by omega) hmagic hino
      (by rw [hN12]; exact hblk) hslot hname
    obtain ⟨_, _, _, _, _, _, _, himg, _, hout⟩ := adder_main_success input file filename now hx
    obtain ⟨f, hf, hdir⟩ := adder_direct_pointers input file filename now hl hr hx
    rw [hN12] at hdir
    exact ⟨hx, by rw [hout, himg], f, hf, hdir⟩

/-- C15 on Scenario A: the fresh image takes the 49,152-byte file and refuses one of
49,153 bytes. -/
theorem size_check_boundary_witness :
    boundary_file.size = 12 * 4096
    ∧ LayoutOk scenario_image ∧ RootAllocated scenario_image
    ∧ (adder_main scenario_image boundary_file [104, 105] 2000).exit_code = 0
    ∧ (adder_main scenario_image ⟨12 * 4096 + 1, fun _ => 1⟩ [104, 105] 2000).exit_code = 1
    ∧ (adder_main scenario_image ⟨12 * 4096 + 1, fun _ => 1⟩ [104, 105] 2000).output = none
    ∧ (adder_main scenario_image ⟨12 * 4096 + 1, fun _ => 1⟩ [104, 105] 2000).message
        = some AdderDiag.file_too_large :=
  ⟨rfl, by decide, by decide,
    ((size_check_boundary scenario_image boundary_file [104, 105] 2000).2.2.2 rfl (by decide)
      (by decide) (by decide) ⟨1, by decide, by decide⟩ (by decide) ⟨2, by decide, by decide⟩
      (by decide)).1,
    ((size_check_boundary scenario_image ⟨12 * 4096 + 1, fun _ => 1⟩ [104, 105] 2000).2.2.1
      (by decide)).1,
    ((size_check_boundary scenario_image ⟨12 * 4096 + 1, fun _ => 1⟩ [104, 105] 2000).2.2.1
      (by decide)).2,
    (size_check_boundary scenario_image ⟨12 * 4096 + 1, fun _ => 1⟩ [104, 105] 2000).2.1.2
      (by decide)⟩

/-! ### The adder on a full root directory -/

/-- C16: on every well laid out image whose root is allocated and in which all 64 slots of
the first data-region block have a non-zero `inode_no`, the insertion of any file exits
with status 1 and writes no output image; whenever the earlier checks pass (the file fits
12 blocks, the magic number is right, a free inode and enough free data blocks exist) the
message is "Root directory is full". -/
theorem root_directory_full_rejected (input file : File) (filename : List Nat) (now : Nat)
    (hl : LayoutOk input) (hr : RootAllocated input)
    (hfull : ∀ s, s < 64 →
      load input.data (sb_data_region_start input.data * BS + s * 64) 4 ≠ 0) :
    (adder_main input file filename now).exit_code = 1
    ∧ (adder_main input file filename now).output = none
    ∧ (blocks_needed_for_file file.size ≤ DIRECT_MAX → sb_magic input.data = MAGIC →
        (∃ k, k < sb_inode_count input.data
          ∧ bitClear input.data (sb_inode_bitmap_start input.data * BS) k) →
        blocks_needed_for_file file.size
          ≤ ((List.range (sb_data_region_blocks input.data)).filter
              (fun k => decide
                (bitClear input.data (sb_data_bitmap_start input.data * BS) k))).length →
        (adder_main input file filename now).message = some AdderDiag.root_directory_full) := by
  have hfail : (adder_main input file filename now).exit_code ≠ 0 := by
    intro h0
    obtain ⟨hN, _, _, hfi, hfb, hfe, _, _, _, _⟩ := adder_main_success input file filename now h0
    have := (main_free_entry_cases input file now hl hr (by unfold DIRECT_MAX at hN; omega)
      hfi hfb).2 hfull
    omega
  obtain ⟨hx1, hx2⟩ := adder_main_failure input file filename now hfail
  refine ⟨hx1, hx2, ?_⟩
  intro hN hmagic hino hblk
  have hN12 : blocks_needed_for_file file.size ≤ 12 := by unfold DIRECT_MAX at hN; omega
  have hfi := main_free_inode_found input hl hino
  have hfb : blocks_needed_for_file file.size ≤ (main_free_blocks input file).length := by
    rw [main_free_blocks_length]; omega
  have hfe := (main_free_entry_cases input file now hl hr hN12 hfi hfb).2 hfull
  obtain ⟨e0, _, _, _, _, _, _⟩ := main_superblock_fields input
  have hsize : 116 ≤ input.size := by
    obtain ⟨hic, hdrb, l1, l2, l3, l4, l5, l6⟩ := hl
    simp only [BS, INODE_SIZE] at *
    omega
  have hm' : ¬ sb_magic (main_superblock input) ≠ MAGIC := by
    rw [e0]; exact not_not.2 hmagic
  unfold adder_main
  rw [if_neg (not_lt.2 hN), if_neg (not_lt.2 hsize), if_neg hm', if_neg (not_lt.2 hfi),
    if_neg (not_lt.2 hfb), if_pos hfe]

/-- C16 on Scenario A's image with all 64 root slots in use: the 10,000-byte file is
refused although 127 inodes and 37 data blocks are free. -/
theorem root_directory_full_rejected_witness :
    LayoutOk full_directory_image ∧ RootAllocated full_directory_image
    ∧ (∀ s, s < 64 → load full_directory_image.data
        (sb_data_region_start full_directory_image.data * BS + s * 64) 4 ≠ 0)
    ∧ (adder_main full_directory_image scenario_file [104, 105] 2000).exit_code = 1
    ∧ (adder_main full_directory_image scenario_file [104, 105] 2000).output = none
    ∧ (adder_main full_directory_image scenario_file [104, 105] 2000).message
        = some AdderDiag.root_directory_full :=
  have hw := root_directory_full_rejected full_directory_image scenario_file [104, 105] 2000
    (by decide) (by decide) (by decide)
  ⟨by decide, by decide, by decide, hw.1, hw.2.1,
    hw.2.2 (by decide) (by decide) ⟨1, by decide, by decide⟩ (by decide)⟩

/-! ### The builder's data-region check -/

theorem parse_args_diag_none_iff (size_kib ic : Nat) :
    parse_args_diag size_kib ic = none ↔ parse_args_ok size_kib ic = true := by
  rw [parse_args_ok_iff]
  unfold parse_args_diag
  split_ifs with h1 h2 h3 <;> simp <;> omega

/-- C17, counterexample: with `size_kib = 8` and 128 inodes the layout computation has
`total_blocks = 2 ≤ 3 + inode_table_blocks = 7`, yet the 64-bit subtraction wraps to
`2^64 - 5`, so the check `data_region_blocks < 1` does not fire; and the builder run on
these parameters stops in `parse_args` with the size range message, not with "Not enough
space for data region". -/
theorem layout_check_misses_wrapped_difference :
    layout_total_blocks 8 = 2 ∧ layout_inode_table_blocks 128 = 4
    ∧ layout_total_blocks 8 ≤ 3 + layout_inode_table_blocks 128
    ∧ layout_data_region_blocks 8 128 = 2 ^ 64 - 5
    ∧ ¬ (layout_data_region_blocks 8 128 < 1)
    ∧ builder_main_diag 8 128 = some BuilderDiag.size_kib_out_of_range
    ∧ builder_main_diag 8 128 ≠ some BuilderDiag.not_enough_space_for_data_region := by
  refine ⟨by decide, by decide, by decide, by decide, by decide, by decide, by decide⟩

/-- C17, amended: parameters with `total_blocks ≤ 3 + inode_table_blocks` are outside the
ranges `parse_args` accepts, so the builder exits with status 1, writes no image and
reports one of the three range messages; for accepted parameters `total_blocks ≥ 45` and
`3 + inode_table_blocks ≤ 19`, so at least 26 data-region blocks remain, the data-region
check does not fire and the image is written; and in the computation taken alone
`total_blocks = 3 + inode_table_blocks` gives `data_region_blocks = 0`, the value on which
the check reports "Not enough space for data region". -/
theorem layout_rejected_before_check (stack : Mem) (size_kib ic t_sb t_root flags : Nat) :
    (layout_total_blocks size_kib ≤ 3 + layout_inode_table_blocks ic →
      parse_args_ok size_kib ic = false
      ∧ builder_main stack size_kib ic t_sb t_root flags = (1, none)
      ∧ (builder_main_diag size_kib ic = some BuilderDiag.size_kib_out_of_range
        ∨ builder_main_diag size_kib ic = some BuilderDiag.size_kib_not_multiple_of_4
        ∨ builder_main_diag size_kib ic = some BuilderDiag.inodes_out_of_range))
    ∧ (parse_args_ok size_kib ic = true →
      45 ≤ layout_total_blocks size_kib
      ∧ 3 + layout_inode_table_blocks ic ≤ 19
      ∧ 26 ≤ layout_data_region_blocks size_kib ic
      ∧ builder_main_diag size_kib ic = none
      ∧ builder_main stack size_kib ic t_sb t_root flags
          = (0, some (builder_image stack size_kib ic t_sb t_root flags)))
    ∧ (layout_total_blocks size_kib = 3 + layout_inode_table_blocks ic →
      layout_data_region_blocks size_kib ic = 0
      ∧ layout_data_region_blocks size_kib ic < 1) := by
  have hvalid : parse_args_ok size_kib ic = true →
      45 ≤ layout_total_blocks size_kib ∧ 3 + layout_inode_table_blocks ic ≤ 19
      ∧ 26 ≤ layout_data_region_blocks size_kib ic := by
    intro hp
    have hv := (parse_args_ok_iff size_kib ic).1 hp
    obtain ⟨e1, e2, e3, e4, b1, b2, b3⟩ := layout_of_valid size_kib ic hv
    exact ⟨by rw [e1]; omega, by omega, b3⟩
  refine ⟨?_, ?_, ?_⟩
  · intro h
    have hp : parse_args_ok size_kib ic = false := by
      cases hpb : parse_args_ok size_kib ic with
      | false => rfl
      | true =>
        obtain ⟨a1, a2, _⟩ := hvalid hpb
        omega
    have hd : parse_args_diag size_kib ic ≠ none := by
      intro hn
      rw [(parse_args_diag_none_iff size_kib ic).1 hn] at hp
      exact absurd hp (by decide)
    refine ⟨hp, ?_, ?_⟩
    · unfold builder_main
      rw [if_pos hp]
    · unfold builder_main_diag
      rw [if_pos hp]
      unfold parse_args_diag at hd ⊢
      split_ifs at hd ⊢ with h1 h2 h3
      · exact Or.inl rfl
      · exact Or.inr (Or.inl rfl)
      · exact Or.inr (Or.inr rfl)
      · exact absurd rfl hd
  · intro hp
    obtain ⟨a1, a2, a3⟩ := hvalid hp
    refine ⟨a1, a2, a3, ?_, ?_⟩
    · unfold builder_main_diag
      rw [if_neg (by rw [hp]; decide), if_neg (by omega)]
    · exact builder_main_of_valid stack size_kib ic t_sb t_root flags
        ((parse_args_ok_iff size_kib ic).1 hp)
  · intro h
    have hlt : layout_inode_table_blocks ic < 2 ^ 52 := by
      unfold layout_inode_table_blocks BS
      omega
    have h0 : layout_data_region_blocks size_kib ic = 0 := by
      have h3 : 3 + layout_inode_table_blocks ic < 2 ^ 64 := by omega
      unfold layout_data_region_blocks layout_data_region_start
      rw [h, Nat.mod_eq_of_lt h3]
      omega
    exact ⟨h0, by omega⟩

/-- C17 amended, on concrete parameters: 8 KiB with 128 inodes is rejected by
`parse_args`; 180 KiB with 128 inodes leaves 38 data blocks; 28 KiB with 128 inodes has
`total_blocks = 7 = 3 + 4`, on which the check fires. -/
theorem layout_rejected_before_check_witness :
    layout_total_blocks 8 ≤ 3 + layout_inode_table_blocks 128
    ∧ builder_main (fun _ => 0) 8 128 1000 1000 7 = (1, none)
    ∧ parse_args_ok 180 128 = true
    ∧ 26 ≤ layout_data_region_blocks 180 128
    ∧ builder_main_diag 180 128 = none
    ∧ layout_total_blocks 28 = 3 + layout_inode_table_blocks 128
    ∧ layout_data_region_blocks 28 128 < 1 :=
  ⟨by decide,
    ((layout_rejected_before_check (fun _ => 0) 8 128 1000 1000 7).1 (by decide)).2.1,
    by decide,
    ((layout_rejected_before_check (fun _ => 0) 180 128 1000 1000 7).2.1 (by decide)).2.2.1,
    ((layout_rejected_before_check (fun _ => 0) 180 128 1000 1000 7).2.1 (by decide)).2.2.2.1,
    by decide,
    ((layout_rejected_before_check (fun _ => 0) 28 128 1000 1000 7).2.2 (by decide)).2⟩

/-! ### The bytes of a fresh image -/

/-- C18: for every validated `size_kib` and inode count the builder writes an image of
exactly `size_kib * 1024` bytes, laid out in block order: the 116-byte superblock record at
offset 0, the inode bitmap in block 1 and the data bitmap in block 2, each with first byte
0x01, the inode table from block 3 with the 128-byte root inode record first, the data
region from block `3 + inode_table_blocks` to the end of the image with the two 64-byte
directory entries first; every other byte of the image is zero. -/
theorem builder_image_contents (stack : Mem) (size_kib ic t_sb t_root flags : Nat)
    (h1 : 180 ≤ size_kib) (h2 : size_kib ≤ 4096) (h3 : size_kib % 4 = 0)
    (h4 : 128 ≤ ic) (h5 : ic ≤ 512) :
    ∃ img : File, builder_main stack size_kib ic t_sb t_root flags = (0, some img)
      ∧ img.size = size_kib * 1024
      ∧ sb_inode_bitmap_start img.data = 1 ∧ sb_data_bitmap_start img.data = 2
      ∧ sb_inode_table_start img.data = 3
      ∧ sb_data_region_start img.data = 3 + sb_inode_table_blocks img.data
      ∧ (sb_data_region_start img.data + sb_data_region_blocks img.data) * BS = img.size
      ∧ (∀ a, a < 116 → img.data a
          = superblock_crc_finalize (create_superblock stack 0 size_kib ic t_sb flags) 0 a)
      ∧ img.data (sb_inode_bitmap_start img.data * BS) = 0x01
      ∧ img.data (sb_data_bitmap_start img.data * BS) = 0x01
      ∧ (∀ x, x < 128 → img.data (sb_inode_table_start img.data * BS + x)
          = inode_crc_finalize
              (create_root_inode (fun _ => 0) 0 (sb_data_region_start img.data) t_root) 0 x)
      ∧ (∀ x, x < 128 → img.data (sb_data_region_start img.data * BS + x)
          = create_root_directory_entries (fun _ => 0) 0 x)
      ∧ (∀ a, a < img.size → 116 ≤ a → a ≠ sb_inode_bitmap_start img.data * BS →
          a ≠ sb_data_bitmap_start img.data * BS →
          ¬ (sb_inode_table_start img.data * BS ≤ a
            ∧ a < sb_inode_table_start img.data * BS + 128) →
          ¬ (sb_data_region_start img.data * BS ≤ a
            ∧ a < sb_data_region_start img.data * BS + 128) →
          img.data a = 0) := by
  have hv : 180 ≤ size_kib ∧ size_kib ≤ 4096 ∧ size_kib % 4 = 0 ∧ 128 ≤ ic ∧ ic ≤ 512 :=
    ⟨h1, h2, h3, h4, h5⟩
  refine ⟨builder_image stack size_kib ic t_sb t_root flags,
    builder_main_of_valid stack size_kib ic t_sb t_root flags hv, ?_⟩
  obtain ⟨e1, e2, e3, e4, b1, b2, b3⟩ := layout_of_valid size_kib ic hv
  obtain ⟨_, g1, _, g3, g4, g5, g6, g7, g8, g9⟩ :=
    builder_image_fields stack size_kib ic t_sb t_root flags hv
  obtain ⟨hino, hent⟩ := builder_image_root_bytes stack size_kib ic t_sb t_root flags hv
  have hbytes := (builder_image_bytes stack size_kib ic t_sb t_root flags).2
  rw [g3, g4, g5, g6, g7, g8, g9]
  rw [e2, e4] at hbytes
  rw [e2] at b1 b2
  rw [e4] at b3
  generalize inode_crc_finalize
    (create_root_inode (fun _ => 0) 0 (layout_data_region_start ic) t_root) 0 = RI0 at hbytes
  generalize (builder_image stack size_kib ic t_sb t_root flags).data = D at hino hent hbytes ⊢
  generalize (ic * 128 + 4095) / 4096 = itb at *
  have hBS : BS = 4096 := rfl
  rw [hBS] at hbytes ⊢
  refine ⟨rfl, rfl, rfl, rfl, rfl, by omega, ?_, ?_, ?_, hino, ?_, ?_⟩
  · intro a ha
    rw [(hbytes a).1 (by omega), if_pos ha]
  · have hb : D (1 * 4096) = if 1 * 4096 = 4096 then 1 else 0 :=
      (hbytes (1 * 4096)).2.1 (by omega) (by omega)
    rw [hb, if_pos (by omega)]
  · have hb : D (2 * 4096) = if 2 * 4096 = 2 * 4096 then 1 else 0 :=
      (hbytes (2 * 4096)).2.2.1 (by omega) (by omega)
    rw [hb, if_pos rfl]
  · intro x hx
    rw [hent x (by omega), if_pos hx]
  · intro a ha h116 hn1 hn2 hn3 hn4
    by_cases c0 : a < 4096
    · rw [(hbytes a).1 c0, if_neg (by omega)]
    by_cases c1 : a < 2 * 4096
    · rw [(hbytes a).2.1 (by omega) c1, if_neg (by omega)]
    by_cases c2 : a < 3 * 4096
    · rw [(hbytes a).2.2.1 (by omega) c2, if_neg (by omega)]
    by_cases c3 : a < 3 * 4096 + itb * 4096
    · rw [(hbytes a).2.2.2.1 (by omega) c3, if_neg (by omega)]
    · rw [(hbytes a).2.2.2.2 (by omega) (by omega), if_neg (by omega)]

/-- C18 on Scenario A: 180 KiB and 128 inodes give an image of 184,320 bytes with the data
region in blocks 7..44. -/
theorem builder_image_contents_witness :
    ∃ img : File, builder_main (fun _ => 0) 180 128 1000 1000 7 = (0, some img)
      ∧ img.size = 184320
      ∧ sb_data_region_start img.data = 7
      ∧ img.data 4096 = 1 ∧ img.data 8192 = 1
      ∧ img.data 116 = 0 ∧ img.data 184319 = 0 :=
  match builder_image_contents (fun _ => 0) 180 128 1000 1000 7 (by decide) (by decide)
    (by decide) (by decide) (by decide) with
  | ⟨img, hm, a1, a2, a3, a4, a5, a6, _, a8, a9, _, _, a12⟩ =>
    have hitb : sb_inode_table_blocks img.data = 4 := by
      have := (builder_image_fields (fun _ => 0) 180 128 1000 1000 7 (by decide)).2.2.2.2.2.2.1
      have himg := (builder_main_ok _ _ _ _ _ _ _ hm).2
      rw [himg]; exact this
    have hdrs : sb_data_region_start img.data = 7 := by rw [a5, hitb]
    ⟨img, hm, a1, hdrs,
      by rw [a2] at a8; exact a8,
      by rw [a3] at a9; exact a9,
      a12 116 (by rw [a1]; decide) (by decide) (by rw [a2]; decide) (by rw [a3]; decide)
        (by rw [a4]; decide) (by rw [hdrs]; decide),
      a12 184319 (by rw [a1]; decide) (by decide) (by rw [a2]; decide) (by rw [a3]; decide)
        (by rw [a4]; decide) (by rw [hdrs]; decide)⟩

/-! ### Finalizing twice -/

/-- A second assignment to a field replaces the first. -/
theorem store_store_same (m : Mem) (p w v v' : Nat) :
    store (store m p w v) p w v' = store m p w v' := by
  funext a
  unfold store
  by_cases h : p ≤ a ∧ a < p + w
  · rw [if_pos h, if_pos h]
  · rw [if_neg h, if_neg h, if_neg h]

/-- C19: each of the three finalizers is idempotent: on every memory and at every record
offset, applying `superblock_crc_finalize`, `inode_crc_finalize` or
`dirent_checksum_finalize` twice in a row leaves every byte equal to applying it once; the
stored checksum does not feed into its own recomputation. -/
theorem finalizers_idempotent (m : Mem) (p : Nat) :
    superblock_crc_finalize (superblock_crc_finalize m p) p = superblock_crc_finalize m p
    ∧ inode_crc_finalize (inode_crc_finalize m p) p = inode_crc_finalize m p
    ∧ dirent_checksum_finalize (dirent_checksum_finalize m p) p
        = dirent_checksum_finalize m p := by
  refine ⟨?_, ?_, ?_⟩
  · simp only [superblock_crc_finalize, store_store_same]
  · have hc : crc32 (memset (memcpy (fun _ => 0) 0 (inode_crc_finalize m p) p INODE_SIZE)
          120 0 8) 0 120
        = crc32 (memset (memcpy (fun _ => 0) 0 m p INODE_SIZE) 120 0 8) 0 120 := by
      apply crc32_congr
      intro i hi
      rw [memset_out _ _ _ _ _ (by omega), memset_out _ _ _ _ _ (by omega),
        memcpy_in _ _ _ _ _ _ (by omega) (by unfold INODE_SIZE; omega),
        memcpy_in _ _ _ _ _ _ (by omega) (by unfold INODE_SIZE; omega),
        inode_crc_finalize_out _ _ _ (by omega)]
    have h2 : inode_crc_finalize (inode_crc_finalize m p) p
        = store (inode_crc_finalize m p) (p + 120) 8
            (crc32 (memset (memcpy (fun _ => 0) 0 (inode_crc_finalize m p) p INODE_SIZE)
              120 0 8) 0 120) := rfl
    have h1 : inode_crc_finalize m p
        = store m (p + 120) 8
            (crc32 (memset (memcpy (fun _ => 0) 0 m p INODE_SIZE) 120 0 8) 0 120) := rfl
    rw [h2, hc]
    nth_rewrite 1 [h1]
    rw [store_store_same, ← h1]
  · have hx : dirent_xor (dirent_checksum_finalize m p) p 63 = dirent_xor m p 63 :=
      dirent_xor_congr _ _ p p 63
        (fun i hi => dirent_checksum_finalize_out m p (p + i) (by omega))
    have h2 : dirent_checksum_finalize (dirent_checksum_finalize m p) p
        = store (dirent_checksum_finalize m p) (p + 63) 1
            (dirent_xor (dirent_checksum_finalize m p) p 63) := rfl
    have h1 : dirent_checksum_finalize m p = store m (p + 63) 1 (dirent_xor m p 63) := rfl
    rw [h2, hx]
    nth_rewrite 1 [h1]
    rw [store_store_same, ← h1]

/-! ### The block scan and the allocator used repeatedly -/

/-- In a range whose first element satisfying `p` is `k`, the elements satisfying `p` are
`k` followed by those other than `k`. -/
theorem filter_range_first (p : Nat → Bool) (k : Nat) (hk : p k = true) :
    ∀ len s, s ≤ k → k < s + len → (∀ j, s ≤ j → j < k → p j = false) →
      (List.range' s len).filter p
        = k :: (List.range' s len).filter (fun j => decide (j ≠ k) && p j) := by
  intro len
  induction len with
  | zero => intro s h1 h2 _; omega
  | succ len ih =>
    intro s h1 h2 hlow
    rw [List.range'_succ, List.filter_cons, List.filter_cons]
    by_cases hs : s = k
    · subst hs
      have hrest : List.filter (fun j => !decide (j = s) && p j) (List.range' (s + 1) len)
          = List.filter p (List.range' (s + 1) len) := by
        apply List.filter_congr
        intro x hx
        rw [List.mem_range'_1] at hx
        have : x ≠ s := by omega
        simp [this]
      simp [hk, hrest]
    · have hps : p s = false := hlow s (le_refl _) (by omega)
      simp only [hps, Bool.and_false, Bool.false_eq_true, if_false]
      exact ih (s + 1) (by omega) (by omega) (fun j h3 h4 => hlow j (by omega) h4)

/-- Setting the lowest clear bit removes the head of the list of lowest clear bits. -/
theorem lowest_clear_set_first (m : Mem) (bitmap limit n k : Nat) (hk : k < limit)
    (hc : bitClear m bitmap k) (hmin : ∀ j, j < k → ¬ bitClear m bitmap j) :
    lowest_clear m bitmap limit (n + 1)
      = k :: lowest_clear (set_bit m bitmap (k : Int)) bitmap limit n := by
  unfold lowest_clear
  have h1 := filter_range_first (fun j => decide (bitClear m bitmap j)) k (by simpa using hc)
    limit 0 (Nat.zero_le _) (by omega) (fun j _ hj => by simpa using hmin j hj)
  have h2 : List.filter (fun j => decide (bitClear (set_bit m bitmap (k : Int)) bitmap j))
        (List.range limit)
      = List.filter (fun j => decide (j ≠ k) && decide (bitClear m bitmap j))
          (List.range limit) := by
    apply List.filter_congr
    intro x _
    have := bitClear_set_bit m bitmap k x
    by_cases hx : x = k
    · subst hx
      simp [this]
    · simp [this, hx]
  rw [h2, List.range_eq_range', h1, List.take_succ_cons]

/-- The allocator used repeatedly finds the lowest clear bits in ascending order, and a
round fails exactly when fewer than `n` clear bits lie below the limit. -/
theorem alloc_rounds_lowest (bitmap limit : Nat) (hlim : limit < 2 ^ 31) :
    ∀ (n : Nat) (m : Mem),
      (alloc_rounds m bitmap limit n).1 = lowest_clear m bitmap limit n
      ∧ ((alloc_rounds m bitmap limit n).2 = true
          ↔ (lowest_clear m bitmap limit n).length < n) := by
  intro n
  induction n with
  | zero =>
    intro m
    simp [alloc_rounds, lowest_clear]
  | succ n ih =>
    intro m
    rcases find_free_bit_cases m bitmap limit hlim with ⟨hneg, hnone⟩ | ⟨k, hk, hklt, hkc, hkmin⟩
    · have hnil : lowest_clear m bitmap limit (n + 1) = [] := by
        unfold lowest_clear
        have : List.filter (fun k => decide (bitClear m bitmap k)) (List.range limit) = [] := by
          rw [List.filter_eq_nil_iff]
          intro a ha
          rw [List.mem_range] at ha
          simpa using hnone a ha
        rw [this, List.take_nil]
      simp only [alloc_rounds]
      rw [if_pos (by rw [hneg]; omega), hnil]
      simp
    · have hcons := lowest_clear_set_first m bitmap limit n k hklt hkc hkmin
      obtain ⟨i1, i2⟩ := ih (set_bit m bitmap (k : Int))
      simp only [alloc_rounds]
      rw [if_neg (by rw [hk]; omega), hk, Int.toNat_ofNat, i1, hcons]
      refine ⟨rfl, ?_⟩
      rw [i2, List.length_cons]
      omega

/-- C20: for every bitmap, every limit below 2^31 and every `n` (so every `n ≤ 12`), the
block numbers the single forward scan of `main` collects are `data_region_start` plus the
indices that `n` rounds of `k := find_free_bit(bitmap, limit); set_bit(bitmap, k)` find, in
the same order, and the scan collects fewer than `n` blocks exactly when one of those
`find_free_bit` calls returns not-found. -/
theorem scan_refines_alloc_rounds (m : Mem) (data_bitmap drs limit n : Nat)
    (hlim : limit < 2 ^ 31) :
    scan_free_blocks m data_bitmap drs n limit 0 []
      = (alloc_rounds m data_bitmap limit n).1.map (fun j => (drs + j) % 2 ^ 32)
    ∧ ((scan_free_blocks m data_bitmap drs n limit 0 []).length < n
        ↔ (alloc_rounds m data_bitmap limit n).2 = true) := by
  obtain ⟨h1, h2⟩ := alloc_rounds_lowest data_bitmap limit hlim n m
  have hs := scan_free_blocks_lowest m data_bitmap drs n limit
  constructor
  · rw [hs, h1]
  · rw [hs, List.length_map, h2]

/-- C20 on the data bitmap of Scenario A (bit 0 set, 38 blocks): three rounds and the scan
both give blocks 8, 9, 10, and no round fails. -/
theorem scan_refines_alloc_rounds_witness :
    (38 : Nat) < 2 ^ 31
    ∧ scan_free_blocks scenario_image.data (2 * 4096) 7 3 38 0 [] = [8, 9, 10]
    ∧ (alloc_rounds scenario_image.data (2 * 4096) 38 3).1 = [1, 2, 3]
    ∧ (alloc_rounds scenario_image.data (2 * 4096) 38 3).2 = false
    ∧ (scan_free_blocks scenario_image.data (2 * 4096) 7 3 38 0 []
        = (alloc_rounds scenario_image.data (2 * 4096) 38 3).1.map
            (fun j => (7 + j) % 2 ^ 32)
      ∧ ((scan_free_blocks scenario_image.data (2 * 4096) 7 3 38 0 []).length < 3
        ↔ (alloc_rounds scenario_image.data (2 * 4096) 38 3).2 = true)) :=
  ⟨by decide, by decide, by decide, by decide,
    scan_refines_alloc_rounds scenario_image.data (2 * 4096) 7 38 3 (by decide)⟩

/-! ### The XOR of a finalized directory entry -/

theorem xor_bytes_lt (m : Mem) (p : Nat) :
    ∀ n, (∀ i, i < n → m (p + i) < 256) → xor_bytes m p n < 256 := by
  intro n
  induction n with
  | zero => intro _; simp [xor_bytes]
  | succ n ih =>
    intro h
    simp only [xor_bytes]
    exact Nat.xor_lt_two_pow (n := 8) (ih (fun i hi => h i (by omega))) (h n (by omega))

/-- On bytes the 8-bit accumulator of `dirent_checksum_finalize` is the plain XOR. -/
theorem dirent_xor_eq_xor_bytes (m : Mem) (p : Nat) :
    ∀ n, (∀ i, i < n → m (p + i) < 256) → dirent_xor m p n = xor_bytes m p n := by
  intro n
  induction n with
  | zero => intro _; rfl
  | succ n ih =>
    intro h
    have hlt := xor_bytes_lt m p (n + 1) h
    simp only [xor_bytes] at hlt
    simp only [dirent_xor, xor_bytes]
    rw [ih (fun i hi => h i (by omega))]
    exact Nat.mod_eq_of_lt hlt

theorem xor_bytes_congr (m m' : Mem) (p : Nat) :
    ∀ n, (∀ i, i < n → m (p + i) = m' (p + i)) → xor_bytes m p n = xor_bytes m' p n := by
  intro n
  induction n with
  | zero => intro _; rfl
  | succ n ih =>
    intro h
    simp only [xor_bytes]
    rw [ih (fun i hi => h i (by omega)), h n (by omega)]

/-- C23: for every 64-byte directory entry (63 bytes followed by the checksum byte), after
`dirent_checksum_finalize` the XOR of all 64 bytes of the entry is 0, the first 63 bytes
(and every byte other than the checksum byte) are unchanged by the call, and an entry whose
64 bytes XOR to a non-zero value does not carry a valid checksum: its byte 63 differs from
the XOR of its bytes 0..62 that the finalizer computes. -/
theorem dirent_xor_of_entry_zero (m : Mem) (de : Nat) (hb : ∀ i, i < 63 → m (de + i) < 256) :
    xor_bytes (dirent_checksum_finalize m de) de 64 = 0
    ∧ (∀ i, i < 63 → dirent_checksum_finalize m de (de + i) = m (de + i))
    ∧ (∀ a, a ≠ de + 63 → dirent_checksum_finalize m de a = m a)
    ∧ (xor_bytes m de 64 ≠ 0 → m (de + 63) ≠ dirent_xor m de 63)
    ∧ (m (de + 63) = dirent_xor m de 63 ↔ xor_bytes m de 64 = 0) := by
  have hx := dirent_xor_eq_xor_bytes m de 63 hb
  have hkeep : ∀ i, i < 63 → dirent_checksum_finalize m de (de + i) = m (de + i) :=
    fun i hi => dirent_checksum_finalize_out m de (de + i) (by omega)
  have hiff : m (de + 63) = dirent_xor m de 63 ↔ xor_bytes m de 64 = 0 := by
    have e : xor_bytes m de 64 = xor_bytes m de 63 ^^^ m (de + 63) := rfl
    rw [e, hx, Nat.xor_eq_zero]
    exact eq_comm
  refine ⟨?_, hkeep, fun a ha => dirent_checksum_finalize_out m de a ha, ?_, hiff⟩
  · have e : xor_bytes (dirent_checksum_finalize m de) de 64
        = xor_bytes (dirent_checksum_finalize m de) de 63
          ^^^ dirent_checksum_finalize m de (de + 63) := rfl
    have h63 : xor_bytes (dirent_checksum_finalize m de) de 63 = xor_bytes m de 63 :=
      xor_bytes_congr _ _ de 63 hkeep
    have hv := dirent_checksum_finalize_valid m de
    have hd : dirent_xor (dirent_checksum_finalize m de) de 63 = dirent_xor m de 63 :=
      dirent_xor_congr _ _ de de 63 hkeep
    rw [e, h63, hv, hd, hx]
    exact Nat.xor_self _
  · intro hne heq
    exact hne (hiff.1 heq)

/-- C23 on the entry ".": its first 63 bytes are bytes, and an entry with byte 0 equal to 1
and all other bytes 0 has XOR 1 and no valid checksum. -/
theorem dirent_xor_of_entry_zero_witness :
    (∀ i, i < 63 → create_root_directory_entries (fun _ => 0) 0 (0 + i) < 256)
    ∧ xor_bytes (dirent_checksum_finalize (create_root_directory_entries (fun _ => 0) 0) 0)
        0 64 = 0
    ∧ (∀ i, i < 63 → (fun a => if a = 0 then 1 else 0 : Mem) (0 + i) < 256)
    ∧ xor_bytes (fun a => if a = 0 then 1 else 0) 0 64 ≠ 0
    ∧ (fun a => if a = 0 then 1 else 0 : Mem) (0 + 63)
        ≠ dirent_xor (fun a => if a = 0 then 1 else 0) 0 63 :=
  ⟨by decide,
    (dirent_xor_of_entry_zero (create_root_directory_entries (fun _ => 0) 0) 0
      (by decide)).1,
    by decide, by decide,
    (dirent_xor_of_entry_zero (fun a => if a = 0 then 1 else 0) 0 (by decide)).2.2.2.1
      (by decide)⟩

/-! ### The adder: the frame of a successful run -/

/-- The bytes a successful run on a well laid out image can change, listed finely: the
superblock checksum, the inode-bitmap byte of bit `f`, the data-bitmap bytes of the blocks
found, the slot of the new inode, bytes 2..43 and 120..127 of the root inode, the slot `e`
of the root directory block and the blocks found.  Every other byte is the input's. -/
theorem adder_frame_bytes (input file : File) (filename : List Nat) (now : Nat)
    (hl : LayoutOk input) (h : (adder_main input file filename now).exit_code = 0) :
    ∃ f e : Nat,
      main_free_inode input = (f : Int)
      ∧ f < sb_inode_count input.data
      ∧ bitClear input.data (sb_inode_bitmap_start input.data * BS) f
      ∧ main_free_entry input file now = (e : Int)
      ∧ e < 64
      ∧ ∀ a, (a < 112 ∨ 116 ≤ a) →
          a ≠ sb_inode_bitmap_start input.data * 4096 + f / 8 →
          (∀ j, j < blocks_needed_for_file file.size →
            a ≠ sb_data_bitmap_start input.data * 4096
              + (lowest_clear input.data (sb_data_bitmap_start input.data * BS)
                  (sb_data_region_blocks input.data)
                  (blocks_needed_for_file file.size)).getD j 0 / 8) →
          (a < sb_inode_table_start input.data * 4096 + f * 128
            ∨ sb_inode_table_start input.data * 4096 + f * 128 + 128 ≤ a) →
          (a < sb_inode_table_start input.data * 4096 + 2
            ∨ sb_inode_table_start input.data * 4096 + 44 ≤ a) →
          (a < sb_inode_table_start input.data * 4096 + 120
            ∨ sb_inode_table_start input.data * 4096 + 128 ≤ a) →
          (a < sb_data_region_start input.data * 4096 + e * 64
            ∨ sb_data_region_start input.data * 4096 + e * 64 + 64 ≤ a) →
          (∀ j, j < blocks_needed_for_file file.size →
            a < sb_data_region_start input.data * 4096
                + (lowest_clear input.data (sb_data_bitmap_start input.data * BS)
                    (sb_data_region_blocks input.data)
                    (blocks_needed_for_file file.size)).getD j 0 * 4096
            ∨ sb_data_region_start input.data * 4096
                + (lowest_clear input.data (sb_data_bitmap_start input.data * BS)
                    (sb_data_region_blocks input.data)
                    (blocks_needed_for_file file.size)).getD j 0 * 4096 + 4096 ≤ a) →
          (adder_main input file filename now).image_data a = input.data a := by
  obtain ⟨f, e, hf, hflt, hfc, hfmin, he, helt, hfb, hlclen, hfblen, hN, hs⟩ :=
    main_facts input file filename now hl h
  obtain ⟨_, _, _, _, _, _, _, himg, _, _⟩ := adder_main_success input file filename now h
  have hregions := main_alloc_regions input file now f hl hf hflt hfb hlclen hN
  obtain ⟨hic, hdrb, l1, l2, l3, l4, l5, l6⟩ := hl
  have hidx := main_block_index input file (sb_data_region_start input.data)
    (sb_data_region_blocks input.data) _ hfb
    (fun x hx => (lowest_clear_mem _ _ _ _ x hx).1) hdrb l6
  rw [hlclen] at hidx
  obtain ⟨hL1, _⟩ := blocks_needed_bounds file.size
  refine ⟨f, e, hf, hflt, hfc, he, helt, ?_⟩
  intro a h1 h2 h3 h4 h5 h6 h7 h8
  generalize hlc : lowest_clear input.data (sb_data_bitmap_start input.data * BS)
    (sb_data_region_blocks input.data) (blocks_needed_for_file file.size) = lc at *
  have hlink := main_link_out input file filename now f e a hf he hs h1 h7 h5 h6
    (by omega)
  rw [himg, hlink]
  simp only [BS, INODE_SIZE] at *
  by_cases c1 : a < sb_inode_bitmap_start input.data * 4096
  · exact (hregions a).1 c1
  by_cases c2 : a < sb_data_bitmap_start input.data * 4096
  · rw [(hregions a).2.1 (by omega) c2]
    exact set_bit_out _ _ _ _ h2
  by_cases c3 : a < sb_inode_table_start input.data * 4096
  · rw [(hregions a).2.2.1 (by omega) c3]
    exact mark_blocks_out input.data (sb_data_bitmap_start input.data * 4096)
      (sb_data_region_start input.data) (main_free_blocks input file)
      (fun j => lc.getD j 0) a (blocks_needed_for_file file.size)
      (fun j hj => (hidx j hj).2.2.2.1) h3
  by_cases c4 : a < sb_data_region_start input.data * 4096
  · rw [(hregions a).2.2.2.1 (by omega) c4]
    exact build_inode_out _ _ _ _ _ _ (by omega) h4
  · rw [(hregions a).2.2.2.2 (by omega)]
    exact write_blocks_out input.data (sb_data_region_start input.data * 4096)
      (sb_data_region_start input.data) (main_free_blocks input file) file a
      (fun j => lc.getD j 0) (by rw [hfblen]; simp only [BS]; exact hL1)
      (blocks_needed_for_file file.size)
      (fun j hj => by have := (hidx j hj).2.2.1; simp only [BS] at this ⊢; exact this)
      (fun j hj => by have := h8 j hj; simp only [BS]; exact this)

/-- The bits of the two bitmaps after a successful run on a well laid out image: a bit is
clear in the output exactly when it is clear in the input and is not the inode bit, or one
of the block bits, the run allocated. -/
theorem adder_bitmap_bits (input file : File) (filename : List Nat) (now f : Nat)
    (hl : LayoutOk input) (h : (adder_main input file filename now).exit_code = 0)
    (hf : main_free_inode input = (f : Int)) (k : Nat) (hk : k < 8 * BS) :
    (bitClear (adder_main input file filename now).image_data
        (sb_inode_bitmap_start input.data * BS) k
      ↔ (k ≠ f ∧ bitClear input.data (sb_inode_bitmap_start input.data * BS) k))
    ∧ (bitClear (adder_main input file filename now).image_data
        (sb_data_bitmap_start input.data * BS) k
      ↔ ((∀ j, j < blocks_needed_for_file file.size →
            k ≠ (lowest_clear input.data (sb_data_bitmap_start input.data * BS)
                  (sb_data_region_blocks input.data)
                  (blocks_needed_for_file file.size)).getD j 0)
          ∧ bitClear input.data (sb_data_bitmap_start input.data * BS) k)) := by
  obtain ⟨_, _, _, _, _, _, _, _, hfb, hlclen, _, _, _⟩ :=
    main_facts input file filename now hl h
  have hlow := adder_low_bytes input file filename now f hl h hf
  obtain ⟨hic, hdrb, l1, l2, l3, l4, l5, l6⟩ := hl
  have hidx := main_block_index input file (sb_data_region_start input.data)
    (sb_data_region_blocks input.data) _ hfb
    (fun x hx => (lowest_clear_mem _ _ _ _ x hx).1) hdrb l6
  rw [hlclen] at hidx
  have hk8 : k / 8 < BS := by unfold BS at hk ⊢; omega
  constructor
  · rw [← bitClear_set_bit]
    unfold bitClear
    rw [(hlow _).2.1 (by omega) (by omega)]
  · rw [← bitClear_mark_blocks input.data (sb_data_bitmap_start input.data * BS)
      (sb_data_region_start input.data) (main_free_blocks input file) _ k
      (blocks_needed_for_file file.size) (fun j hj => (hidx j hj).2.2.2.1)]
    unfold bitClear
    rw [(hlow _).2.2 (by omega) (by omega)]

/-- C21: after every successful insertion into a well laid out image the output file has
the length of the input, and every byte of the output equals the input byte at the same
offset except inside: the superblock checksum field (bytes 112..115), the inode-bitmap
byte holding the allocated inode bit `f`, the data-bitmap bytes holding the bits of the `N`
allocated blocks, the 128-byte slot of the new inode, the 128-byte slot of the root inode,
the 64-byte slot `e` of the new directory entry, and the `N` allocated data blocks; in the
two bitmap blocks only the allocated bits change. -/
theorem insertion_frame (input file : File) (filename : List Nat) (now : Nat)
    (hl : LayoutOk input) (h : (adder_main input file filename now).exit_code = 0) :
    (adder_main input file filename now).output
      = some ⟨input.size, (adder_main input file filename now).image_data⟩
    ∧ ∃ f e : Nat,
      main_free_inode input = (f : Int)
      ∧ main_free_entry input file now = (e : Int)
      ∧ f < sb_inode_count input.data ∧ e < 64
      ∧ (lowest_clear input.data (sb_data_bitmap_start input.data * BS)
          (sb_data_region_blocks input.data) (blocks_needed_for_file file.size)).length
          = blocks_needed_for_file file.size
      ∧ (∀ a, ¬ (112 ≤ a ∧ a < 116) →
          a ≠ sb_inode_bitmap_start input.data * BS + f / 8 →
          (∀ k, k ∈ lowest_clear input.data (sb_data_bitmap_start input.data * BS)
              (sb_data_region_blocks input.data) (blocks_needed_for_file file.size) →
            a ≠ sb_data_bitmap_start input.data * BS + k / 8) →
          ¬ (sb_inode_table_start input.data * BS + f * INODE_SIZE ≤ a
            ∧ a < sb_inode_table_start input.data * BS + f * INODE_SIZE + 128) →
          ¬ (sb_inode_table_start input.data * BS ≤ a
            ∧ a < sb_inode_table_start input.data * BS + 128) →
          ¬ (sb_data_region_start input.data * BS + e * 64 ≤ a
            ∧ a < sb_data_region_start input.data * BS + e * 64 + 64) →
          (∀ k, k ∈ lowest_clear input.data (sb_data_bitmap_start input.data * BS)
              (sb_data_region_blocks input.data) (blocks_needed_for_file file.size) →
            ¬ (sb_data_region_start input.data * BS + k * BS ≤ a
              ∧ a < sb_data_region_start input.data * BS + k * BS + BS)) →
          (adder_main input file filename now).image_data a = input.data a)
      ∧ (∀ k, k < 8 * BS → k ≠ f →
          (bitClear (adder_main input file filename now).image_data
              (sb_inode_bitmap_start input.data * BS) k
            ↔ bitClear input.data (sb_inode_bitmap_start input.data * BS) k))
      ∧ (∀ k, k < 8 * BS →
          k ∉ lowest_clear input.data (sb_data_bitmap_start input.data * BS)
              (sb_data_region_blocks input.data) (blocks_needed_for_file file.size) →
          (bitClear (adder_main input file filename now).image_data
              (sb_data_bitmap_start input.data * BS) k
            ↔ bitClear input.data (sb_data_bitmap_start input.data * BS) k)) := by
  obtain ⟨_, _, _, _, _, _, _, himg, _, hout⟩ := adder_main_success input file filename now h
  obtain ⟨f, e, hf, hflt, _, he, helt, hframe⟩ :=
    adder_frame_bytes input file filename now hl h
  obtain ⟨_, _, _, _, _, _, _, _, _, hlclen, _, _, _⟩ :=
    main_facts input file filename now hl h
  have hbits := adder_bitmap_bits input file filename now f hl h hf
  have hmem : ∀ j, j < blocks_needed_for_file file.size →
      (lowest_clear input.data (sb_data_bitmap_start input.data * BS)
        (sb_data_region_blocks input.data) (blocks_needed_for_file file.size)).getD j 0
      ∈ lowest_clear input.data (sb_data_bitmap_start input.data * BS)
        (sb_data_region_blocks input.data) (blocks_needed_for_file file.size) := by
    intro j hj
    rw [getD_of_lt _ j (by rw [hlclen]; exact hj)]
    exact List.getElem_mem _
  refine ⟨by rw [hout, himg], f, e, hf, he, hflt, helt, hlclen, ?_, ?_, ?_⟩
  · intro a h1 h2 h3 h4 h5 h6 h7
    simp only [BS, INODE_SIZE] at hframe hmem h2 h3 h4 h5 h6 h7
    apply hframe a (by omega) h2
    · intro j hj
      exact h3 _ (hmem j hj)
    · omega
    · omega
    · omega
    · omega
    · intro j hj
      have := h7 _ (hmem j hj)
      omega
  · intro k hk hkf
    rw [(hbits k hk).1]
    exact ⟨fun hc => hc.2, fun hc => ⟨hkf, hc⟩⟩
  · intro k hk hkl
    rw [(hbits k hk).2]
    refine ⟨fun hc => hc.2, fun hc => ⟨fun j hj hkj => ?_, hc⟩⟩
    rw [hkj] at hkl
    exact hkl (hmem j hj)

/-- C21 on Scenarios A and B: the insertion succeeds on the well laid out fresh image and
its output has the 184,320 bytes of the input. -/
theorem insertion_frame_witness :
    LayoutOk scenario_image
    ∧ (adder_main scenario_image scenario_file [104, 105] 2000).exit_code = 0
    ∧ (adder_main scenario_image scenario_file [104, 105] 2000).output
        = some ⟨scenario_image.size,
            (adder_main scenario_image scenario_file [104, 105] 2000).image_data⟩
    ∧ scenario_image.size = 184320 :=
  ⟨by decide, by decide,
    (insertion_frame scenario_image scenario_file [104, 105] 2000 (by decide) (by decide)).1,
    by decide⟩

/-! ### The adder: consistency of bitmaps and references -/

/-- The direct pointers of the new inode after a successful run on a well laid out image,
whichever slot it takes: the blocks found, then zeros. -/
theorem adder_new_pointers (input file : File) (filename : List Nat) (now f : Nat)
    (hl : LayoutOk input) (h : (adder_main input file filename now).exit_code = 0)
    (hf : main_free_inode input = (f : Int)) (i : Nat) (hi : i < 12) :
    (i < blocks_needed_for_file file.size →
      load (adder_main input file filename now).image_data
        (sb_inode_table_start input.data * BS + f * INODE_SIZE + 44 + 4 * i) 4
      = sb_data_region_start input.data
        + (lowest_clear input.data (sb_data_bitmap_start input.data * BS)
            (sb_data_region_blocks input.data) (blocks_needed_for_file file.size)).getD i 0)
    ∧ (blocks_needed_for_file file.size ≤ i →
      load (adder_main input file filename now).image_data
        (sb_inode_table_start input.data * BS + f * INODE_SIZE + 44 + 4 * i) 4 = 0) := by
  obtain ⟨f', e, hf', hflt, hfc, hfmin, he, helt, hfb, hlclen, hfblen, hN, hs⟩ :=
    main_facts input file filename now hl h
  have hff : f' = f := by rw [hf] at hf'; exact_mod_cast hf'.symm
  subst hff
  obtain ⟨_, _, _, _, _, _, _, himg, _, _⟩ := adder_main_success input file filename now h
  have hregions := main_alloc_regions input file now f' hl hf hflt hfb hlclen hN
  obtain ⟨hic, hdrb, l1, l2, l3, l4, l5, l6⟩ := hl
  have hidx := main_block_index input file (sb_data_region_start input.data)
    (sb_data_region_blocks input.data) _ hfb
    (fun x hx => (lowest_clear_mem _ _ _ _ x hx).1) hdrb l6
  rw [hlclen] at hidx
  obtain ⟨_, _, _, _, _, b5, b6⟩ := build_inode_fields input.data
    (sb_inode_table_start input.data * BS + f' * INODE_SIZE) file.size now
    (main_free_blocks input file) (by omega)
  rw [hfblen] at b5 b6
  have hload : load (adder_main input file filename now).image_data
        (sb_inode_table_start input.data * BS + f' * INODE_SIZE + 44 + 4 * i) 4
      = load (build_inode input.data (sb_inode_table_start input.data * BS + f' * INODE_SIZE)
          file.size now (main_free_blocks input file))
          (sb_inode_table_start input.data * BS + f' * INODE_SIZE + 44 + 4 * i) 4 := by
    apply load_eq_of_agree
    intro a ha1 ha2
    simp only [BS, INODE_SIZE] at *
    rw [himg, main_link_out input file filename now f' e a hf he hs (by omega) (by omega)
      (by omega) (by omega) (by omega)]
    exact (hregions a).2.2.2.1 (by omega) (by omega)
  constructor
  · intro hiN
    have hlt := (hidx i hiN).2.1
    rw [hload, b5 i hiN, (hidx i hiN).2.2.2.2]
    exact Nat.mod_eq_of_lt (by omega)
  · intro hiN
    rw [hload]
    exact b6 i hiN hi

/-- The root directory scan of a successful run on a well laid out image whose root
directory block is allocated reads the input's block: the slot it finds has `inode_no` 0
in the input. -/
theorem adder_free_slot (input file : File) (filename : List Nat) (now e : Nat)
    (hl : LayoutOk input)
    (hd : ¬ bitClear input.data (sb_data_bitmap_start input.data * BS) 0)
    (h : (adder_main input file filename now).exit_code = 0)
    (he : main_free_entry input file now = (e : Int)) :
    e < 64 ∧ load input.data (sb_data_region_start input.data * BS + e * 64) 4 = 0 := by
  obtain ⟨f, e0, hf, hflt, hfc, hfmin, he0, helt, hfb, hlclen, hfblen, hN, hs⟩ :=
    main_facts input file filename now hl h
  have hee : e0 = e := by rw [he] at he0; exact_mod_cast he0.symm
  rw [hee] at helt
  obtain ⟨_, _, _, _, _, e5, _⟩ := main_superblock_fields input
  have hregions := main_alloc_regions input file now f hl hf hflt hfb hlclen hN
  have hl' := hl
  obtain ⟨hic, hdrb, l1, l2, l3, l4, l5, l6⟩ := hl'
  have hidx := main_block_index input file (sb_data_region_start input.data)
    (sb_data_region_blocks input.data) _ hfb
    (fun x hx => (lowest_clear_mem _ _ _ _ x hx).1) hdrb l6
  rw [hlclen] at hidx
  have hne0 : ∀ j, j < blocks_needed_for_file file.size →
      (lowest_clear input.data (sb_data_bitmap_start input.data * BS)
        (sb_data_region_blocks input.data) (blocks_needed_for_file file.size)).getD j 0
        ≠ 0 := by
    intro j hj h0
    have hc := (lowest_clear_getD_clear input.data (sb_data_bitmap_start input.data * BS)
      (sb_data_region_blocks input.data) (blocks_needed_for_file file.size) j
      (by rw [hlclen]; exact hj)).2
    rw [h0] at hc
    exact hd hc
  obtain ⟨hL1, _⟩ := blocks_needed_bounds file.size
  generalize hlc : lowest_clear input.data (sb_data_bitmap_start input.data * BS)
    (sb_data_region_blocks input.data) (blocks_needed_for_file file.size) = lc at *
  have hroot : ∀ a, sb_data_region_start input.data * 4096 ≤ a →
      a < sb_data_region_start input.data * 4096 + 4096 →
      main_alloc input file now a = input.data a := by
    intro a ha1 ha2
    have hw := write_blocks_out input.data (sb_data_region_start input.data * BS)
      (sb_data_region_start input.data) (main_free_blocks input file) file a
      (fun j => lc.getD j 0)
      (by rw [hfblen]; exact hL1) (blocks_needed_for_file file.size)
      (fun j hj => (hidx j hj).2.2.1)
      (fun j hj => by
        have := hne0 j hj
        left
        simp only [BS]
        omega)
    rw [← hw]
    exact (hregions a).2.2.2.2 (by simp only [BS]; omega)
  have hes := find_free_entry_spec (main_alloc input file now)
    (sb_data_region_start (main_superblock input) * BS) (BS / 64) 0
  have hfe' : main_free_entry input file now
      = find_free_entry (main_alloc input file now)
          (sb_data_region_start (main_superblock input) * BS) (BS / 64) 0 := rfl
  rw [← hfe', he, e5] at hes
  refine ⟨helt, ?_⟩
  rcases hes with ⟨hneg, _⟩ | ⟨e1, he1, _, _, hz, _⟩
  · omega
  · have hee1 : e1 = e := by exact_mod_cast he1.symm
    rw [hee1] at hz
    rw [← hz]
    apply load_eq_of_agree
    intro a ha1 ha2
    simp only [BS] at ha1 ha2
    exact (hroot a (by omega) (by omega)).symm

/-- The blocks given to the new file, as block numbers: `data_region_start` plus the lowest
clear bit indices, without truncation. -/
theorem main_free_blocks_numbers (input file : File) (filename : List Nat) (now : Nat)
    (hl : LayoutOk input) (h : (adder_main input file filename now).exit_code = 0) :
    main_free_blocks input file
      = (lowest_clear input.data (sb_data_bitmap_start input.data * BS)
          (sb_data_region_blocks input.data) (blocks_needed_for_file file.size)).map
          (fun j => sb_data_region_start input.data + j) := by
  obtain ⟨_, _, _, _, _, _, _, _, hfb, _, _, _, _⟩ := main_facts input file filename now hl h
  obtain ⟨hic, hdrb, l1, l2, l3, l4, l5, l6⟩ := hl
  rw [hfb]
  apply List.map_congr_left
  intro k hk
  have := (lowest_clear_mem _ _ _ _ k hk).1
  exact Nat.mod_eq_of_lt (by omega)

/-- C22: a successful insertion into a well laid out image preserves bitmap/reference
consistency and never double-allocates.  If in the input every inode-table slot whose
bitmap bit is set references, through its non-zero direct pointers, only data blocks whose
data-bitmap bit is set, and the root directory block has its bit set, then the same holds
for the output; the `N` blocks given to the new file are pairwise distinct, lie in
`[data_region_start, data_region_start + data_region_blocks)`, were free, and are the
direct pointers of the new inode; none of them is referenced by an inode allocated in the
input; every block such an inode references is unchanged outside the slot of the new
directory entry; and the root directory block is unchanged outside that slot, which had
`inode_no` 0. -/
theorem adder_keeps_consistency (input file : File) (filename : List Nat) (now : Nat)
    (hl : LayoutOk input) (hc : Consistent input)
    (h : (adder_main input file filename now).exit_code = 0) :
    Consistent ⟨input.size, (adder_main input file filename now).image_data⟩
    ∧ (main_free_blocks input file).length = blocks_needed_for_file file.size
    ∧ (main_free_blocks input file).Nodup
    ∧ (∀ b, b ∈ main_free_blocks input file →
        sb_data_region_start input.data ≤ b
        ∧ b < sb_data_region_start input.data + sb_data_region_blocks input.data
        ∧ bitClear input.data (sb_data_bitmap_start input.data * BS)
            (b - sb_data_region_start input.data))
    ∧ (∀ s, s < sb_inode_count input.data →
        ¬ bitClear input.data (sb_inode_bitmap_start input.data * BS) s →
        ∀ i, i < 12 →
          load input.data
              (sb_inode_table_start input.data * BS + s * INODE_SIZE + 44 + 4 * i) 4
            ∉ main_free_blocks input file)
    ∧ ∃ f e : Nat,
      main_free_inode input = (f : Int)
      ∧ main_free_entry input file now = (e : Int)
      ∧ e < 64
      ∧ load input.data (sb_data_region_start input.data * BS + e * 64) 4 = 0
      ∧ (∀ i, i < blocks_needed_for_file file.size →
          load (adder_main input file filename now).image_data
              (sb_inode_table_start input.data * BS + f * INODE_SIZE + 44 + 4 * i) 4
            = (main_free_blocks input file).getD i 0)
      ∧ (∀ s, s < sb_inode_count input.data →
          ¬ bitClear input.data (sb_inode_bitmap_start input.data * BS) s →
          ∀ i, i < 12 →
            load input.data
                (sb_inode_table_start input.data * BS + s * INODE_SIZE + 44 + 4 * i) 4 ≠ 0 →
            ∀ x, x < BS →
              (load input.data
                    (sb_inode_table_start input.data * BS + s * INODE_SIZE + 44 + 4 * i) 4 * BS
                  + x < sb_data_region_start input.data * BS + e * 64
                ∨ sb_data_region_start input.data * BS + e * 64 + 64
                  ≤ load input.data
                      (sb_inode_table_start input.data * BS + s * INODE_SIZE + 44 + 4 * i) 4
                      * BS + x) →
              (adder_main input file filename now).image_data
                  (load input.data
                      (sb_inode_table_start input.data * BS + s * INODE_SIZE + 44 + 4 * i) 4
                    * BS + x)
                = input.data
                  (load input.data
                      (sb_inode_table_start input.data * BS + s * INODE_SIZE + 44 + 4 * i) 4
                    * BS + x))
      ∧ (∀ a, sb_data_region_start input.data * BS ≤ a →
          a < sb_data_region_start input.data * BS + BS →
          (a < sb_data_region_start input.data * BS + e * 64
            ∨ sb_data_region_start input.data * BS + e * 64 + 64 ≤ a) →
          (adder_main input file filename now).image_data a = input.data a) := by
  obtain ⟨f, e, hf, hflt, hfc, he, helt, hframe⟩ :=
    adder_frame_bytes input file filename now hl h
  obtain ⟨_, _, _, _, _, _, _, _, hfb, hlclen, hfblen, hN, _⟩ :=
    main_facts input file filename now hl h
  have hnum := main_free_blocks_numbers input file filename now hl h
  have hbits := adder_bitmap_bits input file filename now f hl h hf
  have hptr := adder_new_pointers input file filename now f hl h hf
  obtain ⟨k1, k2, k3, k4, k5, k6, _⟩ := adder_keeps_layout input file filename now hl h
  obtain ⟨_, hslot⟩ := adder_free_slot input file filename now e hl hc.2 h he
  obtain ⟨hcs, hc0⟩ := hc
  have hl' := hl
  obtain ⟨hic, hdrb, l1, l2, l3, l4, l5, l6⟩ := hl'
  have hidx := main_block_index input file (sb_data_region_start input.data)
    (sb_data_region_blocks input.data) _ hfb
    (fun x hx => (lowest_clear_mem _ _ _ _ x hx).1) hdrb l6
  rw [hlclen] at hidx
  generalize hlc : lowest_clear input.data (sb_data_bitmap_start input.data * BS)
    (sb_data_region_blocks input.data) (blocks_needed_for_file file.size) = lc at *
  have hlcmem : ∀ k, k ∈ lc → k < sb_data_region_blocks input.data
      ∧ bitClear input.data (sb_data_bitmap_start input.data * BS) k := by
    intro k hk
    rw [← hlc] at hk
    exact lowest_clear_mem _ _ _ _ k hk
  have hget : ∀ j, j < blocks_needed_for_file file.size → lc.getD j 0 ∈ lc := by
    intro j hj
    rw [getD_of_lt _ j (by rw [hlclen]; exact hj)]
    exact List.getElem_mem _
  have hmemfb : ∀ b, b ∈ main_free_blocks input file →
      ∃ k, k ∈ lc ∧ b = sb_data_region_start input.data + k := by
    intro b hb
    rw [hnum, List.mem_map] at hb
    obtain ⟨k, hk, hkb⟩ := hb
    exact ⟨k, hk, hkb.symm⟩
  -- a block whose bit is set in the input is none of the blocks found
  have hnotfound : ∀ k, ¬ bitClear input.data (sb_data_bitmap_start input.data * BS) k →
      ∀ j, j < blocks_needed_for_file file.size → k ≠ lc.getD j 0 := by
    intro k hk j hj hkj
    rw [hkj] at hk
    exact hk (hlcmem _ (hget j hj)).2
  -- bits that are set stay set
  have hstay : ∀ k, k < 8 * BS →
      ¬ bitClear input.data (sb_data_bitmap_start input.data * BS) k →
      ¬ bitClear (adder_main input file filename now).image_data
        (sb_data_bitmap_start input.data * BS) k :=
    fun k hk hset hclr => hset ((hbits k hk).2.1 hclr).2
  -- the pointer fields of a slot other than the new inode's are the input's
  have hold : ∀ s, s < sb_inode_count input.data → s ≠ f → ∀ i, i < 12 →
      load (adder_main input file filename now).image_data
          (sb_inode_table_start input.data * BS + s * INODE_SIZE + 44 + 4 * i) 4
        = load input.data
          (sb_inode_table_start input.data * BS + s * INODE_SIZE + 44 + 4 * i) 4 := by
    intro s hs hsf i hi
    apply load_eq_of_agree
    intro a ha1 ha2
    simp only [BS, INODE_SIZE] at *
    apply hframe a (by omega) (by omega)
    · intro j hj
      have := (hlcmem _ (hget j hj)).1
      omega
    · omega
    · omega
    · omega
    · omega
    · intro j hj; omega
  -- the bytes of a block whose bit is set in the input, outside the new entry's slot
  have hblock : ∀ k,
      ¬ bitClear input.data (sb_data_bitmap_start input.data * BS) k →
      ∀ x, x < 4096 →
        ((sb_data_region_start input.data + k) * 4096 + x
            < sb_data_region_start input.data * 4096 + e * 64
          ∨ sb_data_region_start input.data * 4096 + e * 64 + 64
            ≤ (sb_data_region_start input.data + k) * 4096 + x) →
        (adder_main input file filename now).image_data
            ((sb_data_region_start input.data + k) * 4096 + x)
          = input.data ((sb_data_region_start input.data + k) * 4096 + x) := by
    intro k hset x hx hout
    have hnf := hnotfound k hset
    simp only [BS, INODE_SIZE] at *
    apply hframe _ (by omega) (by omega)
    · intro j hj
      have := (hlcmem _ (hget j hj)).1
      omega
    · omega
    · omega
    · omega
    · exact hout
    · intro j hj
      have := hnf j hj
      omega
  refine ⟨?_, hfblen, ?_, ?_, ?_, f, e, hf, he, helt, hslot, ?_, ?_, ?_⟩
  · -- the output is consistent
    unfold Consistent PointerOk
    simp only [k1, k2, k3, k4, k5, k6]
    refine ⟨?_, hstay 0 (by unfold BS; omega) hc0⟩
    intro s hs hset i hi hne
    by_cases hsf : s = f
    · subst hsf
      by_cases hiN : i < blocks_needed_for_file file.size
      · rw [(hptr i hi).1 hiN]
        have hm := hlcmem _ (hget i hiN)
        refine ⟨by omega, by omega, ?_⟩
        rw [Nat.add_sub_cancel_left]
        intro hclr
        exact ((hbits _ (by omega)).2.1 hclr).1 i hiN rfl
      · exact absurd ((hptr i hi).2 (by omega)) hne
    · have hsin : ¬ bitClear input.data (sb_inode_bitmap_start input.data * BS) s :=
        fun hclr => hset ((hbits s (by omega)).1.2 ⟨hsf, hclr⟩)
      rw [hold s hs hsf i hi] at hne ⊢
      have hp := hcs s hs hsin i hi
      unfold PointerOk at hp
      obtain ⟨p1, p2, p3⟩ := hp hne
      exact ⟨p1, p2, hstay _ (by omega) p3⟩
  · -- pairwise distinct
    rw [hnum]
    apply List.Nodup.map (fun a b hab => by simpa using hab)
    have hs := lowest_clear_sorted input.data (sb_data_bitmap_start input.data * BS)
      (sb_data_region_blocks input.data) (blocks_needed_for_file file.size)
    rw [hlc] at hs
    exact hs.imp (fun hab => Nat.ne_of_lt hab)
  · -- inside the data region, and free in the input
    intro b hb
    obtain ⟨k, hk, hkb⟩ := hmemfb b hb
    have hm := hlcmem k hk
    subst hkb
    rw [Nat.add_sub_cancel_left]
    exact ⟨by omega, by omega, hm.2⟩
  · -- not referenced by an inode allocated in the input
    intro s hs hset i hi hmem
    obtain ⟨k, hk, hkb⟩ := hmemfb _ hmem
    have hp := hcs s hs hset i hi
    unfold PointerOk at hp
    have hne : load input.data
        (sb_inode_table_start input.data * BS + s * INODE_SIZE + 44 + 4 * i) 4 ≠ 0 := by
      simp only [BS, INODE_SIZE] at *
      omega
    obtain ⟨_, _, p3⟩ := hp hne
    rw [hkb, Nat.add_sub_cancel_left] at p3
    exact p3 (hlcmem k hk).2
  · -- the new inode's pointers are the blocks
    intro i hiN
    rw [(hptr i (by omega)).1 hiN, (hidx i hiN).2.2.2.2]
  · -- referenced blocks are unchanged
    intro s hs hset i hi hne x hx hout
    have hp := hcs s hs hset i hi
    unfold PointerOk at hp
    obtain ⟨p1, p2, p3⟩ := hp hne
    generalize load input.data
      (sb_inode_table_start input.data * BS + s * INODE_SIZE + 44 + 4 * i) 4 = d at *
    have hd : d = sb_data_region_start input.data + (d - sb_data_region_start input.data) := by
      omega
    have hb := hblock (d - sb_data_region_start input.data) p3 x
      (by unfold BS at hx; exact hx)
    rw [← hd] at hb
    have hBS : BS = 4096 := rfl
    rw [hBS] at hout ⊢
    exact hb hout
  · -- the root directory block
    intro a ha1 ha2 hout
    have hb := hblock 0 hc0 (a - sb_data_region_start input.data * 4096)
      (by simp only [BS] at ha1 ha2; omega)
    have hBS : BS = 4096 := rfl
    rw [hBS] at ha1 ha2 hout
    have ea : (sb_data_region_start input.data + 0) * 4096
        + (a - sb_data_region_start input.data * 4096) = a := by omega
    rw [ea] at hb
    exact hb hout

/-- C22 on Scenario B's output: a second 10,000-byte file, named "yo", is inserted into
the image that already holds "hi" in blocks 8, 9, 10; it is given blocks 11, 12, 13 and
the output is consistent. -/
theorem adder_keeps_consistency_witness :
    LayoutOk scenario_image_with_file ∧ Consistent scenario_image_with_file
    ∧ (adder_main scenario_image_with_file scenario_file [121, 111] 3000).exit_code = 0
    ∧ Consistent ⟨scenario_image_with_file.size,
        (adder_main scenario_image_with_file scenario_file [121, 111] 3000).image_data⟩
    ∧ main_free_blocks scenario_image_with_file scenario_file = [11, 12, 13]
    ∧ (main_free_blocks scenario_image_with_file scenario_file).Nodup
    ∧ (∀ s, s < sb_inode_count scenario_image_with_file.data →
        ¬ bitClear scenario_image_with_file.data
          (sb_inode_bitmap_start scenario_image_with_file.data * BS) s →
        ∀ i, i < 12 →
          load scenario_image_with_file.data
              (sb_inode_table_start scenario_image_with_file.data * BS + s * INODE_SIZE
                + 44 + 4 * i) 4
            ∉ main_free_blocks scenario_image_with_file scenario_file) :=
  have hw := adder_keeps_consistency scenario_image_with_file scenario_file [121, 111] 3000
    (by decide) (by decide) (by decide)
  ⟨by decide, by decide, by decide, hw.1, by decide, hw.2.2.1, hw.2.2.2.2.1⟩

end MiniVSFS
